import Mathlib

/-!
The 6502 assembly <-> IR pipeline: line classifier and assembly reconstructor.

Shallow embedding of `convert.cpp` (class `AssemblyToJsonConverter`), of `unconvert.cpp`
(class `JsonToAssemblyConverter`) and of the generators of `createcpp.cpp`.

Modelling conventions
* `std::string` is `List Char` (one `Char` per byte of the C++ string).
* `std::string::npos` results are `Option Nat` with `none`.
* A member function that mutates `Token& token` and the member `constants`
  takes both as arguments and returns their new values.
* `std::istringstream` is the list of characters not yet consumed; a failed
  extraction leaves its target untouched and exhausts the stream.
-/

namespace Asm6502

abbrev Str := List Char

/-! ## convert.cpp -/

inductive TokenType where
  | LABEL
  | INSTRUCTION
  | DATA_BYTES
  | DATA_WORDS
  | DIRECTIVE
  | CONSTANT_DECL
  | COMMENT
  | UNKNOWN
  deriving DecidableEq

structure Token where
  type : TokenType
  value : Str
  operand : Str
  comment : Str
  lineNumber : Int
  dataValues : List Str
  deriving DecidableEq

/-- The table `std::map<std::string, std::string> constants`, as an association list
with at most one entry per key (its iteration order is never observed). -/
abbrev ConstMap := List (Str × Str)

/-- The assignment `constants[k] = v`: insert or overwrite. -/
def ConstMap.assign (m : ConstMap) (k v : Str) : ConstMap :=
  (k, v) :: m.filter (fun e => e.1 ≠ k)

/-- The lookup `constants.find(k)`. -/
def ConstMap.get? (m : ConstMap) (k : Str) : Option Str :=
  List.lookup k m

/-- The vector `instructions` of `isInstruction`. -/
def instructions : List Str :=
  ["lda", "ldx", "ldy", "sta", "stx", "sty",
   "tax", "tay", "txa", "tya", "tsx", "txs",
   "pha", "php", "pla", "plp",
   "and", "eor", "ora", "bit",
   "adc", "sbc", "cmp", "cpx", "cpy",
   "inc", "inx", "iny", "dec", "dex", "dey",
   "asl", "lsr", "rol", "ror",
   "jmp", "jsr", "rts",
   "bcc", "bcs", "beq", "bmi", "bne", "bpl", "bvc", "bvs",
   "clc", "cld", "cli", "clv", "sec", "sed", "sei",
   "brk", "nop", "rti"].map String.toList

/-- The loop `for (inst : instructions) if (word == inst) return true; return false`. -/
def isInstruction (word : Str) : Bool :=
  instructions.any (fun inst => word == inst)

/-- Membership in the character set `" \t\r\n"` used by `trim`. -/
def isTrimWs (c : Char) : Bool :=
  c == ' ' || c == '\t' || c == '\r' || c == '\n'

/-- The predicate `std::isspace` of the classic locale (space, `\t`, `\n`, `\v`, `\f`, `\r`):
the whitespace skipped by `operator>>` and matched by the regex class `\s`. -/
def isSpace (c : Char) : Bool :=
  c == ' ' || c == '\t' || c == '\n' || c == Char.ofNat 11 || c == Char.ofNat 12 || c == '\r'

/-- The function `trim`: `substr(start, end - start + 1)` between the first and the last
character outside `" \t\r\n"`, and `""` when there is none. -/
def trim (str : Str) : Str :=
  (str.dropWhile isTrimWs).rdropWhile isTrimWs

/-- The call `str.find(c)`: index of the first occurrence, `none` for `npos`. -/
def find (c : Char) : Str → Option Nat
  | [] => none
  | x :: xs => if x = c then some 0 else (find c xs).map (· + 1)

/-- The loop `while (std::getline(stream, token, delimiter)) out.push_back(token)`, run
character by character; `cur` is the token being read.  At end of input a non-empty `cur` is
the last token; an empty one means that `getline` extracted nothing and failed. -/
def getlineAll (delimiter : Char) : Str → Str → List Str
  | [], cur => if cur.isEmpty then [] else [cur]
  | c :: cs, cur =>
    if c = delimiter then cur :: getlineAll delimiter cs []
    else getlineAll delimiter cs (cur ++ [c])

/-- The function `split`: every token read by `getline` is pushed trimmed. -/
def split (str : Str) (delimiter : Char) : List Str :=
  (getlineAll delimiter str []).map trim

def extractComment (line : Str) : Str :=
  match find ';' line with
  | some commentPos => trim (line.drop (commentPos + 1))
  | none => []

def removeComment (line : Str) : Str :=
  match find ';' line with
  | some commentPos => trim (line.take commentPos)
  | none => trim line

/-- The extraction `iss >> word` on the unread characters `s`: skip leading `isspace`
characters, then read up to the next one.  `none` when no character is left to read (the
extraction fails, the target keeps its value, and every later read fails too). -/
def extractWord (s : Str) : Option Str × Str :=
  let s1 := s.dropWhile isSpace
  if s1.isEmpty then (none, [])
  else (some (s1.takeWhile (fun c => !isSpace c)), s1.dropWhile (fun c => !isSpace c))

/-- The call `std::getline(iss, rest)` on the unread characters `s`, into a fresh `rest`:
the characters up to the first newline. -/
def getlineRest (s : Str) : Str :=
  s.takeWhile (fun c => c ≠ '\n')

/-- The result of `classifyLine`: the returned kind, `token` and `constants` after the call. -/
structure Classified where
  kind : TokenType
  token : Token
  constants : ConstMap
  deriving DecidableEq

def classifyLine (line : Str) (token : Token) (constants : ConstMap) : Classified :=
  let cleanLine := removeComment line
  let token := { token with comment := extractComment line }
  if cleanLine.isEmpty then
    ⟨.COMMENT, token, constants⟩
  -- Check for label (ends with :)
  else if cleanLine.getLast? = some ':' then
    ⟨.LABEL, { token with value := cleanLine.take (cleanLine.length - 1) }, constants⟩
  else
    -- Check for constant declaration (contains =)
    match find '=' cleanLine with
    | some equalPos =>
      let value := trim (cleanLine.take equalPos)
      let operand := trim (cleanLine.drop (equalPos + 1))
      ⟨.CONSTANT_DECL, { token with value := value, operand := operand },
        constants.assign value operand⟩
    | none =>
      -- Check for data directives
      if cleanLine.take 3 = ".db".toList then
        ⟨.DATA_BYTES,
          { token with value := ".db".toList, dataValues := split (trim (cleanLine.drop 3)) ',' },
          constants⟩
      else if cleanLine.take 3 = ".dw".toList then
        ⟨.DATA_WORDS,
          { token with value := ".dw".toList, dataValues := split (trim (cleanLine.drop 3)) ',' },
          constants⟩
      -- Check for other directives (start with .)
      else if cleanLine.head? = some '.' then
        match extractWord cleanLine with
        | (none, _) => ⟨.DIRECTIVE, token, constants⟩
        | (some v, rest) =>
          match extractWord rest with
          | (none, _) => ⟨.DIRECTIVE, { token with value := v }, constants⟩
          | (some o, _) => ⟨.DIRECTIVE, { token with value := v, operand := o }, constants⟩
      else
        -- Check for instructions
        let r := extractWord cleanLine
        let firstWord := r.1.getD []
        if isInstruction firstWord then
          ⟨.INSTRUCTION,
            { token with value := firstWord, operand := trim (getlineRest r.2) }, constants⟩
        else
          ⟨.UNKNOWN, token, constants⟩

/-- The state of an `AssemblyToJsonConverter`: its members `tokens` and `constants`. -/
structure Converter where
  tokens : List Token
  constants : ConstMap
  deriving DecidableEq

/-- The local `Token token;` of `parseFile` after `token.lineNumber = lineNumber`: the strings
and the vector are empty; `type` is not yet assigned (it is overwritten before any read). -/
def freshToken (lineNumber : Int) : Token :=
  { type := .UNKNOWN, value := [], operand := [], comment := [],
    lineNumber := lineNumber, dataValues := [] }

/-- One iteration of the `while (std::getline(file, line))` loop of `parseFile`. -/
def parseStep (st : Converter) (lineNumber : Int) (line : Str) : Converter :=
  let r := classifyLine line (freshToken lineNumber) st.constants
  let token : Token := { r.token with type := r.kind }
  if token.type ≠ .COMMENT ∨ ¬ token.comment.isEmpty then
    { tokens := st.tokens ++ [token], constants := r.constants }
  else
    { tokens := st.tokens, constants := r.constants }

/-- The loop of `parseFile` over the lines still to read, `lineNumber` being the number of
the next one. -/
def parseLines : List Str → Int → Converter → Converter
  | [], _, st => st
  | line :: rest, lineNumber, st => parseLines rest (lineNumber + 1) (parseStep st lineNumber line)

/-- The function `parseFile` on the contents of a file that could be opened. -/
def parseFile (content : Str) : Converter :=
  parseLines (getlineAll '\n' content []) 1 { tokens := [], constants := [] }

/-- The replacement that `escapeJson` writes for one character. -/
def escapeChar (c : Char) : Str :=
  if c = '"' then ['\\', '"']
  else if c = '\\' then ['\\', '\\']
  else if c = Char.ofNat 8 then ['\\', 'b']
  else if c = Char.ofNat 12 then ['\\', 'f']
  else if c = '\n' then ['\\', 'n']
  else if c = '\r' then ['\\', 'r']
  else if c = '\t' then ['\\', 't']
  else [c]

def escapeJson (str : Str) : Str :=
  (str.map escapeChar).flatten

/-- The text of `json << i` for an `int`. -/
def intText (i : Int) : Str :=
  if i < 0 then '-' :: Nat.toDigits 10 i.natAbs else Nat.toDigits 10 i.toNat

/-- The object that the `Constants section` loop of `generateJson` writes for one
`CONSTANT_DECL` token, from its opening brace to its closing brace. -/
def generateJsonConstant (token : Token) : Str :=
  "      \x7b\n".toList ++
  "        \"name\": \"".toList ++ escapeJson token.value ++ "\",\n".toList ++
  "        \"value\": \"".toList ++ escapeJson token.operand ++ "\",\n".toList ++
  "        \"line\": ".toList ++ intText token.lineNumber ++
  (if ¬ token.comment.isEmpty then
    ",\n        \"comment\": \"".toList ++ escapeJson token.comment ++ "\"".toList
   else []) ++
  "\n      \x7d".toList

/-! ## unconvert.cpp -/

namespace JsonToAssemblyConverter

structure ProgramLine where
  lineNumber : Int
  type : Str
  content : Str
  comment : Str
  name : Str
  value : Str
  operand : Str
  mnemonic : Str
  directive : Str
  values : List Str
  deriving DecidableEq

/-- The call `std::regex_replace(s, std::regex("\\s+"), " ")`, read left to right: every
maximal run of `\s` characters becomes one space.  `inRun` tells that the previous character
belonged to a run, whose space is already written. -/
def collapseSpaces : Bool → Str → Str
  | _, [] => []
  | inRun, c :: cs =>
    if isSpace c then
      if inRun then collapseSpaces true cs else ' ' :: collapseSpaces true cs
    else c :: collapseSpaces false cs

/-- The call `std::regex_replace(s, std::regex("^\\s+|\\s+$"), "")`: the run of `\s` characters
at the start and the one at the end are removed. -/
def stripSpaces (s : Str) : Str :=
  (s.dropWhile isSpace).rdropWhile isSpace

/-- The function `formatForCa65`; its three final branches all return `formatted`. -/
def formatForCa65 (str : Str) : Str :=
  let formatted := collapseSpaces false str
  let formatted := stripSpaces formatted
  if formatted.isEmpty then
    []
  else if formatted.head? = some '"' ∧ formatted.getLast? = some '"' ∧ formatted.length ≥ 2 then
    formatted
  else if formatted.any (fun c => "()[]\x7b\x7d#$%<>".toList.contains c) then
    formatted
  else
    formatted

/-- The function `isInstruction` of `unconvert.cpp`: the mnemonic is lower-cased first. -/
def isInstruction (mnemonic : Str) : Bool :=
  instructions.contains (mnemonic.map Char.toLower)

/-- The value of `reconstructed_line` when the `if`/`else if` chain of the loop body of
`generateAssembly` is left; `none` when the body runs `continue`. -/
def reconstructLine (line : ProgramLine) : Option Str :=
  if line.type = "constants".toList then
    some (formatForCa65 (line.name ++ " = ".toList ++ line.value))
  else if line.type = "labels".toList then
    some (formatForCa65 line.name ++ ":".toList)
  else if line.type = "instructions".toList then
    let mnemonic := formatForCa65 line.mnemonic
    let operand := formatForCa65 line.operand
    if mnemonic.isEmpty then none
    else if isInstruction mnemonic then
      some ("    ".toList ++ mnemonic ++ (if ¬ operand.isEmpty then " ".toList ++ operand else []))
    else
      some ("    ".toList ++ mnemonic ++ (if ¬ operand.isEmpty then " ".toList ++ operand else []))
  else if line.type = "data".toList then
    let directive := formatForCa65 line.directive
    if directive.isEmpty then none
    else
      let validValues := (line.values.map formatForCa65).filter (fun v => !v.isEmpty)
      some ("    ".toList ++ directive ++
        (if ¬ line.values.isEmpty ∧ ¬ validValues.isEmpty then
          " ".toList ++ List.intercalate ", ".toList validValues
        else []))
  else if line.type = "directives".toList then
    let directive := formatForCa65 line.name
    let operand := formatForCa65 line.operand
    if directive.isEmpty then none
    else
      some ((if directive.head? = some '.' then directive else "    ".toList ++ directive) ++
        (if ¬ operand.isEmpty then " ".toList ++ operand else []))
  else
    some []

/-- The step `Add comment if present` of the loop body, on the line reconstructed so far. -/
def addComment (line : ProgramLine) (reconstructed_line : Str) : Str :=
  if ¬ line.comment.isEmpty then
    let comment := formatForCa65 line.comment
    if ¬ reconstructed_line.isEmpty then
      reconstructed_line ++ List.replicate (40 - reconstructed_line.length) ' ' ++
        "; ".toList ++ comment
    else
      "; ".toList ++ comment
  else
    reconstructed_line

/-- The line that one iteration of the loop of `generateAssembly` writes, without its final
newline; `none` when the iteration writes nothing. -/
def outputLine (line : ProgramLine) : Option Str :=
  match reconstructLine line with
  | none => none
  | some r => if ¬ (addComment line r).isEmpty then some (addComment line r) else none

def generateAssembly (programFlow : List ProgramLine) : Str :=
  (programFlow.map (fun line =>
    match outputLine line with
    | none => []
    | some r => r ++ "\n".toList)).flatten

/-- The function `unescapeJson` of `unconvert.cpp`, on the characters from index `i` on: a
backslash that has a character after it is read together with that character. -/
def unescapeJson : Str → Str
  | [] => []
  | [c] => [c]
  | c :: d :: rest =>
    if c = '\\' then
      if d = '"' then '"' :: unescapeJson rest
      else if d = '\\' then '\\' :: unescapeJson rest
      else if d = 'b' then Char.ofNat 8 :: unescapeJson rest
      else if d = 'f' then Char.ofNat 12 :: unescapeJson rest
      else if d = 'n' then '\n' :: unescapeJson rest
      else if d = 'r' then '\r' :: unescapeJson rest
      else if d = 't' then '\t' :: unescapeJson rest
      else c :: unescapeJson (d :: rest)
    else c :: unescapeJson (d :: rest)

/-- The search of `std::string::find` over the characters `s` that start at index `i`. -/
def findFrom (needle : Str) : Str → Nat → Option Nat
  | [], i => if needle.isEmpty then some i else none
  | c :: cs, i =>
    if (c :: cs).take needle.length = needle then some i else findFrom needle cs (i + 1)

/-- The call `s.find(needle, pos)`; `none` for `npos`. -/
def strFind (s needle : Str) (pos : Nat) : Option Nat :=
  if pos ≤ s.length then findFrom needle (s.drop pos) pos else none

/-- The loop `while (endQuote < length) if (s[endQuote] == '"' && s[endQuote - 1] != '\\')
break; else endQuote++`, over the characters from index `i` on, `prev` being the character at
`i - 1`; `none` when the loop runs to the end. -/
def scanQuote : Char → Str → Nat → Option Nat
  | _, [], _ => none
  | prev, c :: cs, i => if c = '"' ∧ prev ≠ '\\' then some i else scanQuote c cs (i + 1)

def extractStringValue (json key : Str) : Str :=
  let searchKey := "\"".toList ++ key ++ "\"".toList
  match strFind json searchKey 0 with
  | none => []
  | some keyPos =>
    match strFind json ":".toList keyPos with
    | none => []
    | some colonPos =>
      match strFind json "\"".toList colonPos with
      | none => []
      | some startQuote =>
        match scanQuote '"' (json.drop (startQuote + 1)) (startQuote + 1) with
        | none => []
        | some endQuote =>
          unescapeJson ((json.drop (startQuote + 1)).take (endQuote - startQuote - 1))

/-- The call `std::stoi(s)`: leading whitespace, an optional sign, then decimal digits, the
rest ignored.  `none` when it throws: no digit (`std::invalid_argument`), or a value outside
`int` (`std::out_of_range`). -/
def stoi (s : Str) : Option Int :=
  let s1 := s.dropWhile isSpace
  let negative := s1.head? = some '-'
  let s2 := if s1.head? = some '-' ∨ s1.head? = some '+' then s1.drop 1 else s1
  let digits := s2.takeWhile Char.isDigit
  if digits.isEmpty then none
  else
    let magnitude : Int := (digits.foldl (fun acc c => acc * 10 + (c.toNat - 48)) 0 : Nat)
    let value : Int := if negative then -magnitude else magnitude
    if -(2 : Int) ^ 31 ≤ value ∧ value < (2 : Int) ^ 31 then some value else none

/-- The function `extractIntValue`; `none` when `std::stoi` throws. -/
def extractIntValue (json key : Str) : Option Int :=
  let searchKey := "\"".toList ++ key ++ "\"".toList
  match strFind json searchKey 0 with
  | none => some (-1)
  | some keyPos =>
    match strFind json ":".toList keyPos with
    | none => some (-1)
    | some colonPos =>
      let rest := (json.drop (colonPos + 1)).dropWhile (fun c => c = ' ' ∨ c = '\t')
      let number := rest.takeWhile (fun c => c.isDigit ∨ c = '-')
      if ¬ number.isEmpty then stoi number else some (-1)

/-- The member `std::map<int, ProgramLine> lineMap`, as the list of its entries in the order
of iteration, by increasing key. -/
abbrev LineMap := List (Int × ProgramLine)

/-- The assignment `lineMap[k] = v`: insert at the place of the key, or overwrite. -/
def LineMap.assign : LineMap → Int → ProgramLine → LineMap
  | [], k, v => [(k, v)]
  | (k1, v1) :: rest, k, v =>
    if k < k1 then (k, v) :: (k1, v1) :: rest
    else if k = k1 then (k, v) :: rest
    else (k1, v1) :: LineMap.assign rest k v

end JsonToAssemblyConverter

namespace JsonToCppConverter

structure JsonInstruction where
  mnemonic : Str
  operand : Str
  comment : Str
  lineNumber : Int
  deriving DecidableEq

structure JsonData where
  directive : Str
  type : Str
  values : List Str
  comment : Str
  lineNumber : Int
  deriving DecidableEq

structure JsonLabel where
  name : Str
  comment : Str
  lineNumber : Int
  deriving DecidableEq

structure JsonConstant where
  name : Str
  value : Str
  comment : Str
  lineNumber : Int
  deriving DecidableEq

structure JsonDirective where
  name : Str
  operand : Str
  comment : Str
  lineNumber : Int
  deriving DecidableEq

structure ProgramFlowItem where
  type : Str
  content : Str
  comment : Str
  lineNumber : Int
  deriving DecidableEq

/-- The members of a `JsonToCppConverter` that the generators read, as `parseJsonFile` leaves
them. -/
structure State where
  constants : List JsonConstant
  labels : List JsonLabel
  instructions : List JsonInstruction
  data : List JsonData
  directives : List JsonDirective
  programFlow : List ProgramFlowItem
  returnLabelIndex : Nat
  deriving DecidableEq

/-- The text of `std::to_string(i)` and of `file << i` for an `int` that is not negative. -/
def decimal (i : Nat) : Str :=
  Nat.toDigits 10 i

def translateExpression (expr : Str) : Str :=
  if expr.isEmpty then []
  -- Handle hex constants: $FF -> 0xFF
  else if expr.head? = some '$' then "0x".toList ++ expr.drop 1
  -- Handle binary constants: %11001100 -> BOOST_BINARY(11001100)
  else if expr.head? = some '%' then "BOOST_BINARY(".toList ++ expr.drop 1 ++ ")".toList
  -- Handle decimal constants and names as-is
  else expr

/-- The function `translateOperand`.  The two `std::regex_replace(_, "^\\s+|\\s+$", "")` calls
are `stripSpaces`; `base.front()` is evaluated before anything else of the special-case test, so
the result is `none` when `base` is empty. -/
def translateOperand (operand : Str) : Option Str :=
  if operand.isEmpty then some []
  -- Handle immediate addressing: #value -> value
  else if operand.head? = some '#' then some (translateExpression (operand.drop 1))
  -- Handle indirect addressing: (value) -> M(value)
  else if operand.head? = some '(' ∧ operand.getLast? = some ')' then
    some ("M(".toList ++ translateExpression ((operand.drop 1).take (operand.length - 2))
      ++ ")".toList)
  else
    -- Handle indexed addressing: value,x -> value + x
    match find ',' operand with
    | some commaPos =>
      let base := JsonToAssemblyConverter.stripSpaces (operand.take commaPos)
      let index := JsonToAssemblyConverter.stripSpaces (operand.drop (commaPos + 1))
      match base.head? with
      | none => none
      | some front =>
        -- Special case for (value),y -> W(value) + y
        if front = '(' ∧ base.getLast? = some ')' ∧ index = "y".toList then
          some ("W(".toList ++ translateExpression ((base.drop 1).take (base.length - 2))
            ++ ") + y".toList)
        else
          some (translateExpression base ++ " + ".toList ++ index)
    -- Everything else needs memory access: value -> M(value)
    | none => some ("M(".toList ++ translateExpression operand ++ ")".toList)

def translateBranch (condition destination : Str) : Str :=
  "if (".toList ++ condition ++ ")\n        goto ".toList ++ destination ++ ";".toList

/-- The function `translateInstruction`, with the member `returnLabelIndex` as an argument; the
result is the returned statement and `returnLabelIndex` after the call. -/
def translateInstruction (inst : JsonInstruction) (returnLabelIndex : Nat) :
    Option (Str × Nat) :=
  let mnemonic := inst.mnemonic
  let operand := inst.operand
  let ret (text : Str) : Option (Str × Nat) := some (text, returnLabelIndex)
  let op (before after : String) : Option (Str × Nat) :=
    (translateOperand operand).map
      (fun t => (before.toList ++ t ++ after.toList, returnLabelIndex))
  -- Load instructions
  if mnemonic = "lda".toList then op "a = " ";"
  else if mnemonic = "ldx".toList then op "x = " ";"
  else if mnemonic = "ldy".toList then op "y = " ";"
  -- Store instructions
  else if mnemonic = "sta".toList then
    ret ("writeData(".toList ++ translateExpression operand ++ ", a);".toList)
  else if mnemonic = "stx".toList then
    ret ("writeData(".toList ++ translateExpression operand ++ ", x);".toList)
  else if mnemonic = "sty".toList then
    ret ("writeData(".toList ++ translateExpression operand ++ ", y);".toList)
  -- Transfer instructions
  else if mnemonic = "tax".toList then ret "x = a;".toList
  else if mnemonic = "tay".toList then ret "y = a;".toList
  else if mnemonic = "txa".toList then ret "a = x;".toList
  else if mnemonic = "tya".toList then ret "a = y;".toList
  else if mnemonic = "tsx".toList then ret "x = s;".toList
  else if mnemonic = "txs".toList then ret "s = x;".toList
  -- Stack instructions
  else if mnemonic = "pha".toList then ret "pha();".toList
  else if mnemonic = "php".toList then ret "php();".toList
  else if mnemonic = "pla".toList then ret "pla();".toList
  else if mnemonic = "plp".toList then ret "plp();".toList
  -- Logical instructions
  else if mnemonic = "and".toList then op "a &= " ";"
  else if mnemonic = "eor".toList then op "a ^= " ";"
  else if mnemonic = "ora".toList then op "a |= " ";"
  else if mnemonic = "bit".toList then op "bit(" ");"
  -- Arithmetic instructions
  else if mnemonic = "adc".toList then op "a += " ";"
  else if mnemonic = "sbc".toList then op "a -= " ";"
  -- Compare instructions
  else if mnemonic = "cmp".toList then op "compare(a, " ");"
  else if mnemonic = "cpx".toList then op "compare(x, " ");"
  else if mnemonic = "cpy".toList then op "compare(y, " ");"
  -- Increment/Decrement
  else if mnemonic = "inc".toList then op "++" ";"
  else if mnemonic = "inx".toList then ret "++x;".toList
  else if mnemonic = "iny".toList then ret "++y;".toList
  else if mnemonic = "dec".toList then op "--" ";"
  else if mnemonic = "dex".toList then ret "--x;".toList
  else if mnemonic = "dey".toList then ret "--y;".toList
  -- Shift instructions
  else if mnemonic = "asl".toList then
    if operand.isEmpty then ret "a <<= 1;".toList else op "" " <<= 1;"
  else if mnemonic = "lsr".toList then
    if operand.isEmpty then ret "a >>= 1;".toList else op "" " >>= 1;"
  else if mnemonic = "rol".toList then
    if operand.isEmpty then ret "a.rol();".toList else op "" ".rol();"
  else if mnemonic = "ror".toList then
    if operand.isEmpty then ret "a.ror();".toList else op "" ".ror();"
  -- Jump instructions
  else if mnemonic = "jmp".toList then
    if operand = "EndlessLoop".toList then ret "return;".toList
    else ret ("goto ".toList ++ operand ++ ";".toList)
  else if mnemonic = "jsr".toList then
    if operand = "JumpEngine".toList then
      ret "/* JSR JumpEngine - needs jump table implementation */".toList
    else
      some ("JSR(".toList ++ operand ++ ", ".toList ++ decimal returnLabelIndex ++ ");".toList,
        returnLabelIndex + 1)
  else if mnemonic = "rts".toList then ret "goto Return;".toList
  -- Branch instructions
  else if mnemonic = "bcc".toList then ret (translateBranch "!c".toList operand)
  else if mnemonic = "bcs".toList then ret (translateBranch "c".toList operand)
  else if mnemonic = "beq".toList then ret (translateBranch "z".toList operand)
  else if mnemonic = "bmi".toList then ret (translateBranch "n".toList operand)
  else if mnemonic = "bne".toList then ret (translateBranch "!z".toList operand)
  else if mnemonic = "bpl".toList then ret (translateBranch "!n".toList operand)
  else if mnemonic = "bvc".toList then ret (translateBranch "!v".toList operand)
  else if mnemonic = "bvs".toList then ret (translateBranch "v".toList operand)
  -- Flag instructions
  else if mnemonic = "clc".toList then ret "c = 0;".toList
  else if mnemonic = "cld".toList then ret "/* cld */".toList
  else if mnemonic = "cli".toList then ret "/* cli */".toList
  else if mnemonic = "clv".toList then ret "/* clv */".toList
  else if mnemonic = "sec".toList then ret "c = 1;".toList
  else if mnemonic = "sed".toList then ret "/* sed */".toList
  else if mnemonic = "sei".toList then ret "/* sei */".toList
  -- Misc instructions
  else if mnemonic = "brk".toList then ret "/* brk */".toList
  else if mnemonic = "nop".toList then ret "; // nop".toList
  else if mnemonic = "rti".toList then ret "return;".toList
  else ret ("/* Unknown instruction: ".toList ++ mnemonic ++ " */".toList)

/-- What `generateSourceFile` has done so far: the text written to `file`, the member
`returnLabelIndex`, and, as a record of the run, the calls made to `translateInstruction` with
the statement each returned, in call order. -/
structure Emission where
  file : Str
  returnLabelIndex : Nat
  translated : List (JsonInstruction × Str)
  deriving DecidableEq

/-- The loop `for (const auto& item : items)` of `generateLabelCode`. -/
def generateItems (cv : State) : List ProgramFlowItem → Emission → Option Emission
  | [], st => some st
  | item :: rest, st =>
    if item.type = "instruction".toList then
      -- Find the instruction details
      match cv.instructions.find? (fun inst => inst.lineNumber = item.lineNumber) with
      | some inst =>
        match translateInstruction inst st.returnLabelIndex with
        | none => none
        | some (text, index) =>
          let file := st.file ++ "    ".toList ++ text
          let file := if ¬ item.comment.isEmpty then file ++ " // ".toList ++ item.comment
            else file
          let file := file ++ "\n".toList
          -- Add separator after RTS
          let file := if inst.mnemonic = "rts".toList then
              file ++ ("\n//----------------------------------------------------------------" ++
                "--------\n").toList
            else file
          generateItems cv rest
            { file := file, returnLabelIndex := index,
              translated := st.translated ++ [(inst, text)] }
      | none => generateItems cv rest st
    else if item.type = "data".toList then
      let file := st.file ++ "    /* Data: ".toList ++ item.content ++ " */".toList
      let file := if ¬ item.comment.isEmpty then file ++ " // ".toList ++ item.comment
        else file
      generateItems cv rest { st with file := file ++ "\n".toList }
    else generateItems cv rest st

/-- The function `generateLabelCode`; `labelName.back()` makes the result `none` for an empty
`labelName`. -/
def generateLabelCode (cv : State) (labelName : Str) (items : List ProgramFlowItem)
    (st : Emission) : Option Emission :=
  match labelName.getLast? with
  | none => none
  | some back =>
    -- Remove trailing colon from label name if present, then add it back for C++
    let cleanLabelName := if back = ':' then labelName.take (labelName.length - 1) else labelName
    let file := st.file ++ "\n".toList ++ cleanLabelName ++ ":".toList
    -- Add comment if label has one
    let file :=
      match cv.labels.find? (fun l => l.name = cleanLabelName) with
      | some l => if ¬ l.comment.isEmpty then file ++ " // ".toList ++ l.comment else file
      | none => file
    generateItems cv items { st with file := file ++ "\n".toList }

/-- The loop `for (const auto& item : programFlow)` of `generateSourceFile`, followed by the
step `Process final label`. -/
def groupLabels (cv : State) :
    List ProgramFlowItem → Str → List ProgramFlowItem → Emission → Option Emission
  | [], currentLabel, currentItems, st =>
    if ¬ currentLabel.isEmpty then generateLabelCode cv currentLabel currentItems st
    else some st
  | item :: rest, currentLabel, currentItems, st =>
    if item.type = "label".toList then
      -- Process previous label if any
      match (if ¬ currentLabel.isEmpty then generateLabelCode cv currentLabel currentItems st
             else some st) with
      | none => none
      | some st1 => groupLabels cv rest item.content [] st1
    else groupLabels cv rest currentLabel (currentItems ++ [item]) st

/-- The text that `generateSourceFile` writes before the label blocks. -/
def sourceHeader : Str :=
  ("// This is an automatically generated file.\n" ++
   "// Do not edit directly.\n//\n" ++
   "#include \"SMB.hpp\"\n\n" ++
   "void SMBEngine::code(int mode)\n\x7b\n" ++
   "    switch (mode)\n    \x7b\n" ++
   "    case 0:\n" ++
   "        loadConstantData();\n" ++
   "        goto Start;\n" ++
   "    case 1:\n" ++
   "        goto NonMaskableInterrupt;\n" ++
   "    \x7d\n\n").toList

/-- The arm written by one turn of the loop `for (int i = 0; i < returnLabelIndex; i++)`. -/
def returnArm (i : Nat) : Str :=
  "    case ".toList ++ decimal i ++ ":\n".toList ++
    "        goto Return_".toList ++ decimal i ++ ";\n".toList

/-- The text of the step `Generate return handler`, for the final `returnLabelIndex`. -/
def returnHandler (returnLabelIndex : Nat) : Str :=
  ("// Return handler\n" ++
   "// This emulates the RTS instruction using a generated jump table\n//\n" ++
   "Return:\n" ++
   "    switch (popReturnIndex())\n    \x7b\n").toList ++
  ((List.range returnLabelIndex).map returnArm).flatten ++
  "    \x7d\n\x7d\n".toList

/-- The function `generateSourceFile`, the output file taken as opened: the text of `SMB.cpp`
in `file`, with `returnLabelIndex` and the calls to `translateInstruction` at the end. -/
def generateSourceFile (cv : State) : Option Emission :=
  match groupLabels cv cv.programFlow [] []
      { file := sourceHeader, returnLabelIndex := cv.returnLabelIndex, translated := [] } with
  | none => none
  | some st => some { st with file := st.file ++ returnHandler st.returnLabelIndex }

/-- The line of a label in `specInOrderText`: the name without a trailing colon, `:`, and the
comment of the first entry of `labels` with that name, if it has one. -/
def specLabelLine (cv : State) (labelName : Str) : Str :=
  let cleanLabelName :=
    if labelName.getLast? = some ':' then labelName.take (labelName.length - 1) else labelName
  "\n".toList ++ cleanLabelName ++ ":".toList ++
    (match cv.labels.find? (fun l => l.name = cleanLabelName) with
     | some l => if ¬ l.comment.isEmpty then " // ".toList ++ l.comment else []
     | none => []) ++ "\n".toList

/-- The emission of the label blocks as the specification describes it, in one pass over the
program flow in its order, starting at a label: a label gives its line, an instruction item
gives the statement of its instruction record, indented, followed by ` // ` and the comment of
the item when it has one, and by the separator when the record is an `rts`; a data item gives
its placeholder line.  The result is the text and the return counter at the end; an
instruction item without a record gives nothing. -/
def specInOrderText (cv : State) : List ProgramFlowItem → Nat → Option (Str × Nat)
  | [], n => some ([], n)
  | item :: rest, n =>
    if item.type = "label".toList then
      (specInOrderText cv rest n).map (fun r => (specLabelLine cv item.content ++ r.1, r.2))
    else if item.type = "instruction".toList then
      match cv.instructions.find? (fun inst => inst.lineNumber = item.lineNumber) with
      | some inst =>
        match translateInstruction inst n with
        | none => none
        | some (text, index) =>
          (specInOrderText cv rest index).map (fun r =>
            ("    ".toList ++ text ++
              (if ¬ item.comment.isEmpty then " // ".toList ++ item.comment else []) ++
              "\n".toList ++
              (if inst.mnemonic = "rts".toList then
                ("\n//----------------------------------------------------------------" ++
                  "--------\n").toList
               else []) ++ r.1, r.2))
      | none => specInOrderText cv rest n
    else if item.type = "data".toList then
      (specInOrderText cv rest n).map (fun r =>
        ("    /* Data: ".toList ++ item.content ++ " */".toList ++
          (if ¬ item.comment.isEmpty then " // ".toList ++ item.comment else []) ++
          "\n".toList ++ r.1, r.2))
    else specInOrderText cv rest n

/-- The items of the program flow that stand in a block `generateSourceFile` emits, in their
order: a label with non-empty content opens a block and is kept, a label with empty content
closes the open block without opening one, and an item that is not a label is kept when a
block is open.  `inBlock` tells whether a block is open before the first item. -/
def specEmittedItems : Bool → List ProgramFlowItem → List ProgramFlowItem
  | _, [] => []
  | inBlock, item :: rest =>
    if item.type = "label".toList then
      if item.content ≠ [] then item :: specEmittedItems true rest
      else specEmittedItems false rest
    else if inBlock then item :: specEmittedItems inBlock rest
    else specEmittedItems inBlock rest

/-- The number of return sites among `items`: the instruction items whose instruction record is
a `jsr` with an operand other than `JumpEngine`. -/
def specReturnSites (cv : State) (items : List ProgramFlowItem) : Nat :=
  ((((items.filter (fun it => it.type = "instruction".toList)).filterMap
    (fun it => cv.instructions.find? (fun inst => inst.lineNumber = it.lineNumber))).filter
    (fun inst => decide (inst.mnemonic = "jsr".toList ∧
      inst.operand ≠ "JumpEngine".toList))).length)

/-- The text of one emitted item when `k` return sites stand before it: a label gives its line,
an instruction item with a record gives the statement `translateInstruction` returns at counter
`k`, indented, with the comment of the item and the separator after an `rts`, and a data item
gives its placeholder line. -/
def specItemText (cv : State) (k : Nat) (item : ProgramFlowItem) : Str :=
  if item.type = "label".toList then specLabelLine cv item.content
  else if item.type = "instruction".toList then
    match cv.instructions.find? (fun inst => inst.lineNumber = item.lineNumber) with
    | some inst =>
      match translateInstruction inst k with
      | none => []
      | some (text, _) =>
        "    ".toList ++ text ++
          (if ¬ item.comment.isEmpty then " // ".toList ++ item.comment else []) ++
          "\n".toList ++
          (if inst.mnemonic = "rts".toList then
            ("\n//----------------------------------------------------------------" ++
              "--------\n").toList
           else [])
    | none => []
  else if item.type = "data".toList then
    "    /* Data: ".toList ++ item.content ++ " */".toList ++
      (if ¬ item.comment.isEmpty then " // ".toList ++ item.comment else []) ++ "\n".toList
  else []

/-- The text of `<< std::hex << storageAddress`: the digits in base 16, in lower case. -/
def hex (i : Nat) : Str :=
  Nat.toDigits 16 i

/-- What `generateDataFiles` has done so far: the text written to `headerFile`, to `dataFile`
and to `addressDefaults`, and `storageAddress`.  The `int storageAddress` is kept as its 32-bit
pattern, which is what `std::hex` writes; `storageAddress += values.size()` is an addition
modulo 2^32. -/
structure DataEmission where
  headerFile : Str
  dataFile : Str
  addressDefaults : Str
  storageAddress : Nat
  deriving DecidableEq

/-- The steps `Find corresponding label` and `Remove trailing colon` of `generateDataFiles`;
`labelName.back()` makes the result `none` when the label found has an empty name. -/
def dataLabelName (cv : State) (dataItem : JsonData) : Option Str :=
  let labelName :=
    match cv.programFlow.find?
        (fun item => item.lineNumber = dataItem.lineNumber ∧ item.lineNumber > 0) with
    | some _ =>
      -- Look backwards for the label
      match cv.programFlow.reverse.find?
          (fun (it : ProgramFlowItem) =>
            it.lineNumber < dataItem.lineNumber ∧ it.type = "label".toList) with
      | some it => it.content
      | none => "UnknownData".toList
    | none => "UnknownData".toList
  match labelName.getLast? with
  | none => none
  | some back => some (if back = ':' then labelName.take (labelName.length - 1) else labelName)

/-- The text of the step `Generate data array` for one data item. -/
def dataArray (labelName : Str) (dataItem : JsonData) : Str :=
  "    // ".toList ++ labelName ++ "\n".toList ++
  "    const uint8_t ".toList ++ labelName ++ "_data[] = \x7b\n        ".toList ++
  ", ".toList.intercalate (dataItem.values.map translateExpression) ++
  "\n    \x7d;\n".toList ++
  "    writeData(".toList ++ labelName ++ ", ".toList ++ labelName ++
    "_data, sizeof(".toList ++ labelName ++ "_data));\n\n".toList

/-- The line of `addressDefaults` written by the step `Generate pointers`. -/
def pointerLine (labelName : Str) (storageAddress : Nat) : Str :=
  "        this->".toList ++ labelName ++ "_ptr = 0x".toList ++ hex storageAddress ++
    ";\n".toList

/-- The test `dataItem.directive == ".db" || dataItem.directive == ".byte"` that
`generateDataFiles` makes on each data item. -/
def isByteBlock (dataItem : JsonData) : Bool :=
  decide (dataItem.directive = ".db".toList ∨ dataItem.directive = ".byte".toList)

/-- One turn of the loop `for (const auto& dataItem : data)` of `generateDataFiles`. -/
def generateDataItem (cv : State) (dataItem : JsonData) (st : DataEmission) :
    Option DataEmission :=
  if isByteBlock dataItem then
    match dataLabelName cv dataItem with
    | none => none
    | some labelName =>
      some
        { headerFile := st.headerFile ++ "    uint16_t ".toList ++ labelName ++ "_ptr;\n".toList,
          dataFile := st.dataFile ++ dataArray labelName dataItem,
          addressDefaults := st.addressDefaults ++ pointerLine labelName st.storageAddress,
          storageAddress := (st.storageAddress + dataItem.values.length) % 2 ^ 32 }
  else some st

/-- The loop `for (const auto& dataItem : data)` of `generateDataFiles`. -/
def generateDataLoop (cv : State) : List JsonData → DataEmission → Option DataEmission
  | [], st => some st
  | dataItem :: rest, st =>
    match generateDataItem cv dataItem st with
    | none => none
    | some st1 => generateDataLoop cv rest st1

/-- The text `generateDataFiles` writes to `headerFile` before the loop. -/
def pointersHeader : Str :=
  ("// This is an automatically generated file.\n" ++
   "// Do not edit directly.\n//\n" ++
   "#ifndef SMBDATAPOINTERS_HPP\n" ++
   "#define SMBDATAPOINTERS_HPP\n\n" ++
   "struct SMBDataPointers\n\x7b\n").toList

/-- The text `generateDataFiles` writes to `dataFile` before the loop. -/
def dataHeader : Str :=
  ("// This is an automatically generated file.\n" ++
   "// Do not edit directly.\n//\n" ++
   "#include \"SMB.hpp\"\n\n" ++
   "void SMBEngine::loadConstantData()\n\x7b\n").toList

/-- The function `generateDataFiles`, the two output files taken as opened: the text of
`SMBDataPointers.hpp` in `headerFile` and of `SMBData.cpp` in `dataFile`, with the final
`addressDefaults` and `storageAddress`. -/
def generateDataFiles (cv : State) : Option DataEmission :=
  match generateDataLoop cv cv.data
      { headerFile := pointersHeader, dataFile := dataHeader,
        addressDefaults := "    SMBDataPointers()\n    \x7b\n".toList,
        storageAddress := 0x8000 } with
  | none => none
  | some st =>
    let addressDefaults := st.addressDefaults ++ "        this->freeSpaceAddress = 0x".toList ++
      hex st.storageAddress ++ ";\n".toList ++ "    \x7d\n".toList
    some
      { headerFile := st.headerFile ++ "    uint16_t freeSpaceAddress;\n".toList ++
          "\n".toList ++ addressDefaults ++ "\x7d;\n\n".toList ++
          "#endif // SMBDATAPOINTERS_HPP\n".toList,
        dataFile := st.dataFile ++ "\x7d\n".toList,
        addressDefaults := addressDefaults,
        storageAddress := st.storageAddress }

end JsonToCppConverter

/-! ## Lemmas on the string primitives -/

theorem find_eq_none_iff (c : Char) (s : Str) : find c s = none ↔ c ∉ s := by
  induction s with
  | nil => simp [find]
  | cons x xs ih =>
    by_cases h : x = c
    · simp [find, h]
    · have h2 : ¬ c = x := fun e => h e.symm
      simp [find, h, h2, ih]

theorem find_some_take (c : Char) (s : Str) (p : Nat) (h : find c s = some p) :
    s.take p = s.takeWhile (fun x => x != c) ∧
      s.drop (p + 1) = (s.dropWhile (fun x => x != c)).drop 1 := by
  induction s generalizing p with
  | nil => simp [find] at h
  | cons x xs ih =>
    by_cases hx : x = c
    · simp [find, hx] at h
      subst h
      simp [hx]
    · cases hf : find c xs with
      | none => simp [find, hx, hf] at h
      | some q =>
        simp only [find, hx, if_false, hf, Option.map_some', Option.some.injEq] at h
        subst h
        have := ih q hf
        have hb : (x != c) = true := by simpa using hx
        simp [List.takeWhile_cons, List.dropWhile_cons, hb, this.1, this.2]

theorem find_none_take (c : Char) (s : Str) (h : find c s = none) :
    s.takeWhile (fun x => x != c) = s ∧ s.dropWhile (fun x => x != c) = [] := by
  rw [find_eq_none_iff] at h
  constructor
  · rw [List.takeWhile_eq_self_iff]
    intro x hx
    simp only [bne_iff_ne, ne_eq]
    rintro rfl
    exact h hx
  · rw [List.dropWhile_eq_nil_iff]
    intro x hx
    simp only [bne_iff_ne, ne_eq]
    rintro rfl
    exact h hx

theorem trim_nil : trim [] = [] := by
  simp [trim, List.rdropWhile]

theorem removeComment_eq (line : Str) :
    removeComment line = trim (line.takeWhile (fun c => c != ';')) := by
  unfold removeComment
  cases h : find ';' line with
  | none => simp only [(find_none_take _ _ h).1]
  | some p => simp only [(find_some_take _ _ _ h).1]

theorem extractComment_eq (line : Str) :
    extractComment line = trim ((line.dropWhile (fun c => c != ';')).drop 1) := by
  unfold extractComment
  cases h : find ';' line with
  | none => simp only [(find_none_take _ _ h).2, List.drop_nil, trim_nil]
  | some p => simp only [(find_some_take _ _ _ h).2]

/-! ## The branches of `classifyLine`, one lemma per rule -/

theorem classifyLine_comment (line : Str) (tok : Token) (cs : ConstMap)
    (h : removeComment line = []) :
    classifyLine line tok cs = ⟨.COMMENT, { tok with comment := extractComment line }, cs⟩ := by
  simp [classifyLine, h]

theorem classifyLine_label (line : Str) (tok : Token) (cs : ConstMap)
    (h0 : removeComment line ≠ []) (h1 : (removeComment line).getLast? = some ':') :
    classifyLine line tok cs =
      ⟨.LABEL, { tok with comment := extractComment line,
                          value := (removeComment line).dropLast }, cs⟩ := by
  simp [classifyLine, h0, h1, List.dropLast_eq_take]

theorem classifyLine_constant (line : Str) (tok : Token) (cs : ConstMap)
    (h0 : removeComment line ≠ []) (h1 : (removeComment line).getLast? ≠ some ':')
    (h2 : '=' ∈ removeComment line) :
    classifyLine line tok cs =
      ⟨.CONSTANT_DECL,
        { tok with comment := extractComment line,
                   value := trim ((removeComment line).takeWhile (fun c => c != '=')),
                   operand := trim (((removeComment line).dropWhile (fun c => c != '=')).drop 1) },
        cs.assign (trim ((removeComment line).takeWhile (fun c => c != '=')))
          (trim (((removeComment line).dropWhile (fun c => c != '=')).drop 1))⟩ := by
  cases hf : find '=' (removeComment line) with
  | none => exact absurd h2 ((find_eq_none_iff _ _).1 hf)
  | some p =>
    have ht := find_some_take _ _ _ hf
    simp only [classifyLine, List.isEmpty_iff, h0, if_false, h1, hf, ht.1, ht.2]

theorem classifyLine_db (line : Str) (tok : Token) (cs : ConstMap)
    (h0 : removeComment line ≠ []) (h1 : (removeComment line).getLast? ≠ some ':')
    (h2 : '=' ∉ removeComment line) (h3 : (removeComment line).take 3 = ".db".toList) :
    classifyLine line tok cs =
      ⟨.DATA_BYTES,
        { tok with comment := extractComment line, value := ".db".toList,
                   dataValues := split (trim ((removeComment line).drop 3)) ',' }, cs⟩ := by
  have hf := (find_eq_none_iff _ _).2 h2
  simp only [classifyLine, List.isEmpty_iff, h0, if_false, h1, hf, h3, if_true]

theorem classifyLine_dw (line : Str) (tok : Token) (cs : ConstMap)
    (h0 : removeComment line ≠ []) (h1 : (removeComment line).getLast? ≠ some ':')
    (h2 : '=' ∉ removeComment line) (h3 : (removeComment line).take 3 = ".dw".toList) :
    classifyLine line tok cs =
      ⟨.DATA_WORDS,
        { tok with comment := extractComment line, value := ".dw".toList,
                   dataValues := split (trim ((removeComment line).drop 3)) ',' }, cs⟩ := by
  have hf := (find_eq_none_iff _ _).2 h2
  have h4 : ¬ ".dw".toList = ".db".toList := by decide
  simp only [classifyLine, List.isEmpty_iff, h0, if_false, h1, hf, h3, h4, if_true]

theorem classifyLine_directive (line : Str) (tok : Token) (cs : ConstMap)
    (h0 : removeComment line ≠ []) (h1 : (removeComment line).getLast? ≠ some ':')
    (h2 : '=' ∉ removeComment line) (h3 : (removeComment line).take 3 ≠ ".db".toList)
    (h4 : (removeComment line).take 3 ≠ ".dw".toList)
    (h5 : (removeComment line).head? = some '.') :
    classifyLine line tok cs =
      ⟨.DIRECTIVE,
        { tok with
            comment := extractComment line,
            value := (removeComment line).takeWhile (fun c => !isSpace c),
            operand :=
              if (((removeComment line).dropWhile (fun c => !isSpace c)).dropWhile isSpace).isEmpty
              then tok.operand
              else ((((removeComment line).dropWhile (fun c => !isSpace c)).dropWhile
                isSpace).takeWhile (fun c => !isSpace c)) }, cs⟩ := by
  have hf := (find_eq_none_iff _ _).2 h2
  obtain ⟨x, xs, hx⟩ := List.exists_cons_of_ne_nil h0
  rw [hx] at h5
  simp only [List.head?_cons, Option.some.injEq] at h5
  subst h5
  have hd : ('.' :: xs).dropWhile isSpace = '.' :: xs := by
    rw [List.dropWhile_cons_of_neg]; decide
  simp only [classifyLine, List.isEmpty_iff, h0, if_false, h1, hf, h3, h4, extractWord]
  rw [hx] at *
  simp only [List.head?_cons, if_true, hd, reduceCtorEq, if_false]
  by_cases he : List.dropWhile isSpace (List.dropWhile (fun c => !isSpace c) ('.' :: xs)) = []
  · simp [he]
  · simp [he]

theorem classifyLine_other (line : Str) (tok : Token) (cs : ConstMap)
    (h0 : removeComment line ≠ []) (h1 : (removeComment line).getLast? ≠ some ':')
    (h2 : '=' ∉ removeComment line) (h5 : (removeComment line).head? ≠ some '.') :
    classifyLine line tok cs =
      if isInstruction (((removeComment line).dropWhile isSpace).takeWhile (fun c => !isSpace c))
      then
        ⟨.INSTRUCTION,
          { tok with
              comment := extractComment line,
              value := ((removeComment line).dropWhile isSpace).takeWhile (fun c => !isSpace c),
              operand := trim (getlineRest
                (((removeComment line).dropWhile isSpace).dropWhile (fun c => !isSpace c))) }, cs⟩
      else ⟨.UNKNOWN, { tok with comment := extractComment line }, cs⟩ := by
  have hf := (find_eq_none_iff _ _).2 h2
  obtain ⟨x, xs, hx⟩ := List.exists_cons_of_ne_nil h0
  have hx1 : x ≠ '.' := by
    rintro rfl
    rw [hx] at h5
    simp at h5
  have h3 : (removeComment line).take 3 ≠ ".db".toList := by
    rw [hx]
    intro h
    simp at h
    exact hx1 h.1
  have h4 : (removeComment line).take 3 ≠ ".dw".toList := by
    rw [hx]
    intro h
    simp at h
    exact hx1 h.1
  simp only [classifyLine, List.isEmpty_iff, h0, if_false, h1, hf, h3, h4, h5, extractWord]
  by_cases he : List.dropWhile isSpace (removeComment line) = []
  · have hn : isInstruction [] = false := by decide
    simp [he, hn]
  · simp [he]

theorem mem_of_mem_trim {c : Char} {s : Str} (h : c ∈ trim s) : c ∈ s := by
  unfold trim List.rdropWhile at h
  have h1 := List.mem_reverse.1 h
  have h2 := (List.dropWhile_sublist _).subset h1
  have h3 := List.mem_reverse.1 h2
  exact (List.dropWhile_sublist _).subset h3

theorem isInstruction_iff (w : Str) : isInstruction w = true ↔ w ∈ instructions := by
  unfold isInstruction
  rw [List.any_eq_true]
  constructor
  · rintro ⟨x, hx, he⟩
    have : w = x := by simpa using he
    exact this ▸ hx
  · intro h
    exact ⟨w, h, by simp⟩

theorem getlineRest_eq_self {s : Str} (h : '\n' ∉ s) : getlineRest s = s := by
  unfold getlineRest
  rw [List.takeWhile_eq_self_iff]
  intro x hx
  simp only [ne_eq, decide_eq_true_eq]
  rintro rfl
  exact h hx

theorem head?_of_take3 {s : Str} {x : Char} {r : Str} (h : s.take 3 = x :: r) :
    s.head? = some x := by
  cases s with
  | nil => simp at h
  | cons y ys =>
    simp only [List.take_succ_cons, List.cons.injEq] at h
    simp [h.1]

theorem classifyLine_kind_instruction_iff (line : Str) (tok : Token) (cs : ConstMap) :
    (classifyLine line tok cs).kind = .INSTRUCTION ↔
      (removeComment line ≠ [] ∧ (removeComment line).getLast? ≠ some ':' ∧
        '=' ∉ removeComment line ∧ (removeComment line).head? ≠ some '.' ∧
        ((removeComment line).dropWhile isSpace).takeWhile (fun c => !isSpace c)
          ∈ instructions) := by
  by_cases h0 : removeComment line = []
  · simp [classifyLine_comment line tok cs h0, h0]
  by_cases h1 : (removeComment line).getLast? = some ':'
  · simp [classifyLine_label line tok cs h0 h1, h1]
  by_cases h2 : '=' ∈ removeComment line
  · simp [classifyLine_constant line tok cs h0 h1 h2, h2]
  by_cases h3 : (removeComment line).take 3 = ".db".toList
  · have h5 : (removeComment line).head? = some '.' := head?_of_take3 h3
    simp [classifyLine_db line tok cs h0 h1 h2 h3, h5]
  by_cases h4 : (removeComment line).take 3 = ".dw".toList
  · have h5 : (removeComment line).head? = some '.' := head?_of_take3 h4
    simp [classifyLine_dw line tok cs h0 h1 h2 h4, h5]
  by_cases h5 : (removeComment line).head? = some '.'
  · simp [classifyLine_directive line tok cs h0 h1 h2 h3 h4 h5, h5]
  · rw [classifyLine_other line tok cs h0 h1 h2 h5, ← isInstruction_iff]
    by_cases hi : isInstruction
        (((removeComment line).dropWhile isSpace).takeWhile (fun c => !isSpace c)) = true
    · simp [hi, h0, h1, h2, h5]
    · simp [hi, h0, h1, h2, h5]

theorem classifyLine_instruction_fields (line : Str) (tok : Token) (cs : ConstMap)
    (h : (classifyLine line tok cs).kind = .INSTRUCTION) :
    (classifyLine line tok cs).token.value =
        ((removeComment line).dropWhile isSpace).takeWhile (fun c => !isSpace c) ∧
      (classifyLine line tok cs).token.operand =
        trim (getlineRest
          (((removeComment line).dropWhile isSpace).dropWhile (fun c => !isSpace c))) := by
  obtain ⟨h0, h1, h2, h5, hi⟩ := (classifyLine_kind_instruction_iff line tok cs).1 h
  rw [← isInstruction_iff] at hi
  rw [classifyLine_other line tok cs h0 h1 h2 h5]
  simp [hi]

/-! ## Claims on the line classifier -/

/-- C1: `classifyLine` returns INSTRUCTION exactly when the text of the line before the first
`;`, trimmed, is non-empty, does not end with `:`, contains no `=`, does not begin with `.`, and
its first whitespace-delimited word is one of the 56 lowercase mnemonics (the match is
case-sensitive, `LDA #$05` is not an instruction).  Then `value` is that word and, the line being
free of newlines as every line read by `parseFile` is, `operand` is the remainder of the stripped
text, trimmed at both ends and otherwise unchanged. -/
theorem C1_instruction_exactly_when (line clean : Str) (tok : Token) (cs : ConstMap)
    (hclean : clean = trim (line.takeWhile (fun c => c != ';'))) :
    ((classifyLine line tok cs).kind = .INSTRUCTION ↔
      (clean ≠ [] ∧ clean.getLast? ≠ some ':' ∧ '=' ∉ clean ∧ clean.head? ≠ some '.' ∧
        (clean.dropWhile isSpace).takeWhile (fun c => !isSpace c) ∈ instructions)) ∧
    ((classifyLine line tok cs).kind = .INSTRUCTION →
      (classifyLine line tok cs).token.value =
          (clean.dropWhile isSpace).takeWhile (fun c => !isSpace c) ∧
        ('\n' ∉ line →
          (classifyLine line tok cs).token.operand =
            trim ((clean.dropWhile isSpace).dropWhile (fun c => !isSpace c)))) ∧
    instructions.length = 56 ∧ instructions.Nodup ∧
    (∀ w ∈ instructions, ∀ c ∈ w, c.isLower = true) ∧
    (classifyLine "LDA #$05".toList tok cs).kind ≠ .INSTRUCTION := by
  rw [← removeComment_eq] at hclean
  subst hclean
  refine ⟨classifyLine_kind_instruction_iff line tok cs, ?_, by decide, by decide, by decide, ?_⟩
  · intro h
    obtain ⟨hv, ho⟩ := classifyLine_instruction_fields line tok cs h
    refine ⟨hv, fun hn => ?_⟩
    rw [ho, getlineRest_eq_self]
    intro hm
    have h1 := (List.dropWhile_sublist _).subset ((List.dropWhile_sublist _).subset hm)
    rw [removeComment_eq] at h1
    exact hn ((List.takeWhile_sublist _).subset (mem_of_mem_trim h1))
  · rw [ne_eq, classifyLine_kind_instruction_iff]
    decide

/-- C1, at the line `  lda  #$05,x ; five`: an instruction with mnemonic `lda` and operand
`#$05,x`. -/
theorem C1_instruction_exactly_when_witness :
    (classifyLine "  lda  #$05,x ; five".toList (freshToken 1) []).kind = .INSTRUCTION ∧
      (classifyLine "  lda  #$05,x ; five".toList (freshToken 1) []).token.value = "lda".toList ∧
      (classifyLine "  lda  #$05,x ; five".toList (freshToken 1) []).token.operand
        = "#$05,x".toList :=
  have h := C1_instruction_exactly_when "  lda  #$05,x ; five".toList "lda  #$05,x".toList
    (freshToken 1) [] (by decide)
  have hk := h.1.2 (by decide)
  ⟨hk, (h.2.1 hk).1, (h.2.1 hk).2 (by decide)⟩

/-- C2: when the text before the first `;`, trimmed of spaces, tabs, CR and LF, is non-empty and
ends with `:`, `classifyLine` returns LABEL and `value` is that text without its final `:`,
whatever else the text contains (`=`, a leading `.`, a mnemonic). -/
theorem C2_label_rule_first (line clean : Str) (tok : Token) (cs : ConstMap)
    (hclean : clean = trim (line.takeWhile (fun c => c != ';')))
    (h0 : clean ≠ []) (h1 : clean.getLast? = some ':') :
    (classifyLine line tok cs).kind = .LABEL ∧
      (classifyLine line tok cs).token.value = clean.dropLast := by
  rw [← removeComment_eq] at hclean
  subst hclean
  rw [classifyLine_label line tok cs h0 h1]
  exact ⟨rfl, rfl⟩

/-- C2, at the line `.db lda = 1: ; note`, which also begins with `.db`, holds a mnemonic and
contains `=`. -/
theorem C2_label_rule_first_witness :
    (classifyLine ".db lda = 1: ; note".toList (freshToken 1) []).kind = .LABEL ∧
      (classifyLine ".db lda = 1: ; note".toList (freshToken 1) []).token.value
        = ".db lda = 1".toList :=
  C2_label_rule_first ".db lda = 1: ; note".toList ".db lda = 1:".toList (freshToken 1) []
    (by decide) (by decide) (by decide)

/-- C3: when the stripped text is non-empty, does not end with `:` and contains `=`,
`classifyLine` returns CONSTANT_DECL with `value` the trimmed text left of the first `=` and
`operand` the trimmed text right of it, whatever the text begins with; afterwards the
constants table maps `value` to `operand`. -/
theorem C3_constant_rule (line clean : Str) (tok : Token) (cs : ConstMap)
    (hclean : clean = trim (line.takeWhile (fun c => c != ';')))
    (h0 : clean ≠ []) (h1 : clean.getLast? ≠ some ':') (h2 : '=' ∈ clean) :
    (classifyLine line tok cs).kind = .CONSTANT_DECL ∧
      (classifyLine line tok cs).token.value = trim (clean.takeWhile (fun c => c != '=')) ∧
      (classifyLine line tok cs).token.operand
        = trim ((clean.dropWhile (fun c => c != '=')).drop 1) ∧
      (classifyLine line tok cs).constants.get? (classifyLine line tok cs).token.value
        = some (classifyLine line tok cs).token.operand := by
  rw [← removeComment_eq] at hclean
  subst hclean
  rw [classifyLine_constant line tok cs h0 h1 h2]
  refine ⟨rfl, rfl, rfl, ?_⟩
  simp [ConstMap.get?, ConstMap.assign, List.lookup]

/-- C3, at the line `.db lda = $10 = x ; two`, which begins with `.db`. -/
theorem C3_constant_rule_witness :
    (classifyLine ".db lda = $10 = x ; two".toList (freshToken 1) []).kind = .CONSTANT_DECL ∧
      (classifyLine ".db lda = $10 = x ; two".toList (freshToken 1) []).token.value
        = ".db lda".toList ∧
      (classifyLine ".db lda = $10 = x ; two".toList (freshToken 1) []).token.operand
        = "$10 = x".toList ∧
      (classifyLine ".db lda = $10 = x ; two".toList (freshToken 1) []).constants.get?
          (classifyLine ".db lda = $10 = x ; two".toList (freshToken 1) []).token.value
        = some (classifyLine ".db lda = $10 = x ; two".toList (freshToken 1) []).token.operand :=
  C3_constant_rule ".db lda = $10 = x ; two".toList ".db lda = $10 = x".toList (freshToken 1) []
    (by decide) (by decide) (by decide) (by decide)

/-- C5: when the stripped text begins with `.` but with neither `.db` nor `.dw`, does not end
with `:` and contains no `=`, `classifyLine` returns DIRECTIVE, `value` is the first
whitespace-delimited word and `operand` the second one, empty when there is none (the token
arriving with an empty operand, as the one of `parseFile` does); nothing else of the text reaches
the record, so every later word is discarded. -/
theorem C5_directive_two_words (line clean : Str) (tok : Token) (cs : ConstMap)
    (hclean : clean = trim (line.takeWhile (fun c => c != ';')))
    (hdot : clean.head? = some '.') (hdb : clean.take 3 ≠ ".db".toList)
    (hdw : clean.take 3 ≠ ".dw".toList) (h1 : clean.getLast? ≠ some ':') (h2 : '=' ∉ clean)
    (hop : tok.operand = []) :
    (classifyLine line tok cs).kind = .DIRECTIVE ∧
      (classifyLine line tok cs).token =
        { tok with
            comment := trim ((line.dropWhile (fun c => c != ';')).drop 1),
            value := (clean.dropWhile isSpace).takeWhile (fun c => !isSpace c),
            operand := (((clean.dropWhile isSpace).dropWhile (fun c => !isSpace c)).dropWhile
              isSpace).takeWhile (fun c => !isSpace c) } ∧
      (classifyLine line tok cs).constants = cs := by
  rw [← removeComment_eq] at hclean
  subst hclean
  have h0 : removeComment line ≠ [] := by
    intro h
    rw [h] at hdot
    simp at hdot
  obtain ⟨x, xs, hx⟩ := List.exists_cons_of_ne_nil h0
  have hd : (removeComment line).dropWhile isSpace = removeComment line := by
    rw [hx] at hdot ⊢
    simp only [List.head?_cons, Option.some.injEq] at hdot
    subst hdot
    rw [List.dropWhile_cons_of_neg]
    decide
  rw [classifyLine_directive line tok cs h0 h1 h2 hdb hdw hdot, hd, ← extractComment_eq]
  refine ⟨rfl, ?_, rfl⟩
  by_cases he : (((removeComment line).dropWhile (fun c => !isSpace c)).dropWhile isSpace) = []
  · simp [he, hop]
  · simp [he]

/-- C5, at the line `.org $8000 extra words ; start`: the operand is `$8000`, the words after it
are lost. -/
theorem C5_directive_two_words_witness :
    (classifyLine ".org $8000 extra words ; start".toList (freshToken 7) []).kind = .DIRECTIVE ∧
      (classifyLine ".org $8000 extra words ; start".toList (freshToken 7) []).token =
        { freshToken 7 with
            comment := "start".toList, value := ".org".toList, operand := "$8000".toList } ∧
      (classifyLine ".org $8000 extra words ; start".toList (freshToken 7) []).constants = [] :=
  C5_directive_two_words ".org $8000 extra words ; start".toList ".org $8000 extra words".toList
    (freshToken 7) [] (by decide) (by decide) (by decide) (by decide) (by decide) (by decide) rfl

/-- C6 (what the code does): the line `foo bar` matches no rule and `classifyLine` returns
UNKNOWN, but the branch never assigns `token.value`: the record made by `parseFile` has an
empty `value` and an empty `operand`, and the stripped text `foo bar` is nowhere in it. -/
theorem C6_unknown_value_left_empty :
    removeComment "foo bar".toList = "foo bar".toList ∧
      (classifyLine "foo bar".toList (freshToken 1) []).kind = .UNKNOWN ∧
      (classifyLine "foo bar".toList (freshToken 1) []).token.value = [] ∧
      (parseFile "foo bar\n".toList).tokens =
        [{ type := .UNKNOWN, value := [], operand := [], comment := [], lineNumber := 1,
           dataValues := [] }] := by
  decide

/-- C7: the comment of the record is the trimmed text after the first `;`, and is empty when the
line has no `;`.  For a line whose text before the first `;` is blank, one iteration of the loop
of `parseFile` appends no record when that comment is empty and exactly one record, of kind
COMMENT and carrying the comment, when it is not. -/
theorem C7_comment_records (line : Str) (tok : Token) (cs : ConstMap) (st : Converter)
    (n : Int) :
    (classifyLine line tok cs).token.comment = trim ((line.dropWhile (fun c => c != ';')).drop 1) ∧
    (';' ∉ line → (classifyLine line tok cs).token.comment = []) ∧
    (trim (line.takeWhile (fun c => c != ';')) = [] →
      trim ((line.dropWhile (fun c => c != ';')).drop 1) = [] →
      (parseStep st n line).tokens = st.tokens) ∧
    (trim (line.takeWhile (fun c => c != ';')) = [] →
      trim ((line.dropWhile (fun c => c != ';')).drop 1) ≠ [] →
      (parseStep st n line).tokens = st.tokens ++
        [{ type := .COMMENT, value := [], operand := [],
           comment := trim ((line.dropWhile (fun c => c != ';')).drop 1),
           lineNumber := n, dataValues := [] }]) := by
  have hc : (classifyLine line tok cs).token.comment = extractComment line := by
    unfold classifyLine
    simp only []
    repeat' split
    all_goals rfl
  refine ⟨by rw [hc, extractComment_eq], ?_, ?_, ?_⟩
  · intro h
    rw [hc]
    unfold extractComment
    rw [(find_eq_none_iff _ _).2 h]
  · intro h0 h1
    rw [← removeComment_eq] at h0
    rw [← extractComment_eq] at h1
    simp [parseStep, classifyLine_comment _ _ _ h0, h1]
  · intro h0 h1
    rw [← removeComment_eq] at h0
    rw [← extractComment_eq] at h1 ⊢
    simp [parseStep, classifyLine_comment _ _ _ h0, h1, freshToken]

/-- C7, at the lines `   ; only a note ` (one COMMENT record), `  ;  ` and the empty line (no
record). -/
theorem C7_comment_records_witness :
    (parseStep ⟨[], []⟩ 4 "   ; only a note ".toList).tokens =
        [{ type := .COMMENT, value := [], operand := [], comment := "only a note".toList,
           lineNumber := 4, dataValues := [] }] ∧
      (parseStep ⟨[], []⟩ 4 "  ;  ".toList).tokens = [] ∧
      (parseStep ⟨[], []⟩ 4 []).tokens = [] ∧
      (classifyLine "lda #1".toList (freshToken 4) []).token.comment = [] :=
  ⟨(C7_comment_records "   ; only a note ".toList (freshToken 4) [] ⟨[], []⟩ 4).2.2.2
      (by decide) (by decide),
    (C7_comment_records "  ;  ".toList (freshToken 4) [] ⟨[], []⟩ 4).2.2.1 (by decide) (by decide),
    (C7_comment_records [] (freshToken 4) [] ⟨[], []⟩ 4).2.2.1 (by decide) (by decide),
    (C7_comment_records "lda #1".toList (freshToken 4) [] ⟨[], []⟩ 4).2.1 (by decide)⟩

/-- C8 (as stated, refuted): the single line `Loop: lda #$05 ; load five` does not end with
`:` and its first word `Loop:` is no mnemonic, so `parseFile` makes one record of kind UNKNOWN
from it, not a Label followed by an Instruction. -/
theorem C8_one_line_is_not_two_records :
    (parseFile "Loop: lda #$05 ; load five".toList).tokens =
        [{ type := .UNKNOWN, value := [], operand := [], comment := "load five".toList,
           lineNumber := 1, dataValues := [] }] ∧
      ¬ ∃ lab ins : Token,
        (parseFile "Loop: lda #$05 ; load five".toList).tokens = [lab, ins] ∧
          lab.type = .LABEL ∧ lab.value = "Loop".toList ∧
          ins.type = .INSTRUCTION ∧ ins.value = "lda".toList ∧ ins.operand = "#$05".toList ∧
          ins.comment = "load five".toList ∧ ins.lineNumber = lab.lineNumber + 1 := by
  have h : (parseFile "Loop: lda #$05 ; load five".toList).tokens =
      [{ type := .UNKNOWN, value := [], operand := [], comment := "load five".toList,
         lineNumber := 1, dataValues := [] }] := by decide
  refine ⟨h, ?_⟩
  rintro ⟨lab, ins, he, -⟩
  rw [h] at he
  simp at he

/-- C8 (amended): the single line `Loop: lda #$05 ; load five` classifies as one record, of kind
UNKNOWN, with comment `load five`, at line 1; with the label on a line of its own, the two lines
`Loop:` and `lda #$05 ; load five` classify as a Label `Loop` at line 1 and an Instruction `lda`
with operand `#$05` and comment `load five` at line 2. -/
theorem C8_label_and_instruction_on_two_lines :
    (parseFile "Loop: lda #$05 ; load five".toList).tokens.map
        (fun t => (t.type, t.comment, t.lineNumber)) =
        [(.UNKNOWN, "load five".toList, 1)] ∧
      (parseFile "Loop:\nlda #$05 ; load five".toList).tokens =
        [{ type := .LABEL, value := "Loop".toList, operand := [], comment := [],
           lineNumber := 1, dataValues := [] },
         { type := .INSTRUCTION, value := "lda".toList, operand := "#$05".toList,
           comment := "load five".toList, lineNumber := 2, dataValues := [] }] := by
  decide

theorem classifyLine_constants_irrelevant (line : Str) (tok : Token) (cs cs2 : ConstMap) :
    (classifyLine line tok cs).kind = (classifyLine line tok cs2).kind ∧
      (classifyLine line tok cs).token = (classifyLine line tok cs2).token := by
  by_cases h0 : removeComment line = []
  · simp [classifyLine_comment line tok _ h0]
  by_cases h1 : (removeComment line).getLast? = some ':'
  · simp [classifyLine_label line tok _ h0 h1]
  by_cases h2 : '=' ∈ removeComment line
  · simp [classifyLine_constant line tok _ h0 h1 h2]
  by_cases h3 : (removeComment line).take 3 = ".db".toList
  · simp [classifyLine_db line tok _ h0 h1 h2 h3]
  by_cases h4 : (removeComment line).take 3 = ".dw".toList
  · simp [classifyLine_dw line tok _ h0 h1 h2 h4]
  by_cases h5 : (removeComment line).head? = some '.'
  · simp [classifyLine_directive line tok _ h0 h1 h2 h3 h4 h5]
  · rw [classifyLine_other line tok cs h0 h1 h2 h5, classifyLine_other line tok cs2 h0 h1 h2 h5]
    split <;> exact ⟨rfl, rfl⟩

/-- C10: `classifyLine` is a total function of the line, the incoming token and the constants
table, so every line gets exactly one kind and one record; the kind and the record (value,
operand, comment, dataValues) do not depend on the constants table, and classifying the same
line a second time, on the table left by the first call, returns the same kind and record. -/
theorem C10_classification_total_deterministic (line : Str) (tok : Token) (cs cs2 : ConstMap) :
    (∃! r : Classified, classifyLine line tok cs = r) ∧
      (classifyLine line tok cs).kind = (classifyLine line tok cs2).kind ∧
      (classifyLine line tok cs).token = (classifyLine line tok cs2).token ∧
      (classifyLine line tok (classifyLine line tok cs).constants).kind
        = (classifyLine line tok cs).kind ∧
      (classifyLine line tok (classifyLine line tok cs).constants).token
        = (classifyLine line tok cs).token :=
  ⟨⟨_, rfl, fun _ h => h.symm⟩,
    (classifyLine_constants_irrelevant line tok cs cs2).1,
    (classifyLine_constants_irrelevant line tok cs cs2).2,
    (classifyLine_constants_irrelevant line tok _ cs).1,
    (classifyLine_constants_irrelevant line tok _ cs).2⟩

/-! ## The comma split of the data rules -/

theorem getlineAll_append_of_not_mem (d : Char) (p rest cur : Str) (h : d ∉ p) :
    getlineAll d (p ++ rest) cur = getlineAll d rest (cur ++ p) := by
  induction p generalizing cur with
  | nil => simp
  | cons x xs ih =>
    have hx : ¬ x = d := fun e => h (e ▸ List.mem_cons_self _ _)
    have hxs : d ∉ xs := fun e => h (List.mem_cons_of_mem _ e)
    rw [List.cons_append]
    simp only [getlineAll, hx, if_false]
    rw [ih _ hxs]
    simp

theorem getlineAll_single (d : Char) (p : Str) (h : d ∉ p) (hne : p ≠ []) :
    getlineAll d p [] = [p] := by
  have := getlineAll_append_of_not_mem d p [] [] h
  simp only [List.append_nil, List.nil_append] at this
  rw [this]
  simp [getlineAll, hne]

theorem getlineAll_piece_cons (d : Char) (p rest : Str) (h : d ∉ p) :
    getlineAll d (p ++ d :: rest) [] = p :: getlineAll d rest [] := by
  rw [getlineAll_append_of_not_mem d p _ [] h]
  simp [getlineAll]

theorem intercalate_cons_cons (d : Char) (p q : Str) (qs : List Str) :
    List.intercalate [d] (p :: q :: qs) = p ++ d :: List.intercalate [d] (q :: qs) := by
  simp [List.intercalate]

theorem intercalate_single (d : Char) (p : Str) : List.intercalate [d] [p] = p := by
  simp [List.intercalate]

/-- Reading a text made of delimiter-free pieces joined by the delimiter, and not ending with
the delimiter, gives back the pieces. -/
theorem getlineAll_intercalate (d : Char) (p : Str) (ps : List Str)
    (hfree : ∀ x ∈ p :: ps, d ∉ x)
    (hne : List.intercalate [d] (p :: ps) ≠ [])
    (hlast : (List.intercalate [d] (p :: ps)).getLast? ≠ some d) :
    getlineAll d (List.intercalate [d] (p :: ps)) [] = p :: ps := by
  induction ps generalizing p with
  | nil =>
    rw [intercalate_single] at hne ⊢
    exact getlineAll_single d p (hfree p (List.mem_cons_self _ _)) hne
  | cons q qs ih =>
    rw [intercalate_cons_cons] at hlast ⊢
    rw [getlineAll_piece_cons d p _ (hfree p (List.mem_cons_self _ _))]
    have hne2 : List.intercalate [d] (q :: qs) ≠ [] := by
      intro h
      rw [h] at hlast
      exact hlast (List.getLast?_concat _)
    have hlast2 : (List.intercalate [d] (q :: qs)).getLast? ≠ some d := by
      intro h
      apply hlast
      obtain ⟨y, ys, hy⟩ := List.exists_cons_of_ne_nil hne2
      rw [hy] at h ⊢
      rw [List.getLast?_append_cons, List.getLast?_cons_cons]
      exact h
    rw [ih q (fun x hx => hfree x (List.mem_cons_of_mem _ hx)) hne2 hlast2]

theorem dropWhile_concat_of_neg (p : Char → Bool) (t : Str) (l : Char) (hl : p l = false) :
    ∃ u, List.dropWhile p (t ++ [l]) = u ++ [l] := by
  induction t with
  | nil => exact ⟨[], by simp [List.dropWhile, hl]⟩
  | cons x xs ih =>
    by_cases hx : p x = true
    · obtain ⟨u, hu⟩ := ih
      exact ⟨u, by simp [List.dropWhile_cons, hx, hu]⟩
    · exact ⟨x :: xs, by simp [List.dropWhile_cons, hx]⟩

/-- A text whose last character is not trimmed loses only its leading blanks. -/
theorem trim_eq_dropWhile_of_last (t : Str) (l : Char) (h : t.getLast? = some l)
    (hl : isTrimWs l = false) : trim t = t.dropWhile isTrimWs := by
  obtain ⟨t1, rfl⟩ := List.getLast?_eq_some_iff.1 h
  obtain ⟨u, hu⟩ := dropWhile_concat_of_neg isTrimWs t1 l hl
  unfold trim
  rw [hu, List.rdropWhile_concat_neg]
  simp [hl]

theorem trim_dropWhile (p : Str) : trim (p.dropWhile isTrimWs) = trim p := by
  unfold trim
  rw [List.dropWhile_idempotent]

theorem dropWhile_append_cons_of_neg (p : Char → Bool) (a b : Str) (x : Char)
    (hx : p x = false) :
    List.dropWhile p (a ++ x :: b) = List.dropWhile p a ++ x :: b := by
  induction a with
  | nil => simp [List.dropWhile_cons, hx]
  | cons y ys ih =>
    by_cases hy : p y = true
    · simp [List.dropWhile_cons, hy, ih]
    · simp [List.dropWhile_cons, hy]

/-- The function `split` on the trimmed form of a non-blank text that is made of `n`
delimiter-free pieces and does not end with the delimiter: the `n` pieces, each trimmed. -/
theorem split_trim_pieces (d : Char) (hd : isTrimWs d = false) (t : Str) (pieces : List Str)
    (l : Char) (hl : t.getLast? = some l) (hlws : isTrimWs l = false) (hld : l ≠ d)
    (ht : t = List.intercalate [d] pieces) (hfree : ∀ x ∈ pieces, d ∉ x) :
    split (trim t) d = pieces.map trim := by
  unfold split
  rw [trim_eq_dropWhile_of_last t l hl hlws]
  cases pieces with
  | nil =>
    rw [ht] at hl
    simp [List.intercalate] at hl
  | cons p ps =>
    have hsub : d ∉ p.dropWhile isTrimWs := fun hm =>
      hfree p (List.mem_cons_self _ _) ((List.dropWhile_sublist _).subset hm)
    cases ps with
    | nil =>
      rw [intercalate_single] at ht
      subst ht
      have hne : List.dropWhile isTrimWs t ≠ [] := by
        intro h0
        have := trim_eq_dropWhile_of_last t l hl hlws
        rw [List.dropWhile_eq_nil_iff] at h0
        have hmem : l ∈ t := List.mem_of_getLast?_eq_some hl
        have := h0 l hmem
        rw [hlws] at this
        exact Bool.false_ne_true this
      rw [getlineAll_single d _ hsub hne]
      simp [trim_dropWhile]
    | cons q qs =>
      rw [intercalate_cons_cons] at ht
      have hne2 : List.intercalate [d] (q :: qs) ≠ [] := by
        intro h
        rw [h] at ht
        rw [ht, List.getLast?_concat] at hl
        exact hld (Option.some.inj hl).symm
      obtain ⟨y, ys, hy⟩ := List.exists_cons_of_ne_nil hne2
      have hlast2 : (List.intercalate [d] (q :: qs)).getLast? ≠ some d := by
        intro h
        rw [ht, hy, List.getLast?_append_cons, List.getLast?_cons_cons, ← hy, h] at hl
        exact hld (Option.some.inj hl).symm
      rw [ht, dropWhile_append_cons_of_neg _ _ _ _ hd, getlineAll_piece_cons d _ _ hsub,
        getlineAll_intercalate d q qs (fun x hx => hfree x (List.mem_cons_of_mem _ hx)) hne2
          hlast2]
      simp [trim_dropWhile]

theorem trim_getLast_not_ws (s : Str) (l : Char) (h : (trim s).getLast? = some l) :
    isTrimWs l = false := by
  unfold trim at h
  have hne : (s.dropWhile isTrimWs).rdropWhile isTrimWs ≠ [] := by
    intro h0
    rw [h0] at h
    simp at h
  have hn := List.rdropWhile_last_not isTrimWs _ hne
  rw [List.getLast?_eq_getLast _ hne] at h
  rw [Option.some.inj h] at hn
  simpa using hn

/-- The data values of a line whose stripped text is `clean = trim _`, in terms of the pieces
of the text after the three-character directive. -/
theorem dataValues_of_pieces (x : Str) (pieces : List Str)
    (hne : trim ((trim x).drop 3) ≠ [])
    (hlast : ((trim x).drop 3).getLast? ≠ some ',')
    (ht : (trim x).drop 3 = List.intercalate [','] pieces)
    (hfree : ∀ p ∈ pieces, ',' ∉ p) :
    split (trim ((trim x).drop 3)) ',' = pieces.map trim := by
  have hne0 : (trim x).drop 3 ≠ [] := by
    intro h
    rw [h] at hne
    exact hne trim_nil
  obtain ⟨l, hl⟩ : ∃ l, ((trim x).drop 3).getLast? = some l := by
    obtain ⟨ys, z, hz⟩ := (List.eq_nil_or_concat _).resolve_left hne0
    exact ⟨z, by rw [hz]; simp⟩
  have hl2 : (trim x).getLast? = some l := by
    rw [List.getLast?_drop] at hl
    split at hl
    · exact absurd hl (by simp)
    · exact hl
  have hws := trim_getLast_not_ws x l hl2
  have hld : l ≠ ',' := by
    rintro rfl
    exact hlast hl
  exact split_trim_pieces ',' (by decide) _ pieces l hl hws hld ht hfree

/-- C4: when the stripped text does not end with `:`, contains no `=` and begins with `.db`
(respectively `.dw`), whatever follows, `classifyLine` returns DATA_BYTES (DATA_WORDS) with
`value` `.db` (`.dw`).  When the text after the directive is not blank, does not end with a
comma and is made of the comma-free `pieces` joined by commas, `dataValues` has exactly as many
entries as there are pieces, the i-th being the i-th piece trimmed; when that text is blank
`dataValues` is empty. -/
theorem C4_data_rules (line clean : Str) (tok : Token) (cs : ConstMap) (pieces : List Str)
    (hclean : clean = trim (line.takeWhile (fun c => c != ';')))
    (h1 : clean.getLast? ≠ some ':') (h2 : '=' ∉ clean) :
    (clean.take 3 = ".db".toList →
      (classifyLine line tok cs).kind = .DATA_BYTES ∧
      (classifyLine line tok cs).token.value = ".db".toList ∧
      (trim (clean.drop 3) ≠ [] → (clean.drop 3).getLast? ≠ some ',' →
        clean.drop 3 = List.intercalate [','] pieces → (∀ p ∈ pieces, ',' ∉ p) →
        (classifyLine line tok cs).token.dataValues = pieces.map trim ∧
          (classifyLine line tok cs).token.dataValues.length = pieces.length ∧
          1 ≤ pieces.length) ∧
      (trim (clean.drop 3) = [] → (classifyLine line tok cs).token.dataValues = [])) ∧
    (clean.take 3 = ".dw".toList →
      (classifyLine line tok cs).kind = .DATA_WORDS ∧
      (classifyLine line tok cs).token.value = ".dw".toList ∧
      (trim (clean.drop 3) ≠ [] → (clean.drop 3).getLast? ≠ some ',' →
        clean.drop 3 = List.intercalate [','] pieces → (∀ p ∈ pieces, ',' ∉ p) →
        (classifyLine line tok cs).token.dataValues = pieces.map trim ∧
          (classifyLine line tok cs).token.dataValues.length = pieces.length ∧
          1 ≤ pieces.length) ∧
      (trim (clean.drop 3) = [] → (classifyLine line tok cs).token.dataValues = [])) := by
  subst hclean
  have hpos : ∀ (ps : List Str), trim (List.intercalate [','] ps) ≠ [] → 1 ≤ ps.length := by
    intro ps h
    cases ps with
    | nil => exact absurd trim_nil h
    | cons a b => simp
  have key : ∀ (k : TokenType) (v : Str),
      classifyLine line tok cs =
        ⟨k, { tok with comment := extractComment line, value := v,
                       dataValues := split (trim ((removeComment line).drop 3)) ',' }, cs⟩ →
      (classifyLine line tok cs).kind = k ∧
      (classifyLine line tok cs).token.value = v ∧
      (trim ((trim (line.takeWhile (fun c => c != ';'))).drop 3) ≠ [] →
        ((trim (line.takeWhile (fun c => c != ';'))).drop 3).getLast? ≠ some ',' →
        (trim (line.takeWhile (fun c => c != ';'))).drop 3 = List.intercalate [','] pieces →
        (∀ p ∈ pieces, ',' ∉ p) →
        (classifyLine line tok cs).token.dataValues = pieces.map trim ∧
          (classifyLine line tok cs).token.dataValues.length = pieces.length ∧
          1 ≤ pieces.length) ∧
      (trim ((trim (line.takeWhile (fun c => c != ';'))).drop 3) = [] →
        (classifyLine line tok cs).token.dataValues = []) := by
    intro k v hk
    rw [hk, removeComment_eq]
    refine ⟨rfl, rfl, ?_, ?_⟩
    · intro hne hlast ht hfree
      have hd := dataValues_of_pieces _ pieces hne hlast ht hfree
      refine ⟨hd, by simp only [hd, List.length_map], ?_⟩
      rw [ht] at hne
      exact hpos _ hne
    · intro hb
      simp only [hb]
      rfl
  rw [← removeComment_eq] at h1 h2
  have h0 : ∀ w : Str, (removeComment line).take 3 = w → w ≠ [] → removeComment line ≠ [] := by
    intro w hw hne h
    rw [h] at hw
    exact hne (by simpa using hw.symm)
  constructor
  · intro h3
    rw [← removeComment_eq] at h3
    exact key _ _ (classifyLine_db line tok cs (h0 _ h3 (by decide)) h1 h2 h3)
  · intro h3
    rw [← removeComment_eq] at h3
    exact key _ _ (classifyLine_dw line tok cs (h0 _ h3 (by decide)) h1 h2 h3)

/-- C4, at the line `.db $01, $02, $03`: DATA_BYTES with the values `$01`, `$02`, `$03`; and at
`.dwx` (a letter right after the directive): DATA_WORDS with the single value `x`. -/
theorem C4_data_rules_witness :
    ((classifyLine ".db $01, $02, $03".toList (freshToken 1) []).kind = .DATA_BYTES ∧
      (classifyLine ".db $01, $02, $03".toList (freshToken 1) []).token.value = ".db".toList ∧
      (classifyLine ".db $01, $02, $03".toList (freshToken 1) []).token.dataValues
        = ["$01".toList, "$02".toList, "$03".toList]) ∧
    ((classifyLine ".dwx".toList (freshToken 1) []).kind = .DATA_WORDS ∧
      (classifyLine ".dwx".toList (freshToken 1) []).token.dataValues = ["x".toList]) ∧
    (classifyLine ".db".toList (freshToken 1) []).token.dataValues = [] :=
  have a := (C4_data_rules ".db $01, $02, $03".toList ".db $01, $02, $03".toList (freshToken 1) []
    [" $01".toList, " $02".toList, " $03".toList] (by decide) (by decide) (by decide)).1
    (by decide)
  have b := (C4_data_rules ".dwx".toList ".dwx".toList (freshToken 1) []
    ["x".toList] (by decide) (by decide) (by decide)).2 (by decide)
  have c := (C4_data_rules ".db".toList ".db".toList (freshToken 1) []
    [] (by decide) (by decide) (by decide)).1 (by decide)
  ⟨⟨a.1, a.2.1, (a.2.2.1 (by decide) (by decide) (by decide) (by decide)).1⟩,
    ⟨b.1, (b.2.2.1 (by decide) (by decide) (by decide) (by decide)).1⟩,
    c.2.2.2 (by decide)⟩

/-! ## Trimming at both ends, for any class of blanks -/

theorem dropWhile_nil_or_head (p : Char → Bool) (s : Str) :
    s.dropWhile p = [] ∨ ∃ x r, s.dropWhile p = x :: r ∧ p x = false := by
  induction s with
  | nil => exact Or.inl rfl
  | cons y ys ih =>
    by_cases hy : p y = true
    · simpa [List.dropWhile_cons, hy] using ih
    · exact Or.inr ⟨y, ys, by simp [List.dropWhile_cons, hy], by simpa using hy⟩

theorem dropWhile_eq_self_of_head (p : Char → Bool) (s : Str)
    (h : ∀ x, s.head? = some x → p x = false) : s.dropWhile p = s := by
  cases s with
  | nil => rfl
  | cons y ys =>
    have := h y rfl
    simp [List.dropWhile_cons, this]

theorem rdropWhile_eq_self_of_last (p : Char → Bool) (s : Str)
    (h : ∀ x, s.getLast? = some x → p x = false) : s.rdropWhile p = s := by
  rcases List.eq_nil_or_concat s with h0 | ⟨t, b, hb⟩
  · rw [h0]; simp
  · rw [List.concat_eq_append] at hb
    subst hb
    have := h b (List.getLast?_concat _)
    rw [List.rdropWhile_concat_neg]
    simp [this]

theorem rdropWhile_append_cons_of_neg (p : Char → Bool) (u v : Str) (x : Char)
    (hx : p x = false) :
    (u ++ x :: v).rdropWhile p = u ++ x :: v.rdropWhile p := by
  unfold List.rdropWhile
  rw [List.reverse_append, List.reverse_cons, List.append_assoc, List.singleton_append,
    dropWhile_append_cons_of_neg p _ _ _ hx]
  simp

theorem ends_last {p : Char → Bool} {s : Str} {l : Char}
    (h : ((s.dropWhile p).rdropWhile p).getLast? = some l) : p l = false := by
  have hne : (s.dropWhile p).rdropWhile p ≠ [] := by
    intro h0
    rw [h0] at h
    simp at h
  have hn := List.rdropWhile_last_not p _ hne
  rw [List.getLast?_eq_getLast _ hne] at h
  rw [Option.some.inj h] at hn
  simpa using hn

theorem ends_head {p : Char → Bool} {s : Str} {x : Char}
    (h : ((s.dropWhile p).rdropWhile p).head? = some x) : p x = false := by
  rcases dropWhile_nil_or_head p s with h0 | ⟨y, r, hy, hpy⟩
  · rw [h0] at h
    simp at h
  · have hw := rdropWhile_append_cons_of_neg p [] r y hpy
    rw [hy] at h
    simp only [List.nil_append] at hw
    rw [hw] at h
    simp only [List.head?_cons, Option.some.injEq] at h
    exact h ▸ hpy

namespace JsonToAssemblyConverter

/-! ## The whitespace normalisation `formatForCa65` -/

theorem formatForCa65_eq (s : Str) : formatForCa65 s = stripSpaces (collapseSpaces false s) := by
  unfold formatForCa65
  simp only []
  split
  · rename_i h
    exact (List.isEmpty_iff.1 h).symm
  · split
    · rfl
    · split <;> rfl

theorem collapseSpaces_cons_of_not (i : Bool) (c : Char) (cs : Str) (h : isSpace c = false) :
    collapseSpaces i (c :: cs) = c :: collapseSpaces false cs := by
  rw [collapseSpaces]
  simp [h]

theorem collapseSpaces_true_cons (c : Char) (cs : Str) (h : isSpace c = true) :
    collapseSpaces true (c :: cs) = collapseSpaces true cs := by
  rw [collapseSpaces]
  simp [h]

theorem collapseSpaces_false_cons (c : Char) (cs : Str) (h : isSpace c = true) :
    collapseSpaces false (c :: cs) = ' ' :: collapseSpaces true cs := by
  rw [collapseSpaces]
  simp [h]

theorem collapseSpaces_append_cons (i : Bool) (u r : Str) (x : Char) (hx : isSpace x = false) :
    collapseSpaces i (u ++ x :: r) = collapseSpaces i u ++ x :: collapseSpaces false r := by
  induction u generalizing i with
  | nil => rw [List.nil_append, collapseSpaces_cons_of_not _ _ _ hx]; rfl
  | cons y ys ih =>
    rw [List.cons_append]
    by_cases hy : isSpace y = true
    · cases i
      · rw [collapseSpaces_false_cons _ _ hy, collapseSpaces_false_cons _ _ hy, ih true]
        rfl
      · rw [collapseSpaces_true_cons _ _ hy, collapseSpaces_true_cons _ _ hy, ih true]
    · have hy2 : isSpace y = false := by simpa using hy
      rw [collapseSpaces_cons_of_not _ _ _ hy2, collapseSpaces_cons_of_not _ _ _ hy2, ih false]
      rfl

theorem formatForCa65_last {s : Str} {l : Char} (h : (formatForCa65 s).getLast? = some l) :
    isSpace l = false := by
  rw [formatForCa65_eq] at h
  exact ends_last h

theorem formatForCa65_head {s : Str} {x : Char} (h : (formatForCa65 s).head? = some x) :
    isSpace x = false := by
  rw [formatForCa65_eq] at h
  exact ends_head h

end JsonToAssemblyConverter

/-! ## Round trip: what the classifier reads in the line written for a record -/

namespace JsonToAssemblyConverter

end JsonToAssemblyConverter

open JsonToAssemblyConverter

theorem classifyLine_lineNumber (line : Str) (tok : Token) (cs : ConstMap) :
    (classifyLine line tok cs).token.lineNumber = tok.lineNumber := by
  by_cases h0 : removeComment line = []
  · rw [classifyLine_comment line tok _ h0]
  by_cases h1 : (removeComment line).getLast? = some ':'
  · rw [classifyLine_label line tok _ h0 h1]
  by_cases h2 : '=' ∈ removeComment line
  · rw [classifyLine_constant line tok _ h0 h1 h2]
  by_cases h3 : (removeComment line).take 3 = ".db".toList
  · rw [classifyLine_db line tok _ h0 h1 h2 h3]
  by_cases h4 : (removeComment line).take 3 = ".dw".toList
  · rw [classifyLine_dw line tok _ h0 h1 h2 h4]
  by_cases h5 : (removeComment line).head? = some '.'
  · rw [classifyLine_directive line tok _ h0 h1 h2 h3 h4 h5]
  · rw [classifyLine_other line tok cs h0 h1 h2 h5]
    split <;> rfl

/-- What one iteration of the loop of `parseFile` appends: the record of the line, unless it is
a COMMENT record with an empty comment. -/
theorem parseStep_tokens (st : Converter) (n : Int) (line : Str) :
    (parseStep st n line).tokens = st.tokens ++
      (if (classifyLine line (freshToken n) []).kind ≠ .COMMENT ∨
          ¬ (classifyLine line (freshToken n) []).token.comment.isEmpty
       then [{ (classifyLine line (freshToken n) []).token with
                type := (classifyLine line (freshToken n) []).kind }]
       else []) := by
  have hk := (classifyLine_constants_irrelevant line (freshToken n) st.constants []).1
  have ht := (classifyLine_constants_irrelevant line (freshToken n) st.constants []).2
  unfold parseStep
  simp only [hk, ht]
  split
  · rfl
  · simp

theorem parseStep_first (st : Converter) (n : Int) (line : Str) :
    ∃ first, (parseStep st n line).tokens = st.tokens ++ first ∧
      ((first = [] ∧ ¬ ((classifyLine line (freshToken n) []).kind ≠ .COMMENT ∨
          ¬ (classifyLine line (freshToken n) []).token.comment.isEmpty)) ∨
       (first = [{ (classifyLine line (freshToken n) []).token with
                    type := (classifyLine line (freshToken n) []).kind }] ∧
        ((classifyLine line (freshToken n) []).kind ≠ .COMMENT ∨
          ¬ (classifyLine line (freshToken n) []).token.comment.isEmpty))) := by
  refine ⟨_, parseStep_tokens st n line, ?_⟩
  split
  · rename_i h
    exact Or.inr ⟨rfl, h⟩
  · rename_i h
    exact Or.inl ⟨rfl, h⟩

theorem parseLines_records (ls : List Str) (n : Int) (st : Converter) :
    ∃ new, (parseLines ls n st).tokens = st.tokens ++ new ∧
      List.Pairwise (fun a b => a < b) (new.map (fun t => t.lineNumber)) ∧
      (∀ t ∈ new, ∃ (i : Nat) (line : Str), ls[i]? = some line ∧ t.lineNumber = n + i ∧
        t = { (classifyLine line (freshToken (n + i)) []).token with
                type := (classifyLine line (freshToken (n + i)) []).kind } ∧
        (t.type ≠ .COMMENT ∨ ¬ t.comment.isEmpty)) ∧
      (∀ (i : Nat) (line : Str), ls[i]? = some line →
        ((classifyLine line (freshToken (n + i)) []).kind ≠ .COMMENT ∨
          ¬ (classifyLine line (freshToken (n + i)) []).token.comment.isEmpty) →
        { (classifyLine line (freshToken (n + i)) []).token with
            type := (classifyLine line (freshToken (n + i)) []).kind } ∈ new) := by
  induction ls generalizing n st with
  | nil => exact ⟨[], by simp [parseLines], by simp, by simp, by simp⟩
  | cons line rest ih =>
    obtain ⟨new, hnew, hpw, hmem, hall⟩ := ih (n + 1) (parseStep st n line)
    obtain ⟨first, hfirst, hcase⟩ := parseStep_first st n line
    rw [hfirst] at hnew
    have hfl : ∀ t ∈ first, t.lineNumber = n ∧
        t = { (classifyLine line (freshToken n) []).token with
                type := (classifyLine line (freshToken n) []).kind } ∧
        (t.type ≠ .COMMENT ∨ ¬ t.comment.isEmpty) := by
      intro t ht
      rcases hcase with ⟨h, -⟩ | ⟨h, hk⟩
      · rw [h] at ht
        simp at ht
      · rw [h] at ht
        rw [List.mem_singleton.1 ht]
        refine ⟨?_, rfl, hk⟩
        show (classifyLine line (freshToken n) []).token.lineNumber = n
        rw [classifyLine_lineNumber]
        rfl
    refine ⟨first ++ new, by rw [parseLines, hnew, List.append_assoc], ?_, ?_, ?_⟩
    · rw [List.map_append, List.pairwise_append]
      refine ⟨?_, hpw, ?_⟩
      · rcases hcase with ⟨h, -⟩ | ⟨h, -⟩ <;> rw [h] <;> simp
      · intro a ha b hb
        obtain ⟨t, ht, rfl⟩ := List.mem_map.1 hb
        obtain ⟨u, hu, rfl⟩ := List.mem_map.1 ha
        obtain ⟨i, l, -, hln, -, -⟩ := hmem t ht
        show u.lineNumber < t.lineNumber
        rw [(hfl u hu).1, hln]
        omega
    · intro t ht
      rcases List.mem_append.1 ht with h | h
      · obtain ⟨h1, h2, h3⟩ := hfl t h
        refine ⟨0, line, by simp, ?_, ?_, h3⟩
        · rw [h1]
          simp
        · rw [h2]
          simp
      · obtain ⟨i, l, hl, hln, ht2, hk⟩ := hmem t h
        have e : n + 1 + (i : Int) = n + ((i + 1 : Nat) : Int) := by
          push_cast
          omega
        refine ⟨i + 1, l, by simpa using hl, by rw [hln, e], ?_, hk⟩
        rw [ht2, e]
    · intro i l hl hk
      cases i with
      | zero =>
        simp only [List.getElem?_cons_zero, Option.some.injEq] at hl
        subst hl
        simp only [Nat.cast_zero, add_zero] at hk ⊢
        apply List.mem_append_left
        rcases hcase with ⟨-, h⟩ | ⟨h, -⟩
        · exact absurd hk h
        · rw [h]
          exact List.mem_singleton.2 rfl
      | succ j =>
        simp only [List.getElem?_cons_succ] at hl
        have e : n + ((j + 1 : Nat) : Int) = n + 1 + (j : Int) := by
          push_cast
          omega
        rw [e] at hk ⊢
        exact List.mem_append_right _ (hall j l hl hk)

/-- C11: for every input of fewer than 2^31 - 1 lines (so that the `int` line counter stays in
range), the records produced by `parseFile` have strictly increasing, hence unique,
`lineNumber` values in the order produced; every record is the one made from some physical line
and carries the 1-based number of that line, dropped lines included in the count; the record of a
line that is kept is among the records, and no record carries the number of a dropped line. -/
theorem C11_line_numbers_increasing (content : Str) (lines : List Str)
    (hlines : lines = getlineAll '\n' content [])
    (hsize : (lines.length : Int) + 1 < 2 ^ 31) :
    List.Pairwise (fun a b => a < b) ((parseFile content).tokens.map (fun t => t.lineNumber)) ∧
    ((parseFile content).tokens.map (fun t => t.lineNumber)).Nodup ∧
    (∀ t ∈ (parseFile content).tokens, ∃ (k : Nat) (line : Str), lines[k]? = some line ∧
      t = { (classifyLine line (freshToken (k + 1)) []).token with
              type := (classifyLine line (freshToken (k + 1)) []).kind } ∧
      t.lineNumber = k + 1 ∧ 1 ≤ t.lineNumber ∧ t.lineNumber < 2 ^ 31) ∧
    (∀ (k : Nat) (line : Str), lines[k]? = some line →
      (classifyLine line (freshToken (k + 1)) []).token.lineNumber = k + 1 ∧
      (((classifyLine line (freshToken (k + 1)) []).kind ≠ .COMMENT ∨
          ¬ (classifyLine line (freshToken (k + 1)) []).token.comment.isEmpty) →
        { (classifyLine line (freshToken (k + 1)) []).token with
            type := (classifyLine line (freshToken (k + 1)) []).kind }
          ∈ (parseFile content).tokens) ∧
      (¬ ((classifyLine line (freshToken (k + 1)) []).kind ≠ .COMMENT ∨
          ¬ (classifyLine line (freshToken (k + 1)) []).token.comment.isEmpty) →
        ∀ t ∈ (parseFile content).tokens, t.lineNumber ≠ k + 1)) := by
  obtain ⟨new, hnew, hpw, hmem, hall⟩ := parseLines_records lines 1 ⟨[], []⟩
  have htok : (parseFile content).tokens = new := by
    unfold parseFile
    rw [← hlines, hnew]
    rfl
  rw [htok]
  have hmem2 : ∀ t ∈ new, ∃ (k : Nat) (line : Str), lines[k]? = some line ∧
      t = { (classifyLine line (freshToken (k + 1)) []).token with
              type := (classifyLine line (freshToken (k + 1)) []).kind } ∧
      t.lineNumber = k + 1 ∧ (t.type ≠ .COMMENT ∨ ¬ t.comment.isEmpty) := by
    intro t ht
    obtain ⟨i, l, hl, hln, ht2, hk⟩ := hmem t ht
    have e : (1 : Int) + (i : Int) = (i : Int) + 1 := by omega
    rw [e] at hln ht2
    exact ⟨i, l, hl, ht2, hln, hk⟩
  refine ⟨hpw, ?_, ?_, ?_⟩
  · exact (List.Pairwise.imp (fun h => ne_of_lt h) hpw)
  · intro t ht
    obtain ⟨k, l, hl, ht2, hln, -⟩ := hmem2 t ht
    have hk : k < lines.length := by
      rcases Nat.lt_or_ge k lines.length with h | h
      · exact h
      · rw [List.getElem?_eq_none h] at hl
        exact absurd hl (by simp)
    refine ⟨k, l, hl, ht2, hln, ?_, ?_⟩
    · rw [hln]
      omega
    · rw [hln]
      omega
  · intro k l hl
    refine ⟨by rw [classifyLine_lineNumber]; rfl, ?_, ?_⟩
    · intro hk
      have e : (k : Int) + 1 = (1 : Int) + (k : Int) := by omega
      rw [e] at hk ⊢
      exact hall k l hl hk
    · intro hk t ht hln
      obtain ⟨k2, l2, hl2, ht2, hln2, hkept⟩ := hmem2 t ht
      have hkk : k2 = k := by
        rw [hln2] at hln
        omega
      subst hkk
      rw [hl] at hl2
      rw [← Option.some.inj hl2] at ht2
      rw [ht2] at hkept
      exact hk hkept

/-- C11, on the three lines `Loop:`, an empty line and `lda #1`: the two records carry the line
numbers 1 and 3. -/
theorem C11_line_numbers_increasing_witness :
    List.Pairwise (fun a b => a < b)
        ((parseFile "Loop:\n\nlda #1\n".toList).tokens.map (fun t => t.lineNumber)) ∧
      (parseFile "Loop:\n\nlda #1\n".toList).tokens.map (fun t => t.lineNumber) = [1, 3] :=
  ⟨(C11_line_numbers_increasing "Loop:\n\nlda #1\n".toList
      ["Loop:".toList, [], "lda #1".toList] (by decide) (by decide)).1, by decide⟩

theorem lookup_filter_ne (m : ConstMap) (k name : Str) (h : name ≠ k) :
    List.lookup name (m.filter (fun e => e.1 ≠ k)) = List.lookup name m := by
  induction m with
  | nil => rfl
  | cons e es ih =>
    obtain ⟨a, b⟩ := e
    by_cases ha : a = k
    · subst ha
      have hb : (name == a) = false := by simpa using h
      simp only [ne_eq, decide_not, List.filter_cons, decide_True, Bool.not_true,
        Bool.false_eq_true, if_false, List.lookup, hb] at ih ⊢
      exact ih
    · by_cases hn : name = a
      · subst hn
        simp [List.filter_cons, ha, List.lookup]
      · have hb : (name == a) = false := by simpa using hn
        simp only [ne_eq, decide_not, List.filter_cons, ha, decide_False, Bool.not_false,
          if_true, List.lookup, hb] at ih ⊢
        exact ih

/-- Reading the table after `constants[k] = v`. -/
theorem get?_assign (m : ConstMap) (k v name : Str) :
    (m.assign k v).get? name = if name = k then some v else m.get? name := by
  unfold ConstMap.assign ConstMap.get?
  by_cases h : name = k
  · subst h
    simp [List.lookup]
  · have hb : (name == k) = false := by simpa using h
    rw [if_neg h]
    simp only [List.lookup, hb]
    exact lookup_filter_ne m k name h

/-- The table after `classifyLine`: assigned when the line is a constant declaration, untouched
otherwise; the kind, the name and the value do not depend on the token passed in. -/
theorem classifyLine_constants (line : Str) (tok tok2 : Token) (cs cs2 : ConstMap) :
    (classifyLine line tok cs).constants =
      if (classifyLine line tok2 cs2).kind = .CONSTANT_DECL then
        cs.assign (classifyLine line tok2 cs2).token.value
          (classifyLine line tok2 cs2).token.operand
      else cs := by
  by_cases h0 : removeComment line = []
  · simp [classifyLine_comment line _ _ h0]
  by_cases h1 : (removeComment line).getLast? = some ':'
  · simp [classifyLine_label line _ _ h0 h1]
  by_cases h2 : '=' ∈ removeComment line
  · simp [classifyLine_constant line _ _ h0 h1 h2]
  by_cases h3 : (removeComment line).take 3 = ".db".toList
  · simp [classifyLine_db line _ _ h0 h1 h2 h3]
  by_cases h4 : (removeComment line).take 3 = ".dw".toList
  · simp [classifyLine_dw line _ _ h0 h1 h2 h4]
  by_cases h5 : (removeComment line).head? = some '.'
  · simp [classifyLine_directive line _ _ h0 h1 h2 h3 h4 h5]
  · rw [classifyLine_other line tok cs h0 h1 h2 h5, classifyLine_other line tok2 cs2 h0 h1 h2 h5]
    split <;> simp

theorem parseStep_constants (st : Converter) (n : Int) (line : Str) :
    (parseStep st n line).constants = (classifyLine line (freshToken n) st.constants).constants := by
  unfold parseStep
  simp only []
  split <;> rfl

theorem parseLines_constants (ls : List Str) (n : Int) (st : Converter) (name : Str) :
    (parseLines ls n st).constants.get? name =
      ((((ls.filterMap (fun line =>
          if (classifyLine line (freshToken 0) []).kind = .CONSTANT_DECL then
            some ((classifyLine line (freshToken 0) []).token.value,
              (classifyLine line (freshToken 0) []).token.operand)
          else none)).filter (fun d => d.1 = name)).getLast?).map (fun d => d.2)).or
        (st.constants.get? name) := by
  induction ls generalizing n st with
  | nil => simp [parseLines]
  | cons line rest ih =>
    rw [parseLines, ih, parseStep_constants,
      classifyLine_constants line (freshToken n) (freshToken 0) st.constants [],
      List.filterMap_cons]
    generalize (classifyLine line (freshToken 0) []).kind = k
    generalize (classifyLine line (freshToken 0) []).token.value = v
    generalize (classifyLine line (freshToken 0) []).token.operand = o
    generalize ((rest.filterMap (fun line =>
          if (classifyLine line (freshToken 0) []).kind = .CONSTANT_DECL then
            some ((classifyLine line (freshToken 0) []).token.value,
              (classifyLine line (freshToken 0) []).token.operand)
          else none))) = D
    by_cases hk : k = .CONSTANT_DECL
    · simp only [hk, if_true, get?_assign]
      by_cases hv : v = name
      · subst hv
        have e : List.filter (fun d => decide (d.1 = v)) ((v, o) :: D)
            = [(v, o)] ++ List.filter (fun d => decide (d.1 = v)) D := by
          simp [List.filter_cons]
        rw [e, List.getLast?_append, Option.map_or', Option.or_assoc]
        simp
      · have hv2 : ¬ name = v := fun h => hv h.symm
        have e : List.filter (fun d => decide (d.1 = name)) ((v, o) :: D)
            = List.filter (fun d => decide (d.1 = name)) D := by
          simp [List.filter_cons, hv]
        rw [e, if_neg hv2]
    · simp only [hk, if_false]

/-- C12: after `parseFile`'s loop has classified any sequence of lines starting from an empty
constants table, the table maps a name to the operand of the last ConstantDecl line that
declares it, and holds no name that no ConstantDecl line declares; a line of any other kind
leaves the table as it was. -/
theorem C12_last_declaration_wins (ls : List Str) (n : Int) (toks : List Token) (name : Str) :
    (parseLines ls n ⟨toks, []⟩).constants.get? name =
      (((ls.filterMap (fun line =>
          if (classifyLine line (freshToken 0) []).kind = .CONSTANT_DECL then
            some ((classifyLine line (freshToken 0) []).token.value,
              (classifyLine line (freshToken 0) []).token.operand)
          else none)).filter (fun d => d.1 = name)).getLast?).map (fun d => d.2) ∧
    (∀ (line : Str) (tok : Token) (cs : ConstMap),
      (classifyLine line tok cs).kind ≠ .CONSTANT_DECL → (classifyLine line tok cs).constants = cs) ∧
    (parseFile "A = 1\nlda A\nB = 2\nA = 3\n".toList).constants.get? "A".toList
      = some "3".toList ∧
    (parseFile "A = 1\nlda A\nB = 2\nA = 3\n".toList).constants.get? "lda".toList = none := by
  refine ⟨?_, ?_, by decide, by decide⟩
  · rw [parseLines_constants]
    simp [ConstMap.get?, Option.or_none]
  · intro line tok cs h
    rw [classifyLine_constants line tok tok cs cs, if_neg h]

/-- C12, on the four lines `A = 1`, `lda A`, `B = 2`, `A = 3`: a line that is no constant
declaration leaves the table unchanged. -/
theorem C12_last_declaration_wins_witness :
    (classifyLine "lda A".toList (freshToken 2) [("A".toList, "1".toList)]).constants
        = [("A".toList, "1".toList)] ∧
      (parseLines ["A = 1".toList, "lda A".toList, "B = 2".toList, "A = 3".toList] 1
        ⟨[], []⟩).constants.get? "A".toList = some "3".toList :=
  ⟨(C12_last_declaration_wins [] 1 [] []).2.1 "lda A".toList (freshToken 2)
      [("A".toList, "1".toList)] (by decide),
    (C12_last_declaration_wins ["A = 1".toList, "lda A".toList, "B = 2".toList, "A = 3".toList]
      1 [] "A".toList).1.trans (by decide)⟩

/-! ## The addressing-mode resolver of `createcpp.cpp` -/

namespace JsonToCppConverter

open JsonToAssemblyConverter (stripSpaces)

/-- C13: the five reference operands and the empty operand. -/
theorem C13_reference_operands :
    translateOperand "#$10".toList = some "0x10".toList ∧
    translateOperand "$10,x".toList = some "0x10 + x".toList ∧
    translateOperand "($10),y".toList = some "W(0x10) + y".toList ∧
    translateOperand "($10)".toList = some "M(0x10)".toList ∧
    translateOperand "$10".toList = some "M(0x10)".toList ∧
    translateOperand [] = some [] := by
  decide

/-- C16: `translateExpression` turns `$s` into `0xs` and `%s` into `BOOST_BINARY(s)` for every
`s`, and returns every string that begins with neither `$` nor `%`, the empty one included,
unchanged. -/
theorem C16_literal_normalisation (s : Str) :
    translateExpression ('$' :: s) = "0x".toList ++ s ∧
    translateExpression ('%' :: s) = "BOOST_BINARY(".toList ++ s ++ ")".toList ∧
    (s.head? ≠ some '$' → s.head? ≠ some '%' → translateExpression s = s) ∧
    translateExpression [] = [] := by
  refine ⟨?_, ?_, ?_, rfl⟩
  · simp [translateExpression]
  · simp [translateExpression]
  · intro h1 h2
    unfold translateExpression
    rw [if_neg h1, if_neg h2]
    split
    · rename_i h
      exact (List.isEmpty_iff.1 h).symm
    · rfl

/-- C16, at the decimal literal `255`, the name `Lives` and the empty string. -/
theorem C16_literal_normalisation_witness :
    translateExpression "255".toList = "255".toList ∧
      translateExpression "Lives".toList = "Lives".toList ∧
      translateExpression "$FF".toList = "0xFF".toList ∧
      translateExpression "%1100".toList = "BOOST_BINARY(1100)".toList :=
  ⟨(C16_literal_normalisation "255".toList).2.2.1 (by decide) (by decide),
    (C16_literal_normalisation "Lives".toList).2.2.1 (by decide) (by decide),
    (C16_literal_normalisation "FF".toList).1,
    (C16_literal_normalisation "1100".toList).2.1⟩

theorem paren_iff (base : Str) :
    (base.head? = some '(' ∧ base.getLast? = some ')') ↔
      ∃ inner, base = '(' :: (inner ++ [')']) := by
  constructor
  · rintro ⟨h1, h2⟩
    cases base with
    | nil => simp at h1
    | cons a r =>
      simp only [List.head?_cons, Option.some.injEq] at h1
      subst h1
      rcases List.eq_nil_or_concat r with h0 | ⟨t, b, hb⟩
      · subst h0
        simp at h2
      · rw [List.concat_eq_append] at hb
        subst hb
        rw [← List.cons_append, List.getLast?_concat] at h2
        exact ⟨t, by rw [Option.some.inj h2]⟩
  · rintro ⟨inner, rfl⟩
    refine ⟨rfl, ?_⟩
    rw [← List.cons_append, List.getLast?_concat]

theorem paren_inner (inner : Str) :
    (('(' :: (inner ++ [')'])).drop 1).take (('(' :: (inner ++ [')'])).length - 2) = inner := by
  simp

/-- The indexed branch of `translateOperand`. -/
theorem translateOperand_comma (operand : Str) (h1 : operand.head? ≠ some '#')
    (h2 : ¬ (operand.head? = some '(' ∧ operand.getLast? = some ')')) (h3 : ',' ∈ operand) :
    translateOperand operand =
      match (stripSpaces (operand.takeWhile (fun c => c != ','))).head? with
      | none => none
      | some front =>
        if front = '(' ∧ (stripSpaces (operand.takeWhile (fun c => c != ','))).getLast? = some ')'
            ∧ stripSpaces ((operand.dropWhile (fun c => c != ',')).drop 1) = "y".toList then
          some ("W(".toList ++ translateExpression
            (((stripSpaces (operand.takeWhile (fun c => c != ','))).drop 1).take
              ((stripSpaces (operand.takeWhile (fun c => c != ','))).length - 2))
            ++ ") + y".toList)
        else
          some (translateExpression (stripSpaces (operand.takeWhile (fun c => c != ',')))
            ++ " + ".toList ++ stripSpaces ((operand.dropWhile (fun c => c != ',')).drop 1)) := by
  have hne : operand ≠ [] := by
    rintro rfl
    simp at h3
  cases hf : find ',' operand with
  | none => exact absurd h3 ((find_eq_none_iff _ _).1 hf)
  | some p =>
    have ht := find_some_take _ _ _ hf
    unfold translateOperand
    simp only [List.isEmpty_iff, hne, if_false, h1, h2, hf, ht.1, ht.2]

theorem translateOperand_indexed (operand base index : Str)
    (hb : base = stripSpaces (operand.takeWhile (fun c => c != ',')))
    (hi : index = stripSpaces ((operand.dropWhile (fun c => c != ',')).drop 1))
    (h1 : operand.head? ≠ some '#')
    (h2 : ¬ (operand.head? = some '(' ∧ operand.getLast? = some ')'))
    (h3 : ',' ∈ operand) (hne : base ≠ []) :
    (∀ inner, base = '(' :: (inner ++ [')']) → index = "y".toList →
      translateOperand operand
        = some ("W(".toList ++ translateExpression inner ++ ") + y".toList)) ∧
    ((¬ ∃ inner, base = '(' :: (inner ++ [')'])) ∨ index ≠ "y".toList →
      translateOperand operand = some (translateExpression base ++ " + ".toList ++ index)) := by
  rw [translateOperand_comma operand h1 h2 h3, ← hb, ← hi]
  obtain ⟨f, r, hfr⟩ := List.exists_cons_of_ne_nil hne
  have hhead : base.head? = some f := by rw [hfr]; rfl
  rw [hhead]
  constructor
  · intro inner hin hy
    have hp := (paren_iff base).2 ⟨inner, hin⟩
    have hf : f = '(' := by
      rw [hhead] at hp
      exact Option.some.inj hp.1
    simp only [hf, hp.2, hy, and_self, if_true]
    rw [hin, paren_inner]
  · intro h
    have hn : ¬ (f = '(' ∧ base.getLast? = some ')' ∧ index = "y".toList) := by
      rintro ⟨hf, hl, hy⟩
      rcases h with h | h
      · exact h ((paren_iff base).1 ⟨by rw [hhead, hf], hl⟩)
      · exact h hy
    simp only [hn, if_false]

/-- C14: for every operand that does not begin with `#`, is not both `(`-initial and
`)`-final, and contains a comma with a non-blank text before the first one: `base` and `index`
being the texts before and after the first comma stripped of whitespace at both ends,
`translateOperand` returns `W(` + translateExpression(inner) + `) + y` when `base` is
`(` + inner + `)` and `index` is exactly `y`, and otherwise translateExpression(base) + ` + ` +
index, to which no `M( )` wrapper is added. -/
theorem C14_indexed_addressing (operand base index : Str)
    (hb : base = stripSpaces (operand.takeWhile (fun c => c != ',')))
    (hi : index = stripSpaces ((operand.dropWhile (fun c => c != ',')).drop 1))
    (h1 : operand.head? ≠ some '#')
    (h2 : ¬ (operand.head? = some '(' ∧ operand.getLast? = some ')'))
    (h3 : ',' ∈ operand) (hne : base ≠ []) :
    (∀ inner, base = '(' :: (inner ++ [')']) → index = "y".toList →
      translateOperand operand
        = some ("W(".toList ++ translateExpression inner ++ ") + y".toList)) ∧
    ((¬ ∃ inner, base = '(' :: (inner ++ [')'])) ∨ index ≠ "y".toList →
      translateOperand operand = some (translateExpression base ++ " + ".toList ++ index)) :=
  translateOperand_indexed operand base index hb hi h1 h2 h3 hne

/-- C14, at `( $20 ) , y` (the special case, blanks stripped), at `($20),x` and at
`Table , x`. -/
theorem C14_indexed_addressing_witness :
    translateOperand "($20) , y".toList = some "W(0x20) + y".toList ∧
      translateOperand "($20),x".toList = some "($20) + x".toList ∧
      translateOperand "Table , x".toList = some "Table + x".toList :=
  ⟨(C14_indexed_addressing "($20) , y".toList "($20)".toList "y".toList (by decide) (by decide)
      (by decide) (by decide) (by decide) (by decide)).1 "$20".toList (by decide) (by decide),
    (C14_indexed_addressing "($20),x".toList "($20)".toList "x".toList (by decide) (by decide)
      (by decide) (by decide) (by decide) (by decide)).2 (Or.inr (by decide)),
    (C14_indexed_addressing "Table , x".toList "Table".toList "x".toList (by decide) (by decide)
      (by decide) (by decide) (by decide) (by decide)).2 (Or.inr (by decide))⟩

/-- When `translateOperand` has no defined result: exactly when the operand reaches the indexed
branch with nothing but whitespace before its first comma, so that `base.front()` is evaluated
on an empty string. -/
theorem translateOperand_eq_none_iff (operand : Str) :
    translateOperand operand = none ↔
      (operand.head? ≠ some '#' ∧ ¬ (operand.head? = some '(' ∧ operand.getLast? = some ')') ∧
        ',' ∈ operand ∧ stripSpaces (operand.takeWhile (fun c => c != ',')) = []) := by
  by_cases h0 : operand = []
  · subst h0
    simp [translateOperand]
  by_cases h1 : operand.head? = some '#'
  · simp [translateOperand, h0, h1]
  by_cases h2 : operand.head? = some '(' ∧ operand.getLast? = some ')'
  · simp [translateOperand, h0, h1, h2]
  by_cases h3 : ',' ∈ operand
  · rw [translateOperand_comma operand h1 h2 h3]
    cases hb : stripSpaces (operand.takeWhile (fun c => c != ',')) with
    | nil => simp [h1, h2, h3]
    | cons f r =>
      simp only [List.head?_cons]
      split <;> simp [h1, h2, h3]
  · have hf := (find_eq_none_iff _ _).2 h3
    simp [translateOperand, h0, h1, h2, hf, h3]

/-- C15 (as stated, refuted): the pre-indexed operand `($10,x)` is both `(`-initial and
`)`-final, so the indirect rule takes it before the comma is looked at: the result is
`M(0x10,x)`, wrapped in `M(`, and not the sum form that `$10,x` gets. -/
theorem C15_pre_indexed_is_wrapped :
    translateOperand "($10,x)".toList = some "M(0x10,x)".toList ∧
      translateOperand "($10,x)".toList ≠ some "0x10 + x".toList ∧
      translateOperand "$10,x".toList = some "0x10 + x".toList := by
  decide

/-- C15 (amended): a comma form is read by the first rule that applies.  An operand that begins
with `#` is taken by the immediate rule and comes out as translateExpression of the rest, comma
included: `#$10,x` gives `0x10,x`.  An operand that is both `(`-initial and `)`-final is taken by
the indirect rule, whatever stands inside, and comes out as `M(` + translateExpression(inner) +
`)`: `($10,x)` gives `M(0x10,x)`.  Of the others, the one with nothing but blanks before its
first comma has no defined result (`base.front()` on an empty string), and every one with a
non-blank base, other than `(base),y`, resolves to translateExpression(base) + ` + ` + index
with no memory wrapper, as `$10,x` does to `0x10 + x`. -/
theorem C15_comma_forms (operand base index : Str)
    (hb : base = stripSpaces (operand.takeWhile (fun c => c != ',')))
    (hi : index = stripSpaces ((operand.dropWhile (fun c => c != ',')).drop 1))
    (h3 : ',' ∈ operand) :
    (operand.head? ≠ some '#' →
      ¬ (operand.head? = some '(' ∧ operand.getLast? = some ')') → base ≠ [] →
      ¬ ((∃ inner, base = '(' :: (inner ++ [')'])) ∧ index = "y".toList) →
      translateOperand operand = some (translateExpression base ++ " + ".toList ++ index)) ∧
    (∀ inner, operand = '(' :: (inner ++ [')']) →
      translateOperand operand
        = some ("M(".toList ++ translateExpression inner ++ ")".toList)) ∧
    (operand.head? = some '#' →
      translateOperand operand = some (translateExpression (operand.drop 1))) ∧
    (operand.head? ≠ some '#' →
      ¬ (operand.head? = some '(' ∧ operand.getLast? = some ')') → base = [] →
      translateOperand operand = none) ∧
    translateOperand "$10,x".toList = some "0x10 + x".toList ∧
    translateOperand "($10,x)".toList = some "M(0x10,x)".toList ∧
    translateOperand "#$10,x".toList = some "0x10,x".toList := by
  refine ⟨?_, ?_, ?_, ?_, by decide, by decide, by decide⟩
  · intro h1 h2 hne hn
    apply (translateOperand_indexed operand base index hb hi h1 h2 h3 hne).2
    by_cases hy : index = "y".toList
    · exact Or.inl (fun h => hn ⟨h, hy⟩)
    · exact Or.inr hy
  · intro inner hin
    have hp := (paren_iff operand).2 ⟨inner, hin⟩
    have hne : operand ≠ [] := by rw [hin]; simp
    have h1 : operand.head? ≠ some '#' := by rw [hp.1]; decide
    unfold translateOperand
    simp only [List.isEmpty_iff, hne, if_false, h1, hp.2, and_true, hp.1, if_true]
    rw [if_neg (by decide), hin, paren_inner]
  · intro h1
    have hne : operand ≠ [] := by
      intro h0
      rw [h0] at h1
      exact absurd h1 (by simp)
    unfold translateOperand
    simp only [List.isEmpty_iff, hne, if_false, h1, if_true]
  · intro h1 h2 he
    exact (translateOperand_eq_none_iff operand).2 ⟨h1, h2, h3, by rw [← hb]; exact he⟩

/-- C15 (amended), at `Table,y` (the sum form), `($10,x)` (the indirect rule), `#$10,x` (the
immediate rule) and ` ,x` (blank base, no defined result). -/
theorem C15_comma_forms_witness :
    translateOperand "Table,y".toList = some "Table + y".toList ∧
      translateOperand "($10,x)".toList = some "M(0x10,x)".toList ∧
      translateOperand "#$10,x".toList = some "0x10,x".toList ∧
      translateOperand " ,x".toList = none :=
  ⟨(C15_comma_forms "Table,y".toList "Table".toList "y".toList (by decide) (by decide)
      (by decide)).1 (by decide) (by decide) (by decide)
      (fun h => h.1.elim (fun _ hin => absurd (congrArg List.head? hin) (by simp))),
    (C15_comma_forms "($10,x)".toList "($10".toList "x)".toList (by decide) (by decide)
      (by decide)).2.1 "$10,x".toList (by decide),
    ((C15_comma_forms "#$10,x".toList "#$10".toList "x".toList (by decide) (by decide)
      (by decide)).2.2.1 (by decide)).trans (by decide),
    (C15_comma_forms " ,x".toList [] "x".toList (by decide) (by decide)
      (by decide)).2.2.2.1 (by decide) (by decide) rfl⟩

/-- C17 (what the code does): on `,x` and on ` ,y` the text before the comma is empty once
stripped, and the special-case test evaluates `base.front()` on that empty string: the call has
no defined result (the lemma `translateOperand_eq_none_iff` gives all such operands). -/
theorem C17_front_of_empty_base :
    translateOperand ",x".toList = none ∧ translateOperand " ,y".toList = none ∧
      stripSpaces (" ,y".toList.takeWhile (fun c => c != ',')) = [] := by
  decide

/-! ## The return-site counter -/

theorem translateInstruction_jsr (inst : JsonInstruction) (n : Nat)
    (hm : inst.mnemonic = "jsr".toList) (ho : inst.operand ≠ "JumpEngine".toList) :
    translateInstruction inst n =
      some ("JSR(".toList ++ inst.operand ++ ", ".toList ++ decimal n ++ ");".toList, n + 1) := by
  unfold translateInstruction
  simp only [hm]
  repeat rw [if_neg (by decide)]
  rw [if_pos True.intro, if_neg ho]

theorem translateInstruction_jumpEngine (inst : JsonInstruction) (n : Nat)
    (hm : inst.mnemonic = "jsr".toList) (ho : inst.operand = "JumpEngine".toList) :
    translateInstruction inst n =
      some ("/* JSR JumpEngine - needs jump table implementation */".toList, n) := by
  unfold translateInstruction
  simp only [hm]
  repeat rw [if_neg (by decide)]
  rw [if_pos True.intro, if_pos ho]

theorem keep_ite (n : Nat) (c : Prop) [Decidable c] (a b : Option (Str × Nat))
    (ha : ∀ t m, a = some (t, m) → m = n) (hb : ∀ t m, b = some (t, m) → m = n) :
    ∀ t m, (if c then a else b) = some (t, m) → m = n := by
  intro t m h
  split at h
  · exact ha t m h
  · exact hb t m h

theorem keep_some (n : Nat) (x : Str) :
    ∀ t m, (some (x, n) : Option (Str × Nat)) = some (t, m) → m = n := by
  intro t m h
  exact (Prod.mk.inj (Option.some.inj h)).2.symm

theorem keep_map (n : Nat) (o : Option Str) (f : Str → Str) :
    ∀ t m, o.map (fun x => (f x, n)) = some (t, m) → m = n := by
  intro t m h
  obtain ⟨a, -, ha⟩ := Option.map_eq_some'.1 h
  exact (Prod.mk.inj ha).2.symm

/-- An instruction other than `jsr` leaves `returnLabelIndex` as it was. -/
theorem translateInstruction_counter_of_not_jsr (inst : JsonInstruction) (n : Nat)
    (hm : inst.mnemonic ≠ "jsr".toList) :
    ∀ t m, translateInstruction inst n = some (t, m) → m = n := by
  unfold translateInstruction
  simp only []
  rw [if_neg hm]
  repeat' first
    | exact keep_some n _
    | exact keep_map n _ _
    | apply keep_ite

/-- C18: with return counter `n`, `translateInstruction` on `jsr X` returns
`JSR(X, decimal(n));` and leaves the counter at `n + 1` for every operand `X` other than
`JumpEngine`; on `jsr JumpEngine` it returns the fixed marker and leaves the counter at `n`. -/
theorem C18_jsr_return_site (inst : JsonInstruction) (n : Nat)
    (hm : inst.mnemonic = "jsr".toList) :
    (inst.operand ≠ "JumpEngine".toList →
      translateInstruction inst n =
        some ("JSR(".toList ++ inst.operand ++ ", ".toList ++ decimal n ++ ");".toList, n + 1)) ∧
    (inst.operand = "JumpEngine".toList →
      translateInstruction inst n =
        some ("/* JSR JumpEngine - needs jump table implementation */".toList, n)) :=
  ⟨translateInstruction_jsr inst n hm, translateInstruction_jumpEngine inst n hm⟩

/-- C18, at `jsr Foo` with counter 12 and at `jsr JumpEngine` with counter 12. -/
theorem C18_jsr_return_site_witness :
    translateInstruction ⟨"jsr".toList, "Foo".toList, [], 5⟩ 12
        = some ("JSR(Foo, 12);".toList, 13) ∧
      translateInstruction ⟨"jsr".toList, "JumpEngine".toList, [], 5⟩ 12
        = some ("/* JSR JumpEngine - needs jump table implementation */".toList, 12) :=
  ⟨(C18_jsr_return_site ⟨"jsr".toList, "Foo".toList, [], 5⟩ 12 rfl).1 (by decide),
    (C18_jsr_return_site ⟨"jsr".toList, "JumpEngine".toList, [], 5⟩ 12 rfl).2 rfl⟩

/-- What a call of `translateInstruction` does to the counter: a `jsr` to a target other than
`JumpEngine` returns `JSR(target, counter);` and adds one, every other instruction leaves the
counter alone. -/
theorem translateInstruction_step (inst : JsonInstruction) (n m : Nat) (t : Str)
    (h : translateInstruction inst n = some (t, m)) :
    ((inst.mnemonic = "jsr".toList ∧ inst.operand ≠ "JumpEngine".toList) →
      m = n + 1 ∧ t = "JSR(".toList ++ inst.operand ++ ", ".toList ++ decimal n ++ ");".toList) ∧
    (¬ (inst.mnemonic = "jsr".toList ∧ inst.operand ≠ "JumpEngine".toList) → m = n) := by
  constructor
  · rintro ⟨hm, ho⟩
    rw [translateInstruction_jsr inst n hm ho] at h
    have := Prod.mk.inj (Option.some.inj h)
    exact ⟨this.2.symm, this.1.symm⟩
  · intro hn
    by_cases hm : inst.mnemonic = "jsr".toList
    · have ho : inst.operand = "JumpEngine".toList := by
        by_contra ho
        exact hn ⟨hm, ho⟩
      rw [translateInstruction_jumpEngine inst n hm ho] at h
      exact (Prod.mk.inj (Option.some.inj h)).2.symm
    · exact translateInstruction_counter_of_not_jsr inst n hm t m h

/-- The counted calls stay numbered 0, 1, 2, ... when one more call is recorded. -/
theorem calls_snoc (tr : List (JsonInstruction × Str)) (n m : Nat) (inst : JsonInstruction)
    (t : Str) (h : translateInstruction inst n = some (t, m))
    (hlen : (tr.filter (fun e => decide (e.1.mnemonic = "jsr".toList ∧
      e.1.operand ≠ "JumpEngine".toList))).length = n)
    (hall : ∀ (i : Nat) (e : JsonInstruction × Str),
      (tr.filter (fun e => decide (e.1.mnemonic = "jsr".toList ∧
        e.1.operand ≠ "JumpEngine".toList)))[i]? = some e →
      e.2 = "JSR(".toList ++ e.1.operand ++ ", ".toList ++ decimal i ++ ");".toList) :
    ((tr ++ [(inst, t)]).filter (fun e => decide (e.1.mnemonic = "jsr".toList ∧
      e.1.operand ≠ "JumpEngine".toList))).length = m ∧
    ∀ (i : Nat) (e : JsonInstruction × Str),
      ((tr ++ [(inst, t)]).filter (fun e => decide (e.1.mnemonic = "jsr".toList ∧
        e.1.operand ≠ "JumpEngine".toList)))[i]? = some e →
      e.2 = "JSR(".toList ++ e.1.operand ++ ", ".toList ++ decimal i ++ ");".toList := by
  obtain ⟨h1, h2⟩ := translateInstruction_step inst n m t h
  rw [List.filter_append]
  by_cases hc : inst.mnemonic = "jsr".toList ∧ inst.operand ≠ "JumpEngine".toList
  · obtain ⟨hm, ht⟩ := h1 hc
    have e1 : List.filter (fun e : JsonInstruction × Str =>
        decide (e.1.mnemonic = "jsr".toList ∧ e.1.operand ≠ "JumpEngine".toList)) [(inst, t)]
        = [(inst, t)] := by
      simp only [List.filter_cons, hc, and_self, not_false_eq_true, ne_eq, decide_True, if_true,
        List.filter_nil]
    rw [e1]
    refine ⟨by rw [List.length_append, hlen, hm]; rfl, ?_⟩
    intro i e he
    rcases Nat.lt_or_ge i n with hi | hi
    · rw [List.getElem?_append_left (by rw [hlen]; exact hi)] at he
      exact hall i e he
    · rw [List.getElem?_append_right (by rw [hlen]; exact hi), hlen] at he
      have hi0 : i - n = 0 := by
        by_contra h0
        have : 1 ≤ i - n := Nat.one_le_iff_ne_zero.2 h0
        rw [List.getElem?_eq_none (by simpa using this)] at he
        exact absurd he (by simp)
      rw [hi0] at he
      simp only [List.getElem?_cons_zero, Option.some.injEq] at he
      have hin : i = n := by omega
      rw [← he, hin]
      exact ht
  · have e1 : List.filter (fun e : JsonInstruction × Str =>
        decide (e.1.mnemonic = "jsr".toList ∧ e.1.operand ≠ "JumpEngine".toList)) [(inst, t)]
        = [] := by
      simp only [List.filter_cons, hc, decide_False, Bool.false_eq_true, if_false,
        List.filter_nil]
    rw [e1, List.append_nil, h2 hc]
    exact ⟨hlen, hall⟩

/-- A property of the recorded calls and the counter that every call of `translateInstruction`
keeps is kept by the loop of `generateLabelCode`. -/
theorem generateItems_invariant (P : List (JsonInstruction × Str) → Nat → Prop)
    (hstep : ∀ tr n inst t m, P tr n → translateInstruction inst n = some (t, m) →
      P (tr ++ [(inst, t)]) m)
    (cv : State) (items : List ProgramFlowItem) (st r : Emission)
    (h : generateItems cv items st = some r) (hP : P st.translated st.returnLabelIndex) :
    P r.translated r.returnLabelIndex := by
  induction items generalizing st with
  | nil =>
    rw [generateItems] at h
    rw [← Option.some.inj h]
    exact hP
  | cons item rest ih =>
    rw [generateItems] at h
    by_cases hty : item.type = "instruction".toList
    · rw [if_pos hty] at h
      cases hfind : cv.instructions.find? (fun inst => inst.lineNumber = item.lineNumber) with
      | none =>
        rw [hfind] at h
        exact ih st h hP
      | some inst =>
        rw [hfind] at h
        simp only [] at h
        cases htr : translateInstruction inst st.returnLabelIndex with
        | none =>
          rw [htr] at h
          exact absurd h (by simp)
        | some res =>
          obtain ⟨text, index⟩ := res
          rw [htr] at h
          simp only [] at h
          exact ih _ h (hstep _ _ _ _ _ hP htr)
    · rw [if_neg hty] at h
      by_cases hd : item.type = "data".toList
      · rw [if_pos hd] at h
        exact ih _ h hP
      · rw [if_neg hd] at h
        exact ih st h hP

/-- The loop of `generateLabelCode` calls `translateInstruction` on the record of each
instruction item that has one, in order. -/
theorem generateItems_calls (cv : State) (items : List ProgramFlowItem) (st r : Emission)
    (h : generateItems cv items st = some r) :
    r.translated.map Prod.fst = st.translated.map Prod.fst ++
      (items.filter (fun it => it.type = "instruction".toList)).filterMap
        (fun it => cv.instructions.find? (fun inst => inst.lineNumber = it.lineNumber)) := by
  induction items generalizing st with
  | nil =>
    rw [generateItems] at h
    rw [← Option.some.inj h]
    simp
  | cons item rest ih =>
    rw [generateItems] at h
    by_cases hty : item.type = "instruction".toList
    · rw [if_pos hty] at h
      rw [List.filter_cons_of_pos (by simpa using hty), List.filterMap_cons]
      cases hfind : cv.instructions.find? (fun inst => inst.lineNumber = item.lineNumber) with
      | none =>
        rw [hfind] at h
        exact ih st h
      | some inst =>
        rw [hfind] at h
        simp only [] at h
        cases htr : translateInstruction inst st.returnLabelIndex with
        | none =>
          rw [htr] at h
          exact absurd h (by simp)
        | some res =>
          obtain ⟨text, index⟩ := res
          rw [htr] at h
          simp only [] at h
          rw [ih _ h]
          simp
    · rw [if_neg hty] at h
      rw [List.filter_cons_of_neg (by simpa using hty)]
      by_cases hd : item.type = "data".toList
      · rw [if_pos hd] at h
        have hd2 := ih _ h
        exact hd2
      · rw [if_neg hd] at h
        exact ih st h

theorem generateLabelCode_invariant (P : List (JsonInstruction × Str) → Nat → Prop)
    (hstep : ∀ tr n inst t m, P tr n → translateInstruction inst n = some (t, m) →
      P (tr ++ [(inst, t)]) m)
    (cv : State) (labelName : Str) (items : List ProgramFlowItem) (st r : Emission)
    (h : generateLabelCode cv labelName items st = some r)
    (hP : P st.translated st.returnLabelIndex) : P r.translated r.returnLabelIndex := by
  unfold generateLabelCode at h
  cases hb : labelName.getLast? with
  | none =>
    rw [hb] at h
    exact absurd h (by simp)
  | some back =>
    rw [hb] at h
    simp only [] at h
    exact generateItems_invariant P hstep cv items _ r h hP

theorem generateLabelCode_calls (cv : State) (labelName : Str) (items : List ProgramFlowItem)
    (st r : Emission) (h : generateLabelCode cv labelName items st = some r) :
    r.translated.map Prod.fst = st.translated.map Prod.fst ++
      (items.filter (fun it => it.type = "instruction".toList)).filterMap
        (fun it => cv.instructions.find? (fun inst => inst.lineNumber = it.lineNumber)) := by
  unfold generateLabelCode at h
  cases hb : labelName.getLast? with
  | none =>
    rw [hb] at h
    exact absurd h (by simp)
  | some back =>
    rw [hb] at h
    simp only [] at h
    have hg := generateItems_calls cv items _ r h
    exact hg

theorem groupLabels_invariant (P : List (JsonInstruction × Str) → Nat → Prop)
    (hstep : ∀ tr n inst t m, P tr n → translateInstruction inst n = some (t, m) →
      P (tr ++ [(inst, t)]) m)
    (cv : State) (pf : List ProgramFlowItem) (cl : Str) (ci : List ProgramFlowItem)
    (st r : Emission) (h : groupLabels cv pf cl ci st = some r)
    (hP : P st.translated st.returnLabelIndex) : P r.translated r.returnLabelIndex := by
  induction pf generalizing cl ci st with
  | nil =>
    rw [groupLabels] at h
    split at h
    · exact generateLabelCode_invariant P hstep cv cl ci st r h hP
    · rw [← Option.some.inj h]
      exact hP
  | cons item rest ih =>
    rw [groupLabels] at h
    by_cases hty : item.type = "label".toList
    · rw [if_pos hty] at h
      by_cases hcl : ¬ cl.isEmpty
      · rw [if_pos hcl] at h
        cases hg : generateLabelCode cv cl ci st with
        | none =>
          rw [hg] at h
          exact absurd h (by simp)
        | some st1 =>
          rw [hg] at h
          exact ih _ _ _ h (generateLabelCode_invariant P hstep cv cl ci st st1 hg hP)
      · rw [if_neg hcl] at h
        exact ih _ _ _ h hP
    · rw [if_neg hty] at h
      exact ih _ _ _ h hP

/-- The instruction records that the grouping loop of `generateSourceFile` hands to
`translateInstruction`, when every label item has a non-empty content: with a label open, those
of the pending items and of all the items still to come; with no label open yet, those of the
items from the first label on. -/
theorem groupLabels_calls (cv : State) (pf : List ProgramFlowItem) (cl : Str)
    (ci : List ProgramFlowItem) (st r : Emission)
    (hlab : ∀ it ∈ pf, it.type = "label".toList → it.content ≠ [])
    (h : groupLabels cv pf cl ci st = some r) :
    r.translated.map Prod.fst = st.translated.map Prod.fst ++
      (((if cl ≠ [] then ci ++ pf else pf.dropWhile (fun it => it.type ≠ "label".toList)).filter
        (fun it => it.type = "instruction".toList)).filterMap
        (fun it => cv.instructions.find? (fun inst => inst.lineNumber = it.lineNumber))) := by
  induction pf generalizing cl ci st with
  | nil =>
    rw [groupLabels] at h
    by_cases hcl : cl = []
    · subst hcl
      rw [if_neg (by simp)] at h
      rw [← Option.some.inj h, if_neg (fun hn => hn rfl)]
      simp
    · have hcl2 : ¬ cl.isEmpty := by simpa using hcl
      rw [if_pos hcl2] at h
      rw [generateLabelCode_calls cv cl ci st r h, if_pos hcl, List.append_nil]
  | cons item rest ih =>
    have hrest : ∀ it ∈ rest, it.type = "label".toList → it.content ≠ [] :=
      fun it hit => hlab it (List.mem_cons_of_mem _ hit)
    rw [groupLabels] at h
    by_cases hty : item.type = "label".toList
    · rw [if_pos hty] at h
      have hcontent : item.content ≠ [] := hlab item (List.mem_cons_self _ _) hty
      have hni : ¬ (decide (item.type = "instruction".toList) = true) := by
        rw [hty]
        decide
      have hnl : ¬ (decide (item.type ≠ "label".toList) = true) := by
        rw [hty]
        decide
      by_cases hcl : cl = []
      · subst hcl
        rw [if_neg (by simp)] at h
        simp only [] at h
        rw [ih _ _ _ hrest h, if_pos hcontent, if_neg (fun hn => hn rfl),
          List.dropWhile_cons_of_neg (by exact hnl), List.nil_append, List.filter_cons_of_neg (by exact hni)]
      · have hcl2 : ¬ cl.isEmpty := by simpa using hcl
        rw [if_pos hcl2] at h
        cases hg : generateLabelCode cv cl ci st with
        | none =>
          rw [hg] at h
          exact absurd h (by simp)
        | some st1 =>
          rw [hg] at h
          simp only [] at h
          rw [ih _ _ _ hrest h, generateLabelCode_calls cv cl ci st st1 hg, if_pos hcontent,
            if_pos hcl, List.nil_append, List.filter_append, List.filter_cons_of_neg (by exact hni),
            List.filterMap_append, List.append_assoc]
    · rw [if_neg hty] at h
      have hnl : decide (item.type ≠ "label".toList) = true := by
        simpa using hty
      rw [ih _ _ _ hrest h]
      by_cases hcl : cl = []
      · subst hcl
        rw [if_neg (fun hn => hn rfl), if_neg (fun hn => hn rfl),
          List.dropWhile_cons_of_pos (by exact hnl)]
      · rw [if_pos hcl, if_pos hcl, List.append_assoc]
        rfl

theorem generateSourceFile_eq (cv : State) (r : Emission) (h : generateSourceFile cv = some r) :
    ∃ st, groupLabels cv cv.programFlow [] []
        { file := sourceHeader, returnLabelIndex := cv.returnLabelIndex, translated := [] }
        = some st ∧
      r = { st with file := st.file ++ returnHandler st.returnLabelIndex } := by
  unfold generateSourceFile at h
  cases hg : groupLabels cv cv.programFlow [] []
      { file := sourceHeader, returnLabelIndex := cv.returnLabelIndex, translated := [] } with
  | none =>
    rw [hg] at h
    exact absurd h (by simp)
  | some st =>
    rw [hg] at h
    exact ⟨st, rfl, (Option.some.inj h).symm⟩

/-! ### When the emission completes -/

theorem isSome_ite {α : Type} (c : Prop) [Decidable c] (a b : Option α)
    (ha : a.isSome = true) (hb : b.isSome = true) : (if c then a else b).isSome = true := by
  split
  · exact ha
  · exact hb

theorem isSome_map_of {α β : Type} (o : Option α) (f : α → β) (h : o.isSome = true) :
    (o.map f).isSome = true := by
  cases o with
  | none => exact absurd h (by simp)
  | some a => rfl

/-- A call of `translateInstruction` has a result whenever `translateOperand` has one for the
operand. -/
theorem translateInstruction_isSome (inst : JsonInstruction) (n : Nat)
    (h : (translateOperand inst.operand).isSome = true) :
    (translateInstruction inst n).isSome = true := by
  unfold translateInstruction
  simp only []
  repeat' first
    | exact rfl
    | exact isSome_map_of _ _ h
    | apply isSome_ite

theorem generateItems_isSome (cv : State)
    (hall : ∀ inst ∈ cv.instructions, (translateOperand inst.operand).isSome = true)
    (items : List ProgramFlowItem) (st : Emission) :
    (generateItems cv items st).isSome = true := by
  induction items generalizing st with
  | nil => rfl
  | cons item rest ih =>
    rw [generateItems]
    by_cases hty : item.type = "instruction".toList
    · rw [if_pos hty]
      cases hfind : cv.instructions.find? (fun inst => inst.lineNumber = item.lineNumber) with
      | none => exact ih st
      | some inst =>
        simp only []
        have hi := translateInstruction_isSome inst st.returnLabelIndex
          (hall inst (List.mem_of_find?_eq_some hfind))
        obtain ⟨res, hres⟩ := Option.isSome_iff_exists.1 hi
        obtain ⟨text, index⟩ := res
        rw [hres]
        exact ih _
    · rw [if_neg hty]
      by_cases hd : item.type = "data".toList
      · rw [if_pos hd]
        exact ih _
      · rw [if_neg hd]
        exact ih st

theorem generateLabelCode_isSome (cv : State)
    (hall : ∀ inst ∈ cv.instructions, (translateOperand inst.operand).isSome = true)
    (labelName : Str) (hne : ¬ labelName.isEmpty) (items : List ProgramFlowItem) (st : Emission) :
    (generateLabelCode cv labelName items st).isSome = true := by
  unfold generateLabelCode
  cases hb : labelName.getLast? with
  | none =>
    rw [List.getLast?_eq_none_iff] at hb
    exact absurd (by simp [hb]) hne
  | some back => exact generateItems_isSome cv hall items _

theorem groupLabels_isSome (cv : State)
    (hall : ∀ inst ∈ cv.instructions, (translateOperand inst.operand).isSome = true)
    (pf : List ProgramFlowItem) (cl : Str) (ci : List ProgramFlowItem) (st : Emission) :
    (groupLabels cv pf cl ci st).isSome = true := by
  induction pf generalizing cl ci st with
  | nil =>
    rw [groupLabels]
    split
    · rename_i h
      exact generateLabelCode_isSome cv hall cl h ci st
    · rfl
  | cons item rest ih =>
    rw [groupLabels]
    by_cases hty : item.type = "label".toList
    · rw [if_pos hty]
      by_cases hcl : ¬ cl.isEmpty
      · rw [if_pos hcl]
        obtain ⟨st1, h1⟩ := Option.isSome_iff_exists.1
          (generateLabelCode_isSome cv hall cl hcl ci st)
        rw [h1]
        exact ih _ _ _
      · rw [if_neg hcl]
        exact ih _ _ _
    · rw [if_neg hty]
      exact ih _ _ _

/-- The function `generateSourceFile` completes on every IR whose instruction operands all have
a defined translation. -/
theorem generateSourceFile_isSome (cv : State)
    (hall : ∀ inst ∈ cv.instructions, (translateOperand inst.operand).isSome = true) :
    ∃ r, generateSourceFile cv = some r := by
  obtain ⟨st, hst⟩ := Option.isSome_iff_exists.1
    (groupLabels_isSome cv hall cv.programFlow [] []
      { file := sourceHeader, returnLabelIndex := cv.returnLabelIndex, translated := [] })
  exact ⟨_, by unfold generateSourceFile; rw [hst]⟩

theorem generateSourceFile_invariant (P : List (JsonInstruction × Str) → Nat → Prop)
    (hstep : ∀ tr n inst t m, P tr n → translateInstruction inst n = some (t, m) →
      P (tr ++ [(inst, t)]) m)
    (cv : State) (r : Emission) (h : generateSourceFile cv = some r)
    (hP : P [] cv.returnLabelIndex) : P r.translated r.returnLabelIndex := by
  obtain ⟨st, hg, rfl⟩ := generateSourceFile_eq cv r h
  exact groupLabels_invariant P hstep cv _ _ _ _ st hg hP

/-- The counted calls of a finished run are numbered from 0 and there are as many as the final
counter says. -/
theorem generateSourceFile_numbered (cv : State) (r : Emission)
    (h0 : cv.returnLabelIndex = 0) (h : generateSourceFile cv = some r) :
    (r.translated.filter (fun e => decide (e.1.mnemonic = "jsr".toList ∧
        e.1.operand ≠ "JumpEngine".toList))).length = r.returnLabelIndex ∧
    ∀ (i : Nat) (e : JsonInstruction × Str),
      (r.translated.filter (fun e => decide (e.1.mnemonic = "jsr".toList ∧
        e.1.operand ≠ "JumpEngine".toList)))[i]? = some e →
      e.2 = "JSR(".toList ++ e.1.operand ++ ", ".toList ++ decimal i ++ ");".toList := by
  refine generateSourceFile_invariant
    (fun tr n => (tr.filter (fun e => decide (e.1.mnemonic = "jsr".toList ∧
        e.1.operand ≠ "JumpEngine".toList))).length = n ∧
      ∀ (i : Nat) (e : JsonInstruction × Str),
        (tr.filter (fun e => decide (e.1.mnemonic = "jsr".toList ∧
          e.1.operand ≠ "JumpEngine".toList)))[i]? = some e →
        e.2 = "JSR(".toList ++ e.1.operand ++ ", ".toList ++ decimal i ++ ");".toList)
    ?_ cv r h ?_
  · intro tr n inst t m hP ht
    exact calls_snoc tr n m inst t ht hP.1 hP.2
  · rw [h0]
    exact ⟨rfl, fun i e he => absurd he (by simp)⟩

theorem returnHandler_eq (n : Nat) :
    returnHandler n =
      ("// Return handler\n// This emulates the RTS instruction using a generated jump " ++
        "table\n//\nReturn:\n    switch (popReturnIndex())\n    \x7b\n").toList ++
      ((List.range n).map (fun i =>
        "    case ".toList ++ decimal i ++ ":\n        goto Return_".toList ++ decimal i
          ++ ";\n".toList)).flatten ++
      "    \x7d\n\x7d\n".toList := by
  unfold returnHandler
  have e : returnArm = (fun i =>
      "    case ".toList ++ decimal i ++ ":\n        goto Return_".toList ++ decimal i
        ++ ";\n".toList) := by
    funext i
    unfold returnArm
    simp only [List.append_assoc]
    rfl
  rw [e]
  rfl

/-- C20 (as stated, refuted): the program `Start:`, `jsr JumpEngine` has one `jsr` instruction
record in its program flow, and `generateSourceFile` ends with the counter at 0; the program
`jsr Foo`, `Start:`, whose call stands before the first label, has one too and also ends with
the counter at 0. -/
theorem C20_jsr_without_return_site :
    (generateSourceFile
        ⟨[], [], [⟨"jsr".toList, "JumpEngine".toList, [], 2⟩], [], [],
          [⟨"label".toList, "Start".toList, [], 1⟩,
           ⟨"instruction".toList, "jsr JumpEngine".toList, [], 2⟩], 0⟩).map
        (fun r => r.returnLabelIndex) = some 0 ∧
      List.length ((List.filterMap
        (fun (it : ProgramFlowItem) =>
          List.find? (fun (inst : JsonInstruction) => inst.lineNumber = it.lineNumber)
            [⟨"jsr".toList, "JumpEngine".toList, [], 2⟩])
        (List.filter (fun (it : ProgramFlowItem) => it.type = "instruction".toList)
          [⟨"label".toList, "Start".toList, [], 1⟩,
           ⟨"instruction".toList, "jsr JumpEngine".toList, [], 2⟩])).filter
        (fun inst => inst.mnemonic = "jsr".toList)) = 1 ∧
      (generateSourceFile
        ⟨[], [], [⟨"jsr".toList, "Foo".toList, [], 1⟩], [], [],
          [⟨"instruction".toList, "jsr Foo".toList, [], 1⟩,
           ⟨"label".toList, "Start".toList, [], 2⟩], 0⟩).map
        (fun r => r.returnLabelIndex) = some 0 := by
  decide

/-- C20 (amended): for every IR in which every label item has a non-empty content, starting
from counter 0, `generateSourceFile` completes whenever every instruction record has an operand
`translateOperand` is defined on, and whenever it completes, the number of indices assigned (the
final value of the return counter, which is the number of arms of the dispatch switch) equals
the number of instruction items from the first label item on whose instruction record (the
first record with the line number of the item) is a `jsr` with a target other than
`JumpEngine`. -/
theorem C20_counter_counts_translated_calls (cv : State)
    (h0 : cv.returnLabelIndex = 0)
    (hlab : ∀ it ∈ cv.programFlow, it.type = "label".toList → it.content ≠ []) :
    ((∀ inst ∈ cv.instructions, (translateOperand inst.operand).isSome = true) →
      ∃ r, generateSourceFile cv = some r) ∧
    ∀ r, generateSourceFile cv = some r →
    r.returnLabelIndex =
      (((((cv.programFlow.dropWhile (fun it => it.type ≠ "label".toList)).filter
        (fun it => it.type = "instruction".toList)).filterMap
        (fun it => cv.instructions.find? (fun inst => inst.lineNumber = it.lineNumber))).filter
        (fun inst => decide (inst.mnemonic = "jsr".toList ∧
          inst.operand ≠ "JumpEngine".toList))).length) ∧
    (∃ body, r.file = body ++ returnHandler r.returnLabelIndex) ∧
    ((List.range r.returnLabelIndex).map returnArm).length = r.returnLabelIndex := by
  refine ⟨generateSourceFile_isSome cv, ?_⟩
  intro r h
  obtain ⟨hlen, -⟩ := generateSourceFile_numbered cv r h0 h
  obtain ⟨st, hg, rfl⟩ := generateSourceFile_eq cv r h
  have hcalls := groupLabels_calls cv cv.programFlow [] [] _ st hlab hg
  rw [if_neg (fun hn => hn rfl)] at hcalls
  simp only [List.map_nil, List.nil_append] at hcalls
  refine ⟨?_, ⟨st.file, rfl⟩, by simp⟩
  show st.returnLabelIndex = _
  rw [← hcalls, List.filter_map, List.length_map]
  exact hlen.symm

/-- C20 (amended), on the program `jsr Early`, `Start:`, `jsr Foo`, `jsr JumpEngine`, `jsr Bar`:
two return sites, for `Foo` and `Bar`. -/
theorem C20_counter_counts_translated_calls_witness :
    ∃ r, generateSourceFile
        ⟨[], [], [⟨"jsr".toList, "Early".toList, [], 1⟩, ⟨"jsr".toList, "Foo".toList, [], 3⟩,
                  ⟨"jsr".toList, "JumpEngine".toList, [], 4⟩,
                  ⟨"jsr".toList, "Bar".toList, [], 5⟩], [], [],
          [⟨"instruction".toList, "jsr Early".toList, [], 1⟩,
           ⟨"label".toList, "Start".toList, [], 2⟩,
           ⟨"instruction".toList, "jsr Foo".toList, [], 3⟩,
           ⟨"instruction".toList, "jsr JumpEngine".toList, [], 4⟩,
           ⟨"instruction".toList, "jsr Bar".toList, [], 5⟩], 0⟩ = some r ∧
      r.returnLabelIndex = 2 := by
  have hsome : (generateSourceFile
        ⟨[], [], [⟨"jsr".toList, "Early".toList, [], 1⟩, ⟨"jsr".toList, "Foo".toList, [], 3⟩,
                  ⟨"jsr".toList, "JumpEngine".toList, [], 4⟩,
                  ⟨"jsr".toList, "Bar".toList, [], 5⟩], [], [],
          [⟨"instruction".toList, "jsr Early".toList, [], 1⟩,
           ⟨"label".toList, "Start".toList, [], 2⟩,
           ⟨"instruction".toList, "jsr Foo".toList, [], 3⟩,
           ⟨"instruction".toList, "jsr JumpEngine".toList, [], 4⟩,
           ⟨"instruction".toList, "jsr Bar".toList, [], 5⟩], 0⟩).isSome = true := by decide
  obtain ⟨r, hr⟩ := Option.isSome_iff_exists.1 hsome
  refine ⟨r, hr, ?_⟩
  rw [((C20_counter_counts_translated_calls _ rfl (by decide)).2 r hr).1]
  decide

/-! ## The statement of each mnemonic -/

theorem shape_ite {S : Str → Prop} (c : Prop) [Decidable c] (a b : Option (Str × Nat))
    (ha : c → ∀ t k, a = some (t, k) → S t) (hb : ¬ c → ∀ t k, b = some (t, k) → S t) :
    ∀ t k, (if c then a else b) = some (t, k) → S t := by
  intro t k h
  split at h
  · exact ha ‹_› t k h
  · exact hb ‹_› t k h

theorem shape_some {S : Str → Prop} (x : Str) (n : Nat) (hx : S x) :
    ∀ t k, (some (x, n) : Option (Str × Nat)) = some (t, k) → S t := by
  intro t k h
  rw [← (Prod.mk.inj (Option.some.inj h)).1]
  exact hx

theorem shape_map {S : Str → Prop} (o : Option Str) (f : Str → Str) (n : Nat)
    (hf : ∀ u, S (f u)) : ∀ t k, o.map (fun x => (f x, n)) = some (t, k) → S t := by
  intro t k h
  obtain ⟨a, -, ha⟩ := Option.map_eq_some'.1 h
  rw [← (Prod.mk.inj ha).1]
  exact hf a

theorem getLast?_append_semi (a b : Str) (h : b.getLast? = some ';') :
    (a ++ b).getLast? = some ';' := by
  rw [List.getLast?_append, h]
  rfl

/-- The shape of every statement `translateInstruction` returns: it ends in `;`, or it is the
`nop` statement, or it is one of the six fixed markers `/* m */` for its own mnemonic, or the
`JumpEngine` marker, or the mnemonic is none of the 56 and it is the unknown marker. -/
theorem translateInstruction_shape (inst : JsonInstruction) (n : Nat) :
    ∀ t k, translateInstruction inst n = some (t, k) →
      t.getLast? = some ';' ∨
      t = "; // nop".toList ∨
      (inst.mnemonic ∈ ["cld".toList, "cli".toList, "clv".toList, "sed".toList, "sei".toList,
          "brk".toList] ∧ t = "/* ".toList ++ inst.mnemonic ++ " */".toList) ∨
      (inst.mnemonic = "jsr".toList ∧ inst.operand = "JumpEngine".toList ∧
        t = "/* JSR JumpEngine - needs jump table implementation */".toList) ∨
      (inst.mnemonic ∉ instructions ∧
        t = "/* Unknown instruction: ".toList ++ inst.mnemonic ++ " */".toList) := by
  unfold translateInstruction
  simp only []
  repeat' first
    | exact shape_some _ _ (Or.inl (by decide))
    | exact shape_some _ _ (Or.inl (getLast?_append_semi _ _ (by decide)))
    | exact shape_map _ _ _ (fun u => Or.inl (getLast?_append_semi _ _ (by decide)))
    | exact shape_some _ _ (Or.inr (Or.inl rfl))
    | exact shape_some _ _ (Or.inr (Or.inr (Or.inl ⟨by rw [hc]; decide, by rw [hc]; rfl⟩)))
    | exact shape_some _ _ (Or.inr (Or.inr (Or.inr (Or.inl ⟨by assumption, by assumption, rfl⟩))))
    | refine shape_ite _ _ _ (fun hc => ?_) (fun hc => ?_)
  refine shape_some _ _ (Or.inr (Or.inr (Or.inr (Or.inr ⟨?_, rfl⟩))))
  simp only [instructions, List.map_cons, List.map_nil, List.mem_cons, List.mem_singleton,
    List.not_mem_nil, or_false, not_or]
  repeat' apply And.intro
  all_goals assumption

theorem translateInstruction_unknown (inst : JsonInstruction) (n : Nat)
    (h : inst.mnemonic ∉ instructions) :
    translateInstruction inst n
      = some ("/* Unknown instruction: ".toList ++ inst.mnemonic ++ " */".toList, n) := by
  unfold translateInstruction
  simp only []
  repeat rw [if_neg (fun hc => h (by rw [hc]; decide))]

theorem unknown_marker_getLast? (m : Str) :
    ("/* Unknown instruction: ".toList ++ m ++ " */".toList).getLast? = some '/' := by
  rw [List.getLast?_append]
  rfl

theorem unknown_marker_get? (m : Str) :
    ("/* Unknown instruction: ".toList ++ m ++ " */".toList)[3]? = some 'U' := by
  rw [List.append_assoc]
  rfl

/-- C21: `translateInstruction` returns the marker `/* Unknown instruction: ` + m + ` */`
exactly when the mnemonic m is not accepted by the `isInstruction` of the classifier, whose list
has 56 distinct entries; the counter is then returned as it was given. -/
theorem C21_unknown_marker_iff (inst : JsonInstruction) (n : Nat) :
    ((∃ k, translateInstruction inst n
        = some ("/* Unknown instruction: ".toList ++ inst.mnemonic ++ " */".toList, k))
      ↔ isInstruction inst.mnemonic = false) ∧
    (isInstruction inst.mnemonic = false →
      translateInstruction inst n
        = some ("/* Unknown instruction: ".toList ++ inst.mnemonic ++ " */".toList, n)) ∧
    instructions.length = 56 ∧ instructions.Nodup := by
  have hiff : isInstruction inst.mnemonic = false ↔ inst.mnemonic ∉ instructions := by
    rw [← isInstruction_iff, Bool.not_eq_true]
  refine ⟨⟨?_, fun h => ⟨n, translateInstruction_unknown inst n (hiff.1 h)⟩⟩,
    fun h => translateInstruction_unknown inst n (hiff.1 h), by decide, by decide⟩
  rintro ⟨k, hk⟩
  rw [hiff]
  rcases translateInstruction_shape inst n _ k hk with h | h | h | h | h
  · rw [unknown_marker_getLast?] at h
    exact absurd h (by decide)
  · have h3 := congrArg (fun l => l[3]?) h
    simp only [unknown_marker_get?] at h3
    exact absurd h3 (by decide)
  · have h3 := congrArg (fun l => l[3]?) h.2
    simp only [unknown_marker_get?] at h3
    have hm := h.1
    simp only [List.mem_cons, List.mem_singleton, List.not_mem_nil, or_false] at hm
    rcases hm with hm | hm | hm | hm | hm | hm <;> rw [hm] at h3 <;> exact absurd h3 (by decide)
  · have h3 := congrArg (fun l => l[3]?) h.2.2
    simp only [unknown_marker_get?] at h3
    exact absurd h3 (by decide)
  · exact h.1

/-- C21, at the mnemonics `xyz`, `LDA` and the empty one. -/
theorem C21_unknown_marker_iff_witness :
    translateInstruction ⟨"xyz".toList, "#1".toList, [], 4⟩ 2
        = some ("/* Unknown instruction: xyz */".toList, 2) ∧
      translateInstruction ⟨"LDA".toList, "#1".toList, [], 4⟩ 2
        = some ("/* Unknown instruction: LDA */".toList, 2) ∧
      translateInstruction ⟨[], [], [], 4⟩ 2 = some ("/* Unknown instruction:  */".toList, 2) :=
  ⟨(C21_unknown_marker_iff ⟨"xyz".toList, "#1".toList, [], 4⟩ 2).2.1 (by decide),
    (C21_unknown_marker_iff ⟨"LDA".toList, "#1".toList, [], 4⟩ 2).2.1 (by decide),
    (C21_unknown_marker_iff ⟨[], [], [], 4⟩ 2).2.1 (by decide)⟩

/-- C22 (as stated, refuted): `brk` is one of the 56 mnemonics and none of `cld`, `cli`, `clv`,
`sed`, `sei`, and for every operand it translates to `/* brk */`, a text of the comment-only
form. -/
theorem C22_brk_is_a_marker :
    "brk".toList ∈ instructions ∧
      "brk".toList ∉ ["cld".toList, "cli".toList, "clv".toList, "sed".toList, "sei".toList] ∧
      (∀ (operand comment : Str) (line : Int) (n : Nat),
        translateInstruction ⟨"brk".toList, operand, comment, line⟩ n
          = some ("/* brk */".toList, n)) ∧
      "/* brk */".toList.take 2 = "/*".toList ∧
      "/* brk */".toList.drop ("/* brk */".toList.length - 2) = "*/".toList :=
  ⟨by decide, by decide, fun _ _ _ _ => rfl, by decide, by decide⟩

/-- C22 (amended): every one of the 56 recognised mnemonics other than `cld`, `cli`, `clv`,
`sed`, `sei` and `brk`, with any operand `translateOperand` is defined on (`jsr JumpEngine`
excluded), translates to a statement, and the statement is non-empty and not of the
comment-only form `/* ... */`; `nop` gives `; // nop`, `rti` gives `return;`, and `brk` gives
the marker `/* brk */`. -/
theorem C22_statement_shapes (inst : JsonInstruction) (n : Nat)
    (hmem : inst.mnemonic ∈ instructions)
    (hflag : inst.mnemonic ∉ ["cld".toList, "cli".toList, "clv".toList, "sed".toList,
      "sei".toList, "brk".toList])
    (hje : ¬ (inst.mnemonic = "jsr".toList ∧ inst.operand = "JumpEngine".toList)) :
    ((translateOperand inst.operand).isSome = true →
      ∃ t k, translateInstruction inst n = some (t, k)) ∧
    (∀ t k, translateInstruction inst n = some (t, k) →
      t ≠ [] ∧ ¬ (t.take 2 = "/*".toList ∧ t.drop (t.length - 2) = "*/".toList)) ∧
    translateInstruction ⟨"nop".toList, inst.operand, inst.comment, inst.lineNumber⟩ n
      = some ("; // nop".toList, n) ∧
    translateInstruction ⟨"rti".toList, inst.operand, inst.comment, inst.lineNumber⟩ n
      = some ("return;".toList, n) ∧
    translateInstruction ⟨"brk".toList, inst.operand, inst.comment, inst.lineNumber⟩ n
      = some ("/* brk */".toList, n) := by
  refine ⟨?_, ?_, rfl, rfl, rfl⟩
  · intro hop
    obtain ⟨r, hr⟩ := Option.isSome_iff_exists.1 (translateInstruction_isSome inst n hop)
    exact ⟨r.1, r.2, hr⟩
  · intro t k h
    rcases translateInstruction_shape inst n t k h with h1 | h1 | h1 | h1 | h1
    · have hne : t ≠ [] := by
        intro h0
        rw [h0] at h1
        exact absurd h1 (by decide)
      refine ⟨hne, fun hc => ?_⟩
      have hlen : ¬ t.length ≤ t.length - 2 := by
        have := List.length_pos.2 hne
        omega
      have hl : (t.drop (t.length - 2)).getLast? = t.getLast? := by
        rw [List.getLast?_drop, if_neg hlen]
      rw [hc.2, h1] at hl
      exact absurd hl (by decide)
    · rw [h1]
      decide
    · exact absurd h1.1 hflag
    · exact absurd ⟨h1.1, h1.2.1⟩ hje
    · exact absurd hmem h1.1

/-- C22 (amended), at `lda #$05`, `nop` and `asl`. -/
theorem C22_statement_shapes_witness :
    (∃ t k, translateInstruction ⟨"lda".toList, "#$05".toList, [], 3⟩ 0 = some (t, k)) ∧
      translateInstruction ⟨"nop".toList, [], [], 3⟩ 0 = some ("; // nop".toList, 0) :=
  ⟨(C22_statement_shapes ⟨"lda".toList, "#$05".toList, [], 3⟩ 0 (by decide) (by decide)
      (by decide)).1 (by decide),
    (C22_statement_shapes ⟨"asl".toList, [], [], 3⟩ 0 (by decide) (by decide)
      (by decide)).2.2.1⟩

/-- C23: for every operand, comment, line and counter value, `clc` translates to `c = 0;` and
`sec` to `c = 1;`, and each of `cld`, `cli`, `clv`, `sed`, `sei` translates to the marker
`/* ` + its own mnemonic + ` */`; the statement is the same for every operand and the counter is
returned as it was given. -/
theorem C23_flag_instructions (operand comment : Str) (line : Int) (n : Nat) :
    translateInstruction ⟨"clc".toList, operand, comment, line⟩ n = some ("c = 0;".toList, n) ∧
    translateInstruction ⟨"sec".toList, operand, comment, line⟩ n = some ("c = 1;".toList, n) ∧
    translateInstruction ⟨"cld".toList, operand, comment, line⟩ n
      = some ("/* ".toList ++ "cld".toList ++ " */".toList, n) ∧
    translateInstruction ⟨"cli".toList, operand, comment, line⟩ n
      = some ("/* ".toList ++ "cli".toList ++ " */".toList, n) ∧
    translateInstruction ⟨"clv".toList, operand, comment, line⟩ n
      = some ("/* ".toList ++ "clv".toList ++ " */".toList, n) ∧
    translateInstruction ⟨"sed".toList, operand, comment, line⟩ n
      = some ("/* ".toList ++ "sed".toList ++ " */".toList, n) ∧
    translateInstruction ⟨"sei".toList, operand, comment, line⟩ n
      = some ("/* ".toList ++ "sei".toList ++ " */".toList, n) :=
  ⟨rfl, rfl, rfl, rfl, rfl, rfl, rfl⟩

/-- C24: for every operand, `lda`, `ldx` and `ldy` translate to `a = `, `x = ` and `y = `
followed by the result of `translateOperand` on the operand and `;`, and `tax`, `tay`, `txa`,
`tya`, `tsx`, `txs` translate to the fixed register assignments; `lda #$05` translates to
`a = 0x05;`. -/
theorem C24_load_and_transfer (operand comment : Str) (line : Int) (n : Nat) :
    translateInstruction ⟨"lda".toList, operand, comment, line⟩ n
      = (translateOperand operand).map (fun t => ("a = ".toList ++ t ++ ";".toList, n)) ∧
    translateInstruction ⟨"ldx".toList, operand, comment, line⟩ n
      = (translateOperand operand).map (fun t => ("x = ".toList ++ t ++ ";".toList, n)) ∧
    translateInstruction ⟨"ldy".toList, operand, comment, line⟩ n
      = (translateOperand operand).map (fun t => ("y = ".toList ++ t ++ ";".toList, n)) ∧
    translateInstruction ⟨"tax".toList, operand, comment, line⟩ n = some ("x = a;".toList, n) ∧
    translateInstruction ⟨"tay".toList, operand, comment, line⟩ n = some ("y = a;".toList, n) ∧
    translateInstruction ⟨"txa".toList, operand, comment, line⟩ n = some ("a = x;".toList, n) ∧
    translateInstruction ⟨"tya".toList, operand, comment, line⟩ n = some ("a = y;".toList, n) ∧
    translateInstruction ⟨"tsx".toList, operand, comment, line⟩ n = some ("x = s;".toList, n) ∧
    translateInstruction ⟨"txs".toList, operand, comment, line⟩ n = some ("s = x;".toList, n) ∧
    translateInstruction ⟨"lda".toList, "#$05".toList, comment, line⟩ n
      = some ("a = 0x05;".toList, n) :=
  ⟨rfl, rfl, rfl, rfl, rfl, rfl, rfl, rfl, rfl, rfl⟩

/-- C25 (what the code does): `sta`, `stx` and `sty` pass the whole operand text through
`translateExpression`, which only rewrites a leading `$` or `%`: `sta $10` gives
`writeData(0x10, a);`, but the indexed `sta $0200,x` gives `writeData(0x0200,x, a);`, with the
comma of the operand left in the argument list, and not `writeData(0x0200 + x, a);`; likewise
`sta ($10),y` gives `writeData(($10),y, a);`. -/
theorem C25_store_operand_not_resolved (operand comment : Str) (line : Int) (n : Nat) :
    translateInstruction ⟨"sta".toList, operand, comment, line⟩ n
      = some ("writeData(".toList ++ translateExpression operand ++ ", a);".toList, n) ∧
    translateInstruction ⟨"stx".toList, operand, comment, line⟩ n
      = some ("writeData(".toList ++ translateExpression operand ++ ", x);".toList, n) ∧
    translateInstruction ⟨"sty".toList, operand, comment, line⟩ n
      = some ("writeData(".toList ++ translateExpression operand ++ ", y);".toList, n) ∧
    translateInstruction ⟨"sta".toList, "$10".toList, comment, line⟩ n
      = some ("writeData(0x10, a);".toList, n) ∧
    translateInstruction ⟨"sta".toList, "$0200,x".toList, comment, line⟩ n
      = some ("writeData(0x0200,x, a);".toList, n) ∧
    translateInstruction ⟨"sta".toList, "$0200,x".toList, comment, line⟩ n
      ≠ some ("writeData(0x0200 + x, a);".toList, n) ∧
    translateOperand "$0200,x".toList = some "0x0200 + x".toList ∧
    translateInstruction ⟨"sta".toList, "($10),y".toList, comment, line⟩ n
      = some ("writeData(($10),y, a);".toList, n) := by
  refine ⟨rfl, rfl, rfl, rfl, rfl, ?_, by decide, rfl⟩
  intro h
  have h1 : translateInstruction ⟨"sta".toList, "$0200,x".toList, comment, line⟩ n
      = some ("writeData(0x0200,x, a);".toList, n) := rfl
  rw [h1] at h
  have h2 : some "writeData(0x0200,x, a);".toList = some "writeData(0x0200 + x, a);".toList :=
    congrArg (fun r => r.map Prod.fst) h
  exact absurd h2 (by decide)

/-- C26: for every destination, each of the eight conditional branches translates to
`if (` + cond + `)\n        goto ` + destination + `;`, with cond `!c` for `bcc`, `c` for
`bcs`, `z` for `beq`, `!z` for `bne`, `n` for `bmi`, `!n` for `bpl`, `!v` for `bvc` and `v` for
`bvs`, and leaves the counter as it was; the eight conditions are pairwise distinct, and in each
of the pairs (bcc, bcs), (bne, beq), (bpl, bmi), (bvc, bvs) the first condition is `!` followed
by the second. -/
theorem C26_conditional_branches (d comment : Str) (line : Int) (n : Nat) :
    translateInstruction ⟨"bcc".toList, d, comment, line⟩ n
      = some ("if (".toList ++ "!c".toList ++ ")\n        goto ".toList ++ d ++ ";".toList, n) ∧
    translateInstruction ⟨"bcs".toList, d, comment, line⟩ n
      = some ("if (".toList ++ "c".toList ++ ")\n        goto ".toList ++ d ++ ";".toList, n) ∧
    translateInstruction ⟨"beq".toList, d, comment, line⟩ n
      = some ("if (".toList ++ "z".toList ++ ")\n        goto ".toList ++ d ++ ";".toList, n) ∧
    translateInstruction ⟨"bne".toList, d, comment, line⟩ n
      = some ("if (".toList ++ "!z".toList ++ ")\n        goto ".toList ++ d ++ ";".toList, n) ∧
    translateInstruction ⟨"bmi".toList, d, comment, line⟩ n
      = some ("if (".toList ++ "n".toList ++ ")\n        goto ".toList ++ d ++ ";".toList, n) ∧
    translateInstruction ⟨"bpl".toList, d, comment, line⟩ n
      = some ("if (".toList ++ "!n".toList ++ ")\n        goto ".toList ++ d ++ ";".toList, n) ∧
    translateInstruction ⟨"bvc".toList, d, comment, line⟩ n
      = some ("if (".toList ++ "!v".toList ++ ")\n        goto ".toList ++ d ++ ";".toList, n) ∧
    translateInstruction ⟨"bvs".toList, d, comment, line⟩ n
      = some ("if (".toList ++ "v".toList ++ ")\n        goto ".toList ++ d ++ ";".toList, n) ∧
    ["!c".toList, "c".toList, "z".toList, "!z".toList, "n".toList, "!n".toList, "!v".toList,
      "v".toList].Nodup ∧
    "!c".toList = '!' :: "c".toList ∧ "!z".toList = '!' :: "z".toList ∧
    "!n".toList = '!' :: "n".toList ∧ "!v".toList = '!' :: "v".toList :=
  ⟨rfl, rfl, rfl, rfl, rfl, rfl, rfl, rfl, by decide, rfl, rfl, rfl, rfl⟩

/-- C27: for every operand other than `EndlessLoop`, `jmp` translates to
`goto ` + operand + `;`; `jmp EndlessLoop` translates to `return;`; `rts` translates to
`goto Return;` for every operand; the counter is returned as it was given. -/
theorem C27_jmp_and_rts (operand comment : Str) (line : Int) (n : Nat) :
    (operand ≠ "EndlessLoop".toList →
      translateInstruction ⟨"jmp".toList, operand, comment, line⟩ n
        = some ("goto ".toList ++ operand ++ ";".toList, n)) ∧
    translateInstruction ⟨"jmp".toList, "EndlessLoop".toList, comment, line⟩ n
      = some ("return;".toList, n) ∧
    translateInstruction ⟨"rts".toList, operand, comment, line⟩ n
      = some ("goto Return;".toList, n) := by
  refine ⟨?_, rfl, rfl⟩
  intro h
  have e : translateInstruction ⟨"jmp".toList, operand, comment, line⟩ n
      = if operand = "EndlessLoop".toList then some ("return;".toList, n)
        else some ("goto ".toList ++ operand ++ ";".toList, n) := rfl
  rw [e, if_neg h]

/-- C27, at `jmp Loop`, `jmp EndlessLoop` and `rts`. -/
theorem C27_jmp_and_rts_witness :
    translateInstruction ⟨"jmp".toList, "Loop".toList, [], 7⟩ 3
        = some ("goto Loop;".toList, 3) ∧
      translateInstruction ⟨"jmp".toList, "EndlessLoop".toList, [], 7⟩ 3
        = some ("return;".toList, 3) ∧
      translateInstruction ⟨"rts".toList, [], [], 7⟩ 3 = some ("goto Return;".toList, 3) :=
  ⟨(C27_jmp_and_rts "Loop".toList [] 7 3).1 (by decide),
    (C27_jmp_and_rts "Loop".toList [] 7 3).2.1, (C27_jmp_and_rts [] [] 7 3).2.2⟩

/-! ## The label blocks in program-flow order -/

theorem inOrderText_append (cv : State) (xs ys : List ProgramFlowItem) :
    ∀ (n n1 n2 : Nat) (t1 t2 : Str), specInOrderText cv xs n = some (t1, n1) →
      specInOrderText cv ys n1 = some (t2, n2) →
      specInOrderText cv (xs ++ ys) n = some (t1 ++ t2, n2) := by
  induction xs with
  | nil =>
    intro n n1 n2 t1 t2 h1 h2
    rw [specInOrderText] at h1
    obtain ⟨rfl, rfl⟩ := Prod.mk.inj (Option.some.inj h1)
    exact h2
  | cons item rest ih =>
    intro n n1 n2 t1 t2 h1 h2
    rw [List.cons_append, specInOrderText]
    rw [specInOrderText] at h1
    by_cases hl : item.type = "label".toList
    · rw [if_pos hl] at h1 ⊢
      obtain ⟨r, hr, he⟩ := Option.map_eq_some'.1 h1
      obtain ⟨rfl, rfl⟩ := Prod.mk.inj he
      rw [ih n r.2 n2 r.1 t2 hr h2]
      simp only [Option.map_some', List.append_assoc]
    · rw [if_neg hl] at h1 ⊢
      by_cases hi : item.type = "instruction".toList
      · rw [if_pos hi] at h1 ⊢
        cases hfind : cv.instructions.find? (fun inst => inst.lineNumber = item.lineNumber) with
        | none =>
          rw [hfind] at h1
          exact ih n n1 n2 t1 t2 h1 h2
        | some inst =>
          rw [hfind] at h1
          simp only [] at h1 ⊢
          cases htr : translateInstruction inst n with
          | none =>
            rw [htr] at h1
            exact absurd h1 (by simp)
          | some res =>
            obtain ⟨text, index⟩ := res
            rw [htr] at h1
            simp only [] at h1 ⊢
            obtain ⟨r, hr, he⟩ := Option.map_eq_some'.1 h1
            obtain ⟨rfl, rfl⟩ := Prod.mk.inj he
            rw [ih index r.2 n2 r.1 t2 hr h2]
            simp only [Option.map_some', List.append_assoc]
      · rw [if_neg hi] at h1 ⊢
        by_cases hd : item.type = "data".toList
        · rw [if_pos hd] at h1 ⊢
          obtain ⟨r, hr, he⟩ := Option.map_eq_some'.1 h1
          obtain ⟨rfl, rfl⟩ := Prod.mk.inj he
          rw [ih n r.2 n2 r.1 t2 hr h2]
          simp only [Option.map_some', List.append_assoc]
        · rw [if_neg hd] at h1 ⊢
          exact ih n n1 n2 t1 t2 h1 h2

/-- The loop of `generateLabelCode` over items none of which is a label appends the text of
`specInOrderText` for these items. -/
theorem generateItems_inOrder (cv : State) (items : List ProgramFlowItem) :
    ∀ (st st1 : Emission), (∀ it ∈ items, it.type ≠ "label".toList) →
      generateItems cv items st = some st1 →
      ∃ t, st1.file = st.file ++ t ∧
        specInOrderText cv items st.returnLabelIndex = some (t, st1.returnLabelIndex) := by
  induction items with
  | nil =>
    intro st st1 _ h
    rw [generateItems] at h
    obtain rfl := Option.some.inj h
    exact ⟨[], (List.append_nil _).symm, rfl⟩
  | cons item rest ih =>
    intro st st1 hnl h
    have hl : item.type ≠ "label".toList := hnl item (List.mem_cons_self _ _)
    have hrest : ∀ it ∈ rest, it.type ≠ "label".toList :=
      fun it hit => hnl it (List.mem_cons_of_mem _ hit)
    rw [generateItems] at h
    rw [specInOrderText, if_neg hl]
    by_cases hi : item.type = "instruction".toList
    · rw [if_pos hi] at h ⊢
      cases hfind : cv.instructions.find? (fun inst => inst.lineNumber = item.lineNumber) with
      | none =>
        rw [hfind] at h
        exact ih st st1 hrest h
      | some inst =>
        rw [hfind] at h
        simp only [] at h ⊢
        cases htr : translateInstruction inst st.returnLabelIndex with
        | none =>
          rw [htr] at h
          exact absurd h (by simp)
        | some res =>
          obtain ⟨text, index⟩ := res
          rw [htr] at h
          simp only [] at h ⊢
          obtain ⟨t, hfile, ht⟩ := ih _ st1 hrest h
          simp only [] at hfile ht
          rw [ht]
          refine ⟨_, ?_, rfl⟩
          rw [hfile]
          by_cases hc : item.comment.isEmpty = true <;>
            by_cases hr : inst.mnemonic = "rts".toList <;>
            simp only [hc, hr, not_true_eq_false, not_false_eq_true, if_true, if_false,
              List.append_assoc, List.nil_append, Bool.not_eq_true]
    · rw [if_neg hi] at h ⊢
      by_cases hd : item.type = "data".toList
      · rw [if_pos hd] at h ⊢
        obtain ⟨t, hfile, ht⟩ := ih _ st1 hrest h
        simp only [] at hfile ht
        rw [ht]
        refine ⟨_, ?_, rfl⟩
        rw [hfile]
        by_cases hc : item.comment.isEmpty = true <;>
          simp only [hc, not_true_eq_false, not_false_eq_true, if_true, if_false,
            List.append_assoc, List.nil_append, Bool.not_eq_true]
      · rw [if_neg hd] at h ⊢
        exact ih st st1 hrest h

theorem inOrderText_label (cv : State) (item : ProgramFlowItem) (rest : List ProgramFlowItem)
    (n : Nat) (hl : item.type = "label".toList) :
    specInOrderText cv (item :: rest) n
      = (specInOrderText cv rest n).map (fun r => (specLabelLine cv item.content ++ r.1, r.2)) := by
  rw [specInOrderText, if_pos hl]

/-- A call of `generateLabelCode` appends the line of the label and the text of its items. -/
theorem generateLabelCode_inOrder (cv : State) (labelName : Str)
    (items : List ProgramFlowItem) (st st1 : Emission)
    (hnl : ∀ it ∈ items, it.type ≠ "label".toList)
    (h : generateLabelCode cv labelName items st = some st1) :
    ∃ t, st1.file = st.file ++ t ∧
      ∀ (item : ProgramFlowItem), item.type = "label".toList → item.content = labelName →
        specInOrderText cv (item :: items) st.returnLabelIndex
          = some (t, st1.returnLabelIndex) := by
  unfold generateLabelCode at h
  cases hb : labelName.getLast? with
  | none =>
    rw [hb] at h
    exact absurd h (by simp)
  | some back =>
    rw [hb] at h
    simp only [] at h
    obtain ⟨t, hfile, ht⟩ := generateItems_inOrder cv items _ st1 hnl h
    simp only [] at hfile ht
    refine ⟨specLabelLine cv labelName ++ t, ?_, ?_⟩
    · rw [hfile]
      unfold specLabelLine
      rw [hb]
      simp only [Option.some.injEq]
      cases cv.labels.find? (fun l => l.name =
          if back = ':' then labelName.take (labelName.length - 1) else labelName) with
      | none => simp only [List.append_assoc, List.nil_append]
      | some l =>
        by_cases hc : l.comment.isEmpty = true <;>
          simp only [hc, not_true_eq_false, not_false_eq_true, if_true, if_false,
            List.append_assoc, List.nil_append, Bool.not_eq_true]
    · intro item hl hc
      rw [inOrderText_label cv item items _ hl, ht, hc]
      rfl

/-- The grouping loop of `generateSourceFile` against the pass in program-flow order: with a
block open, the text appended is that of its label, the items collected and the rest of the
program flow; with no block open, it is that of the program flow from its first label on. -/
theorem groupLabels_inOrder (cv : State) (pf : List ProgramFlowItem) :
    ∀ (cl : Str) (ci : List ProgramFlowItem) (st st1 : Emission),
      (∀ it ∈ pf, it.type = "label".toList → it.content ≠ []) →
      (∀ it ∈ ci, it.type ≠ "label".toList) →
      groupLabels cv pf cl ci st = some st1 →
      ∃ t, st1.file = st.file ++ t ∧
        (cl = [] → specInOrderText cv (pf.dropWhile (fun it => it.type ≠ "label".toList))
          st.returnLabelIndex = some (t, st1.returnLabelIndex)) ∧
        (cl ≠ [] → ∀ (item : ProgramFlowItem), item.type = "label".toList →
          item.content = cl →
          specInOrderText cv (item :: (ci ++ pf)) st.returnLabelIndex
            = some (t, st1.returnLabelIndex)) := by
  induction pf with
  | nil =>
    intro cl ci st st1 _ hci h
    rw [groupLabels] at h
    by_cases hcl : cl = []
    · rw [if_neg (by simp [hcl])] at h
      obtain rfl := Option.some.inj h
      exact ⟨[], (List.append_nil _).symm, fun _ => rfl, fun hn => absurd hcl hn⟩
    · rw [if_pos (by simpa using hcl)] at h
      obtain ⟨t, hfile, ht⟩ := generateLabelCode_inOrder cv cl ci st st1 hci h
      refine ⟨t, hfile, fun h0 => absurd h0 hcl, fun _ item hl hc => ?_⟩
      rw [List.append_nil]
      exact ht item hl hc
  | cons item rest ih =>
    intro cl ci st st1 hlab hci h
    have hlabrest : ∀ it ∈ rest, it.type = "label".toList → it.content ≠ [] :=
      fun it hit => hlab it (List.mem_cons_of_mem _ hit)
    rw [groupLabels] at h
    by_cases hl : item.type = "label".toList
    · rw [if_pos hl] at h
      have hne : item.content ≠ [] := hlab item (List.mem_cons_self _ _) hl
      have hdw : (item :: rest).dropWhile (fun it => it.type ≠ "label".toList)
          = item :: rest := by
        rw [List.dropWhile_cons_of_neg (by simpa using hl)]
      by_cases hcl : cl = []
      · rw [if_neg (by simp [hcl])] at h
        simp only [] at h
        obtain ⟨t, hfile, -, ht⟩ := ih item.content [] st st1 hlabrest
          (fun it hit => absurd hit (List.not_mem_nil _)) h
        refine ⟨t, hfile, fun _ => ?_, fun hn => absurd hcl hn⟩
        rw [hdw]
        exact ht hne item hl rfl
      · rw [if_pos (by simpa using hcl)] at h
        cases hg : generateLabelCode cv cl ci st with
        | none =>
          rw [hg] at h
          exact absurd h (by simp)
        | some st2 =>
          rw [hg] at h
          simp only [] at h
          obtain ⟨t1, hfile1, ht1⟩ := generateLabelCode_inOrder cv cl ci st st2 hci hg
          obtain ⟨t2, hfile2, -, ht2⟩ := ih item.content [] st2 st1 hlabrest
            (fun it hit => absurd hit (List.not_mem_nil _)) h
          refine ⟨t1 ++ t2, ?_, fun h0 => absurd h0 hcl, fun _ item1 hl1 hc1 => ?_⟩
          · rw [hfile2, hfile1, List.append_assoc]
          · have e : item1 :: (ci ++ item :: rest) = (item1 :: ci) ++ (item :: rest) := rfl
            rw [e]
            exact inOrderText_append cv _ _ _ _ _ _ _ (ht1 item1 hl1 hc1)
              (ht2 hne item hl rfl)
    · rw [if_neg hl] at h
      have hci1 : ∀ it ∈ ci ++ [item], it.type ≠ "label".toList := by
        intro it hit
        rcases List.mem_append.1 hit with h1 | h1
        · exact hci it h1
        · rw [List.mem_singleton.1 h1]
          exact hl
      obtain ⟨t, hfile, ht0, ht⟩ := ih cl (ci ++ [item]) st st1 hlabrest hci1 h
      refine ⟨t, hfile, fun h0 => ?_, fun hn item1 hl1 hc1 => ?_⟩
      · rw [List.dropWhile_cons_of_pos (by simpa using hl)]
        exact ht0 h0
      · have e : ci ++ item :: rest = (ci ++ [item]) ++ rest := by
          rw [List.append_assoc, List.singleton_append]
        rw [e]
        exact ht hn item1 hl1 hc1

/-- C28: for every program flow in which each label has non-empty content, `generateSourceFile`
completes whenever every instruction record has an operand `translateOperand` is defined on, and
whenever it completes, the file is the header, then the text of `specInOrderText` for the program
flow from its first label on, then the return handler: in program-flow order, each label gives
its line, followed by the statements of exactly the instruction items up to the next label, in
their order, each followed by ` // ` and the comment of the item when it has one, and by the
separator line after an `rts`. -/
theorem C28_label_blocks_in_order (cv : State)
    (hlab : ∀ it ∈ cv.programFlow, it.type = "label".toList → it.content ≠ []) :
    ((∀ inst ∈ cv.instructions, (translateOperand inst.operand).isSome = true) →
      ∃ r, generateSourceFile cv = some r) ∧
    ∀ r, generateSourceFile cv = some r →
      ∃ body,
        specInOrderText cv (cv.programFlow.dropWhile (fun it => it.type ≠ "label".toList))
          cv.returnLabelIndex = some (body, r.returnLabelIndex) ∧
        r.file = sourceHeader ++ body ++ returnHandler r.returnLabelIndex := by
  refine ⟨generateSourceFile_isSome cv, ?_⟩
  intro r h
  obtain ⟨st, hg, rfl⟩ := generateSourceFile_eq cv r h
  obtain ⟨t, hfile, ht, -⟩ := groupLabels_inOrder cv cv.programFlow [] [] _ st hlab
    (fun it hit => absurd hit (List.not_mem_nil _)) hg
  refine ⟨t, ht rfl, ?_⟩
  show st.file ++ _ = _
  rw [hfile]

/-- C28, on the program `nop`, `Start:`, `lda #$05 ; load five`, `rts`, `Done:`,
`jmp EndlessLoop`: the two blocks in their order, each with its statements, the comment and the
separator after `rts`; the `nop` before the first label is in no block. -/
theorem C28_label_blocks_in_order_witness :
    ∃ r, generateSourceFile
        ⟨[], [],
          [⟨"nop".toList, [], [], 1⟩, ⟨"lda".toList, "#$05".toList, "load five".toList, 3⟩,
           ⟨"rts".toList, [], [], 4⟩, ⟨"jmp".toList, "EndlessLoop".toList, [], 6⟩], [], [],
          [⟨"instruction".toList, "nop".toList, [], 1⟩,
           ⟨"label".toList, "Start".toList, [], 2⟩,
           ⟨"instruction".toList, "lda #$05".toList, "load five".toList, 3⟩,
           ⟨"instruction".toList, "rts".toList, [], 4⟩,
           ⟨"label".toList, "Done".toList, [], 5⟩,
           ⟨"instruction".toList, "jmp EndlessLoop".toList, [], 6⟩], 0⟩ = some r ∧
      r.file = sourceHeader ++
        ("\nStart:\n    a = 0x05; // load five\n    goto Return;\n" ++
         "\n//------------------------------------------------------------------------\n" ++
         "\nDone:\n    return;\n").toList ++ returnHandler 0 := by
  obtain ⟨r, hr⟩ := (C28_label_blocks_in_order
        ⟨[], [],
          [⟨"nop".toList, [], [], 1⟩, ⟨"lda".toList, "#$05".toList, "load five".toList, 3⟩,
           ⟨"rts".toList, [], [], 4⟩, ⟨"jmp".toList, "EndlessLoop".toList, [], 6⟩], [], [],
          [⟨"instruction".toList, "nop".toList, [], 1⟩,
           ⟨"label".toList, "Start".toList, [], 2⟩,
           ⟨"instruction".toList, "lda #$05".toList, "load five".toList, 3⟩,
           ⟨"instruction".toList, "rts".toList, [], 4⟩,
           ⟨"label".toList, "Done".toList, [], 5⟩,
           ⟨"instruction".toList, "jmp EndlessLoop".toList, [], 6⟩], 0⟩ (by decide)).1 (by decide)
  obtain ⟨body, hb, hf⟩ := (C28_label_blocks_in_order
        ⟨[], [],
          [⟨"nop".toList, [], [], 1⟩, ⟨"lda".toList, "#$05".toList, "load five".toList, 3⟩,
           ⟨"rts".toList, [], [], 4⟩, ⟨"jmp".toList, "EndlessLoop".toList, [], 6⟩], [], [],
          [⟨"instruction".toList, "nop".toList, [], 1⟩,
           ⟨"label".toList, "Start".toList, [], 2⟩,
           ⟨"instruction".toList, "lda #$05".toList, "load five".toList, 3⟩,
           ⟨"instruction".toList, "rts".toList, [], 4⟩,
           ⟨"label".toList, "Done".toList, [], 5⟩,
           ⟨"instruction".toList, "jmp EndlessLoop".toList, [], 6⟩], 0⟩ (by decide)).2 r hr
  have hc : some (body, r.returnLabelIndex) = some
      (("\nStart:\n    a = 0x05; // load five\n    goto Return;\n" ++
         "\n//------------------------------------------------------------------------\n" ++
         "\nDone:\n    return;\n").toList, 0) := hb.symm.trans rfl
  obtain ⟨h1, h2⟩ := Prod.mk.inj (Option.some.inj hc)
  refine ⟨r, hr, ?_⟩
  rw [hf, h1, h2]

/-! ### The return sites in the text of the file -/

theorem specReturnSites_append (cv : State) (a b : List ProgramFlowItem) :
    specReturnSites cv (a ++ b) = specReturnSites cv a + specReturnSites cv b := by
  simp only [specReturnSites, List.filter_append, List.filterMap_append, List.length_append]

theorem specReturnSites_of_not_instruction (cv : State) (item : ProgramFlowItem)
    (h : item.type ≠ "instruction".toList) : specReturnSites cv [item] = 0 := by
  unfold specReturnSites
  rw [List.filter_cons_of_neg (by simpa using h)]
  rfl

theorem specReturnSites_of_no_record (cv : State) (item : ProgramFlowItem)
    (h : cv.instructions.find? (fun inst => inst.lineNumber = item.lineNumber) = none) :
    specReturnSites cv [item] = 0 := by
  unfold specReturnSites
  by_cases hi : item.type = "instruction".toList
  · rw [List.filter_cons_of_pos (by simpa using hi), List.filter_nil, List.filterMap_cons]
    simp only [h]
    rfl
  · rw [List.filter_cons_of_neg (by simpa using hi)]
    rfl

theorem specReturnSites_of_record (cv : State) (item : ProgramFlowItem) (inst : JsonInstruction)
    (hi : item.type = "instruction".toList)
    (h : cv.instructions.find? (fun inst => inst.lineNumber = item.lineNumber) = some inst) :
    specReturnSites cv [item]
      = if inst.mnemonic = "jsr".toList ∧ inst.operand ≠ "JumpEngine".toList then 1 else 0 := by
  unfold specReturnSites
  rw [List.filter_cons_of_pos (by simpa using hi), List.filter_nil, List.filterMap_cons]
  simp only [h, List.filterMap_nil]
  by_cases hc : inst.mnemonic = "jsr".toList ∧ inst.operand ≠ "JumpEngine".toList
  · rw [List.filter_cons_of_pos (by simpa using hc), if_pos hc]
    rfl
  · rw [List.filter_cons_of_neg (by simpa using hc), if_neg hc]
    rfl

/-- The text of `specInOrderText` item by item: the text of each item is `specItemText` at the
number of return sites that stand before it, and the counter at the end is the number of return
sites in all. -/
theorem inOrderText_ranked (cv : State) (items : List ProgramFlowItem) :
    ∀ (done : List ProgramFlowItem) (n m : Nat) (t : Str),
      specInOrderText cv items n = some (t, m) → n = specReturnSites cv done →
      t = ((items.enumFrom done.length).map (fun p =>
            specItemText cv (specReturnSites cv ((done ++ items).take p.1)) p.2)).flatten ∧
        m = specReturnSites cv (done ++ items) := by
  induction items with
  | nil =>
    intro done n m t h hn
    rw [specInOrderText] at h
    obtain ⟨rfl, rfl⟩ := Prod.mk.inj (Option.some.inj h)
    rw [List.append_nil]
    exact ⟨rfl, hn⟩
  | cons item rest ih =>
    intro done n m t h hn
    have hdone : (done ++ [item]).length = done.length + 1 := by simp
    have happ : (done ++ [item]) ++ rest = done ++ item :: rest := by simp
    have htake : (done ++ item :: rest).take done.length = done := List.take_left _ _
    rw [List.enumFrom_cons, List.map_cons, List.flatten_cons]
    simp only [htake]
    rw [← hn]
    rw [specInOrderText] at h
    by_cases hl : item.type = "label".toList
    · rw [if_pos hl] at h
      obtain ⟨r, hr, he⟩ := Option.map_eq_some'.1 h
      obtain ⟨rfl, rfl⟩ := Prod.mk.inj he
      have hni : item.type ≠ "instruction".toList := by rw [hl]; decide
      have hn1 : n = specReturnSites cv (done ++ [item]) := by
        rw [specReturnSites_append, specReturnSites_of_not_instruction cv item hni, hn]
        rfl
      obtain ⟨h1, h2⟩ := ih (done ++ [item]) n r.2 r.1 hr hn1
      rw [hdone, happ] at h1
      rw [happ] at h2
      refine ⟨?_, h2⟩
      rw [← h1]
      unfold specItemText
      rw [if_pos hl]
    · rw [if_neg hl] at h
      by_cases hi : item.type = "instruction".toList
      · rw [if_pos hi] at h
        cases hfind : cv.instructions.find? (fun inst => inst.lineNumber = item.lineNumber) with
        | none =>
          rw [hfind] at h
          have hn1 : n = specReturnSites cv (done ++ [item]) := by
            rw [specReturnSites_append, specReturnSites_of_no_record cv item hfind, hn]
            rfl
          obtain ⟨h1, h2⟩ := ih (done ++ [item]) n m t h hn1
          rw [hdone, happ] at h1
          rw [happ] at h2
          refine ⟨?_, h2⟩
          rw [← h1]
          unfold specItemText
          rw [if_neg hl, if_pos hi, hfind]
          rfl
        | some inst =>
          rw [hfind] at h
          simp only [] at h
          cases htr : translateInstruction inst n with
          | none =>
            rw [htr] at h
            exact absurd h (by simp)
          | some res =>
            obtain ⟨text, index⟩ := res
            rw [htr] at h
            simp only [] at h
            obtain ⟨r, hr, he⟩ := Option.map_eq_some'.1 h
            obtain ⟨rfl, rfl⟩ := Prod.mk.inj he
            have hstep := translateInstruction_step inst n index text htr
            have hn1 : index = specReturnSites cv (done ++ [item]) := by
              rw [specReturnSites_append, specReturnSites_of_record cv item inst hi hfind, ← hn]
              by_cases hc : inst.mnemonic = "jsr".toList ∧ inst.operand ≠ "JumpEngine".toList
              · rw [if_pos hc]
                exact (hstep.1 hc).1
              · rw [if_neg hc]
                exact hstep.2 hc
            obtain ⟨h1, h2⟩ := ih (done ++ [item]) index r.2 r.1 hr hn1
            rw [hdone, happ] at h1
            rw [happ] at h2
            refine ⟨?_, h2⟩
            rw [← h1]
            unfold specItemText
            rw [if_neg hl, if_pos hi, hfind]
            simp only [htr, List.append_assoc]
      · rw [if_neg hi] at h
        have hn1 : n = specReturnSites cv (done ++ [item]) := by
          rw [specReturnSites_append, specReturnSites_of_not_instruction cv item hi, hn]
          rfl
        by_cases hd : item.type = "data".toList
        · rw [if_pos hd] at h
          obtain ⟨r, hr, he⟩ := Option.map_eq_some'.1 h
          obtain ⟨rfl, rfl⟩ := Prod.mk.inj he
          obtain ⟨h1, h2⟩ := ih (done ++ [item]) n r.2 r.1 hr hn1
          rw [hdone, happ] at h1
          rw [happ] at h2
          refine ⟨?_, h2⟩
          rw [← h1]
          unfold specItemText
          rw [if_neg hl, if_neg hi, if_pos hd]
        · rw [if_neg hd] at h
          obtain ⟨h1, h2⟩ := ih (done ++ [item]) n m t h hn1
          rw [hdone, happ] at h1
          rw [happ] at h2
          refine ⟨?_, h2⟩
          rw [← h1]
          unfold specItemText
          rw [if_neg hl, if_neg hi, if_neg hd]
          rfl

/-- The grouping loop of `generateSourceFile` against the pass in program-flow order over the
emitted items, whatever the labels are: with a block open, the text appended is that of its
label, the items collected and the emitted items of the rest of the program flow; with no block
open, it is that of the emitted items of the rest. -/
theorem groupLabels_emitted (cv : State) (pf : List ProgramFlowItem) :
    ∀ (cl : Str) (ci : List ProgramFlowItem) (st st1 : Emission),
      (∀ it ∈ ci, it.type ≠ "label".toList) →
      groupLabels cv pf cl ci st = some st1 →
      ∃ t, st1.file = st.file ++ t ∧
        (cl = [] → specInOrderText cv (specEmittedItems false pf)
          st.returnLabelIndex = some (t, st1.returnLabelIndex)) ∧
        (cl ≠ [] → ∀ (item : ProgramFlowItem), item.type = "label".toList →
          item.content = cl →
          specInOrderText cv (item :: (ci ++ specEmittedItems true pf)) st.returnLabelIndex
            = some (t, st1.returnLabelIndex)) := by
  induction pf with
  | nil =>
    intro cl ci st st1 hci h
    rw [groupLabels] at h
    by_cases hcl : cl = []
    · rw [if_neg (by simp [hcl])] at h
      obtain rfl := Option.some.inj h
      exact ⟨[], (List.append_nil _).symm, fun _ => rfl, fun hn => absurd hcl hn⟩
    · rw [if_pos (by simpa using hcl)] at h
      obtain ⟨t, hfile, ht⟩ := generateLabelCode_inOrder cv cl ci st st1 hci h
      refine ⟨t, hfile, fun h0 => absurd h0 hcl, fun _ item hl hc => ?_⟩
      rw [specEmittedItems, List.append_nil]
      exact ht item hl hc
  | cons item rest ih =>
    intro cl ci st st1 hci h
    rw [groupLabels] at h
    have hnil : ∀ it ∈ ([] : List ProgramFlowItem), it.type ≠ "label".toList :=
      fun it hit => absurd hit (List.not_mem_nil _)
    by_cases hl : item.type = "label".toList
    · rw [if_pos hl] at h
      have hem : ∀ b, specEmittedItems b (item :: rest)
          = if item.content ≠ [] then item :: specEmittedItems true rest
            else specEmittedItems false rest := by
        intro b
        rw [specEmittedItems, if_pos hl]
      by_cases hcl : cl = []
      · rw [if_neg (by simp [hcl])] at h
        simp only [] at h
        obtain ⟨t, hfile, ht0, ht⟩ := ih item.content [] st st1 hnil h
        refine ⟨t, hfile, fun _ => ?_, fun hn => absurd hcl hn⟩
        rw [hem]
        by_cases hne : item.content = []
        · rw [if_neg (not_not.2 hne)]
          exact ht0 hne
        · rw [if_pos hne]
          exact ht hne item hl rfl
      · rw [if_pos (by simpa using hcl)] at h
        cases hg : generateLabelCode cv cl ci st with
        | none =>
          rw [hg] at h
          exact absurd h (by simp)
        | some st2 =>
          rw [hg] at h
          simp only [] at h
          obtain ⟨t1, hfile1, ht1⟩ := generateLabelCode_inOrder cv cl ci st st2 hci hg
          obtain ⟨t2, hfile2, ht0, ht2⟩ := ih item.content [] st2 st1 hnil h
          refine ⟨t1 ++ t2, ?_, fun h0 => absurd h0 hcl, fun _ item1 hl1 hc1 => ?_⟩
          · rw [hfile2, hfile1, List.append_assoc]
          · rw [hem]
            have e : ∀ ys, item1 :: (ci ++ ys) = (item1 :: ci) ++ ys := fun _ => rfl
            rw [e]
            by_cases hne : item.content = []
            · rw [if_neg (not_not.2 hne)]
              exact inOrderText_append cv _ _ _ _ _ _ _ (ht1 item1 hl1 hc1) (ht0 hne)
            · rw [if_pos hne]
              exact inOrderText_append cv _ _ _ _ _ _ _ (ht1 item1 hl1 hc1)
                (ht2 hne item hl rfl)
    · rw [if_neg hl] at h
      have hci1 : ∀ it ∈ ci ++ [item], it.type ≠ "label".toList := by
        intro it hit
        rcases List.mem_append.1 hit with h1 | h1
        · exact hci it h1
        · rw [List.mem_singleton.1 h1]
          exact hl
      obtain ⟨t, hfile, ht0, ht⟩ := ih cl (ci ++ [item]) st st1 hci1 h
      refine ⟨t, hfile, fun h0 => ?_, fun hn item1 hl1 hc1 => ?_⟩
      · rw [specEmittedItems, if_neg hl]
        exact ht0 h0
      · rw [specEmittedItems, if_neg hl]
        have e : ci ++ item :: specEmittedItems true rest
            = (ci ++ [item]) ++ specEmittedItems true rest := by
          rw [List.append_assoc, List.singleton_append]
        simp only [if_true]
        rw [e]
        exact ht hn item1 hl1 hc1

/-- A return site at position `j` of a list of items has fewer return sites before it than the
list has in all. -/
theorem specReturnSites_take_lt (cv : State) (items : List ProgramFlowItem) (j : Nat)
    (item : ProgramFlowItem) (inst : JsonInstruction) (hj : items[j]? = some item)
    (hi : item.type = "instruction".toList)
    (hfind : cv.instructions.find? (fun inst => inst.lineNumber = item.lineNumber) = some inst)
    (hc : inst.mnemonic = "jsr".toList ∧ inst.operand ≠ "JumpEngine".toList) :
    specReturnSites cv (items.take j) < specReturnSites cv items := by
  obtain ⟨hlt, hget⟩ := List.getElem?_eq_some.1 hj
  have e : items = items.take j ++ ([item] ++ items.drop (j + 1)) := by
    rw [List.singleton_append, ← hget, ← List.drop_eq_getElem_cons hlt, List.take_append_drop]
  have h1 : specReturnSites cv items
      = specReturnSites cv (items.take j) + (1 + specReturnSites cv (items.drop (j + 1))) := by
    conv_lhs => rw [e]
    rw [specReturnSites_append, specReturnSites_append,
      specReturnSites_of_record cv item inst hi hfind, if_pos hc]
  omega

/-- C19: for every IR, starting from counter 0, `generateSourceFile` completes whenever every
instruction record has an operand `translateOperand` is defined on, and whenever it completes,
the file is the header, then the text of the emitted items in program-flow order, then the
Return dispatch switch.  The text of an emitted item is `specItemText` at the number of return
sites that stand before it in the file, and for a return site, a `jsr` with an operand other
than `JumpEngine`, that text is the line `    JSR(target, k);`: the k-th `JSR(...)` statement of
the file, counted from 0 in textual order, carries the index k, with no gap and no repeat.  The
final counter `n` is the number of return sites emitted, every index carried is below `n`, and
the switch has exactly the arms `case i: goto Return_i;` for i = 0..n-1.  A call of
`translateInstruction` that is not a `jsr` to a target other than `JumpEngine` leaves the
counter unchanged. -/
theorem C19_return_sites_gapless (cv : State) (h0 : cv.returnLabelIndex = 0) :
    ((∀ inst ∈ cv.instructions, (translateOperand inst.operand).isSome = true) →
      ∃ r, generateSourceFile cv = some r) ∧
    ∀ r, generateSourceFile cv = some r →
    r.returnLabelIndex = specReturnSites cv (specEmittedItems false cv.programFlow) ∧
    r.file = sourceHeader ++
      (((specEmittedItems false cv.programFlow).enum.map (fun p =>
        specItemText cv
          (specReturnSites cv ((specEmittedItems false cv.programFlow).take p.1)) p.2)).flatten)
      ++
      (("// Return handler\n// This emulates the RTS instruction using a generated jump " ++
        "table\n//\nReturn:\n    switch (popReturnIndex())\n    \x7b\n").toList ++
      ((List.range r.returnLabelIndex).map (fun i =>
        "    case ".toList ++ decimal i ++ ":\n        goto Return_".toList ++ decimal i
          ++ ";\n".toList)).flatten ++
      "    \x7d\n\x7d\n".toList) ∧
    (∀ (k : Nat) (item : ProgramFlowItem) (inst : JsonInstruction),
      item.type = "instruction".toList →
      cv.instructions.find? (fun inst => inst.lineNumber = item.lineNumber) = some inst →
      inst.mnemonic = "jsr".toList → inst.operand ≠ "JumpEngine".toList →
      specItemText cv k item
        = "    JSR(".toList ++ inst.operand ++ ", ".toList ++ decimal k ++ ");".toList ++
          (if ¬ item.comment.isEmpty then " // ".toList ++ item.comment else []) ++
          "\n".toList) ∧
    (∀ (j : Nat) (item : ProgramFlowItem) (inst : JsonInstruction),
      (specEmittedItems false cv.programFlow)[j]? = some item →
      item.type = "instruction".toList →
      cv.instructions.find? (fun inst => inst.lineNumber = item.lineNumber) = some inst →
      inst.mnemonic = "jsr".toList → inst.operand ≠ "JumpEngine".toList →
      specReturnSites cv ((specEmittedItems false cv.programFlow).take j)
        < r.returnLabelIndex) ∧
    (∀ (inst : JsonInstruction) (n m : Nat) (t : Str),
      translateInstruction inst n = some (t, m) →
      ¬ (inst.mnemonic = "jsr".toList ∧ inst.operand ≠ "JumpEngine".toList) → m = n) := by
  refine ⟨generateSourceFile_isSome cv, ?_⟩
  intro r h
  obtain ⟨st, hg, rfl⟩ := generateSourceFile_eq cv r h
  obtain ⟨t, hfile, ht, -⟩ := groupLabels_emitted cv cv.programFlow [] [] _ st
    (fun it hit => absurd hit (List.not_mem_nil _)) hg
  have hspec := ht rfl
  simp only [] at hfile hspec
  obtain ⟨h1, h2⟩ := inOrderText_ranked cv _ [] _ _ _ hspec (by rw [h0]; rfl)
  rw [List.nil_append] at h2
  simp only [List.nil_append, List.length_nil] at h1
  refine ⟨h2, ?_, ?_, ?_, ?_⟩
  · show st.file ++ returnHandler st.returnLabelIndex = _
    rw [hfile, h1, returnHandler_eq]
    rfl
  · intro k item inst hi hfind hm ho
    have hl : item.type ≠ "label".toList := by rw [hi]; decide
    have hr : inst.mnemonic ≠ "rts".toList := by rw [hm]; decide
    unfold specItemText
    rw [if_neg hl, if_pos hi, hfind]
    simp only [translateInstruction_jsr inst k hm ho, if_neg hr, List.append_nil,
      List.append_assoc]
    rfl
  · intro j item inst hj hi hfind hm ho
    show _ < st.returnLabelIndex
    rw [h2]
    exact specReturnSites_take_lt cv _ j item inst hj hi hfind ⟨hm, ho⟩
  · intro inst n m t ht hn
    exact (translateInstruction_step inst n m t ht).2 hn

/-- C19, on the program `Start:`, `jsr Foo`, `rts`: the file is the header, the label line, the
statement `JSR(Foo, 0);` of the only call, the `rts` statement with its separator, and the
switch with the single arm `case 0: goto Return_0;`; the counter ends at 1. -/
theorem C19_return_sites_gapless_witness :
    ∃ r, generateSourceFile
        ⟨[], [], [⟨"jsr".toList, "Foo".toList, [], 2⟩, ⟨"rts".toList, [], [], 3⟩], [], [],
          [⟨"label".toList, "Start".toList, [], 1⟩,
           ⟨"instruction".toList, "jsr Foo".toList, [], 2⟩,
           ⟨"instruction".toList, "rts".toList, [], 3⟩], 0⟩ = some r ∧
      r.returnLabelIndex = 1 ∧
      r.file = sourceHeader ++
        ("\nStart:\n    JSR(Foo, 0);\n    goto Return;\n" ++
          "\n//------------------------------------------------------------------------\n").toList
        ++
        (("// Return handler\n// This emulates the RTS instruction using a generated jump " ++
          "table\n//\nReturn:\n    switch (popReturnIndex())\n    \x7b\n").toList ++
        "    case 0:\n        goto Return_0;\n".toList ++
        "    \x7d\n\x7d\n".toList) := by
  have hsome : (generateSourceFile
      ⟨[], [], [⟨"jsr".toList, "Foo".toList, [], 2⟩, ⟨"rts".toList, [], [], 3⟩], [], [],
        [⟨"label".toList, "Start".toList, [], 1⟩,
         ⟨"instruction".toList, "jsr Foo".toList, [], 2⟩,
         ⟨"instruction".toList, "rts".toList, [], 3⟩], 0⟩).isSome = true := by decide
  obtain ⟨r, hr⟩ := Option.isSome_iff_exists.1 hsome
  obtain ⟨hidx, hfile, -, -, -⟩ := (C19_return_sites_gapless _ rfl).2 r hr
  have hn : r.returnLabelIndex = 1 := by
    rw [hidx]
    decide
  refine ⟨r, hr, hn, ?_⟩
  rw [hfile, hn]
  rfl

/-! ## The data files -/

theorem generateDataItem_of_not_byte (cv : State) (d : JsonData) (st : DataEmission)
    (h : isByteBlock d = false) : generateDataItem cv d st = some st := by
  unfold generateDataItem
  rw [h]
  rfl

theorem generateDataItem_of_byte (cv : State) (d : JsonData) (st st1 : DataEmission)
    (hb : isByteBlock d = true) (h : generateDataItem cv d st = some st1) :
    ∃ labelName, dataLabelName cv d = some labelName ∧
      st1 = { headerFile := st.headerFile ++ "    uint16_t ".toList ++ labelName
                ++ "_ptr;\n".toList,
              dataFile := st.dataFile ++ dataArray labelName d,
              addressDefaults := st.addressDefaults ++ pointerLine labelName st.storageAddress,
              storageAddress := (st.storageAddress + d.values.length) % 2 ^ 32 } := by
  unfold generateDataItem at h
  rw [hb, if_pos rfl] at h
  cases hn : dataLabelName cv d with
  | none =>
    rw [hn] at h
    exact absurd h (by simp)
  | some labelName =>
    rw [hn] at h
    exact ⟨labelName, rfl, (Option.some.inj h).symm⟩

/-- The loop of `generateDataFiles`, from a state whose `storageAddress` is `a0` plus the
element counts of the byte blocks `done`: what it appends, as long as the addresses stay below
2^32. -/
theorem generateDataLoop_spec (cv : State) (a0 : Nat) (ds : List JsonData) :
    ∀ (done : List JsonData) (st st1 : DataEmission),
      generateDataLoop cv ds st = some st1 →
      st.storageAddress = a0 + (done.map (fun d => d.values.length)).sum →
      a0 + ((done ++ ds.filter isByteBlock).map (fun d => d.values.length)).sum < 2 ^ 32 →
      st1.storageAddress
        = a0 + ((done ++ ds.filter isByteBlock).map (fun d => d.values.length)).sum ∧
      st1.addressDefaults = st.addressDefaults ++
        (((ds.filter isByteBlock).enumFrom done.length).map (fun p =>
          pointerLine ((dataLabelName cv p.2).getD [])
            (a0 + (((done ++ ds.filter isByteBlock).take p.1).map
              (fun d => d.values.length)).sum))).flatten ∧
      st1.headerFile = st.headerFile ++
        ((ds.filter isByteBlock).map (fun d =>
          "    uint16_t ".toList ++ (dataLabelName cv d).getD [] ++ "_ptr;\n".toList)).flatten ∧
      st1.dataFile = st.dataFile ++
        ((ds.filter isByteBlock).map (fun d =>
          dataArray ((dataLabelName cv d).getD []) d)).flatten := by
  induction ds with
  | nil =>
    intro done st st1 h hst _
    rw [generateDataLoop] at h
    obtain rfl := Option.some.inj h
    simp [hst]
  | cons d rest ih =>
    intro done st st1 h hst hsize
    rw [generateDataLoop] at h
    cases hg : generateDataItem cv d st with
    | none =>
      rw [hg] at h
      exact absurd h (by simp)
    | some st2 =>
      rw [hg] at h
      simp only [] at h
      cases hb : isByteBlock d with
      | false =>
        rw [generateDataItem_of_not_byte cv d st hb] at hg
        obtain rfl := Option.some.inj hg
        rw [List.filter_cons_of_neg (by simp [hb])] at hsize ⊢
        exact ih done st st1 h hst hsize
      | true =>
        obtain ⟨labelName, hn, rfl⟩ := generateDataItem_of_byte cv d st st2 hb hg
        rw [List.filter_cons_of_pos hb] at hsize ⊢
        have e : ∀ (xs : List JsonData), (done ++ [d]) ++ xs = done ++ d :: xs := by
          intro xs
          rw [List.append_assoc, List.singleton_append]
        have hsum : a0 + (done.map (fun d => d.values.length)).sum + d.values.length
            < 2 ^ 32 := by
          have : ((done ++ d :: rest.filter isByteBlock).map (fun d => d.values.length)).sum
              = (done.map (fun d => d.values.length)).sum + d.values.length
                + ((rest.filter isByteBlock).map (fun d => d.values.length)).sum := by
            simp only [List.map_append, List.map_cons, List.sum_append, List.sum_cons]
            omega
          omega
        have hst2 : (st.storageAddress + d.values.length) % 2 ^ 32
            = a0 + ((done ++ [d]).map (fun d => d.values.length)).sum := by
          rw [hst, Nat.mod_eq_of_lt hsum]
          simp only [List.map_append, List.map_cons, List.map_nil, List.sum_append,
            List.sum_cons, List.sum_nil]
          omega
        obtain ⟨h1, h2, h3, h4⟩ := ih (done ++ [d]) _ st1 h hst2 (by rw [e]; exact hsize)
        simp only [] at h1 h2 h3 h4
        rw [e] at h1
        refine ⟨h1, ?_, ?_, ?_⟩
        · rw [h2, List.enumFrom_cons, List.map_cons, List.flatten_cons, hn]
          simp only [List.take_left, Option.getD_some, List.length_append, List.length_singleton,
            e, ← hst, List.append_assoc]
        · rw [h3, List.map_cons, List.flatten_cons, hn]
          simp only [Option.getD_some, List.append_assoc]
        · rw [h4, List.map_cons, List.flatten_cons, hn]
          simp only [Option.getD_some, List.append_assoc]

/-- The loop of `generateDataFiles` skips every block that is not a byte block. -/
theorem generateDataLoop_filter (cv : State) (ds : List JsonData) :
    ∀ st, generateDataLoop cv ds st = generateDataLoop cv (ds.filter isByteBlock) st := by
  induction ds with
  | nil => intro st; rfl
  | cons d rest ih =>
    intro st
    cases hb : isByteBlock d with
    | false =>
      rw [List.filter_cons_of_neg (by simp [hb]), generateDataLoop,
        generateDataItem_of_not_byte cv d st hb]
      exact ih st
    | true =>
      rw [List.filter_cons_of_pos hb, generateDataLoop, generateDataLoop]
      cases generateDataItem cv d st with
      | none => rfl
      | some st2 => exact ih st2

theorem dataLabelName_isSome (cv : State) (d : JsonData)
    (hlab : ∀ it ∈ cv.programFlow, it.type = "label".toList → it.content ≠ []) :
    (dataLabelName cv d).isSome = true := by
  have key : ∀ (labelName : Str), labelName ≠ [] →
      (match labelName.getLast? with
        | none => none
        | some back =>
          some (if back = ':' then labelName.take (labelName.length - 1) else labelName)).isSome
        = true := by
    intro labelName hne
    cases hb : labelName.getLast? with
    | none => exact absurd (List.getLast?_eq_none_iff.1 hb) hne
    | some back => rfl
  unfold dataLabelName
  apply key
  cases cv.programFlow.find?
      (fun item => item.lineNumber = d.lineNumber ∧ item.lineNumber > 0) with
  | none => simp
  | some item =>
    simp only []
    cases hf : cv.programFlow.reverse.find?
        (fun (it : ProgramFlowItem) =>
          it.lineNumber < d.lineNumber ∧ it.type = "label".toList) with
    | none => simp
    | some it =>
      simp only []
      have hmem := List.mem_reverse.1 (List.mem_of_find?_eq_some hf)
      have hp := List.find?_some hf
      simp only [decide_eq_true_eq] at hp
      exact hlab it hmem hp.2

theorem generateDataLoop_isSome (cv : State)
    (hlab : ∀ it ∈ cv.programFlow, it.type = "label".toList → it.content ≠ [])
    (ds : List JsonData) : ∀ st, (generateDataLoop cv ds st).isSome = true := by
  induction ds with
  | nil => intro st; rfl
  | cons d rest ih =>
    intro st
    rw [generateDataLoop]
    cases hb : isByteBlock d with
    | false =>
      rw [generateDataItem_of_not_byte cv d st hb]
      exact ih st
    | true =>
      obtain ⟨nm, hn⟩ := Option.isSome_iff_exists.1 (dataLabelName_isSome cv d hlab)
      have : ∃ st2, generateDataItem cv d st = some st2 := by
        unfold generateDataItem
        rw [hb, if_pos rfl, hn]
        exact ⟨_, rfl⟩
      obtain ⟨st2, h2⟩ := this
      rw [h2]
      exact ih st2

theorem generateDataFiles_eq (cv : State) (r : DataEmission)
    (h : generateDataFiles cv = some r) :
    ∃ st, generateDataLoop cv cv.data
        { headerFile := pointersHeader, dataFile := dataHeader,
          addressDefaults := "    SMBDataPointers()\n    \x7b\n".toList,
          storageAddress := 0x8000 } = some st ∧
      r.storageAddress = st.storageAddress ∧
      r.addressDefaults = st.addressDefaults ++ "        this->freeSpaceAddress = 0x".toList ++
        hex st.storageAddress ++ ";\n".toList ++ "    \x7d\n".toList ∧
      r.dataFile = st.dataFile ++ "\x7d\n".toList ∧
      r.headerFile = st.headerFile ++ "    uint16_t freeSpaceAddress;\n".toList ++
          "\n".toList ++ r.addressDefaults ++ "\x7d;\n\n".toList ++
          "#endif // SMBDATAPOINTERS_HPP\n".toList := by
  unfold generateDataFiles at h
  cases hg : generateDataLoop cv cv.data
      { headerFile := pointersHeader, dataFile := dataHeader,
        addressDefaults := "    SMBDataPointers()\n    \x7b\n".toList,
        storageAddress := 0x8000 } with
  | none =>
    rw [hg] at h
    exact absurd h (by simp)
  | some st =>
    rw [hg] at h
    obtain rfl := Option.some.inj h
    exact ⟨st, rfl, rfl, rfl, rfl, rfl⟩

/-- C29 (as stated, refuted): with a `.byte` block of two values under label `A` followed by a
`.db` block of one value under label `B`, the `.db` block is the first `.db` block and no `.db`
block stands before it, but its pointer is 0x8002, not 0x8000, and `freeSpaceAddress` is 0x8003,
not 0x8001: the `.byte` block is given a pointer and counted as well. -/
theorem C29_byte_directive_is_counted :
    (generateDataFiles
        ⟨[], [], [],
          [⟨".byte".toList, "bytes".toList, ["1".toList, "2".toList], [], 2⟩,
           ⟨".db".toList, "bytes".toList, ["3".toList], [], 4⟩], [],
          [⟨"label".toList, "A".toList, [], 1⟩, ⟨"data".toList, ".byte".toList, [], 2⟩,
           ⟨"label".toList, "B".toList, [], 3⟩, ⟨"data".toList, ".db".toList, [], 4⟩], 0⟩).map
        (fun r => (r.addressDefaults, r.storageAddress))
      = some (("    SMBDataPointers()\n    \x7b\n" ++
          "        this->A_ptr = 0x8000;\n" ++
          "        this->B_ptr = 0x8002;\n" ++
          "        this->freeSpaceAddress = 0x8003;\n    \x7d\n").toList, 0x8003) := by
  decide

/-- C29 (amended): for every list of data blocks, `generateDataFiles` completes when every label
of the program flow has a non-empty content, and whenever it completes with the addresses below
2^32, it assigns to the i-th byte block (directive `.db` or `.byte`) the pointer 0x8000 + (sum
of the element counts of the byte blocks before it), writes each byte block as one array of
exactly its values passed through `translateExpression`, separated by `, `, and sets
`freeSpaceAddress` to 0x8000 + (sum of all their element counts). -/
theorem C29_byte_block_pointers (cv : State)
    (hsize : 0x8000 + ((cv.data.filter isByteBlock).map (fun d => d.values.length)).sum
      < 2 ^ 32) :
    ((∀ it ∈ cv.programFlow, it.type = "label".toList → it.content ≠ []) →
      ∃ r, generateDataFiles cv = some r) ∧
    (∀ r, generateDataFiles cv = some r →
      r.storageAddress
        = 0x8000 + ((cv.data.filter isByteBlock).map (fun d => d.values.length)).sum ∧
      r.addressDefaults = "    SMBDataPointers()\n    \x7b\n".toList ++
        ((cv.data.filter isByteBlock).enum.map (fun p =>
          "        this->".toList ++ (dataLabelName cv p.2).getD [] ++ "_ptr = 0x".toList ++
            hex (0x8000 + (((cv.data.filter isByteBlock).take p.1).map
              (fun d => d.values.length)).sum) ++ ";\n".toList)).flatten ++
        "        this->freeSpaceAddress = 0x".toList ++
        hex (0x8000 + ((cv.data.filter isByteBlock).map (fun d => d.values.length)).sum) ++
        ";\n".toList ++ "    \x7d\n".toList ∧
      r.dataFile = dataHeader ++
        ((cv.data.filter isByteBlock).map (fun d =>
          dataArray ((dataLabelName cv d).getD []) d)).flatten ++ "\x7d\n".toList) ∧
    (∀ (labelName : Str) (d : JsonData), dataArray labelName d =
      "    // ".toList ++ labelName ++ "\n".toList ++
      "    const uint8_t ".toList ++ labelName ++ "_data[] = \x7b\n        ".toList ++
      ", ".toList.intercalate (d.values.map translateExpression) ++
      "\n    \x7d;\n".toList ++
      "    writeData(".toList ++ labelName ++ ", ".toList ++ labelName ++
        "_data, sizeof(".toList ++ labelName ++ "_data));\n\n".toList) ∧
    (∀ d, isByteBlock d = true ↔ (d.directive = ".db".toList ∨ d.directive = ".byte".toList)) := by
  refine ⟨?_, ?_, fun _ _ => rfl, fun d => by simp [isByteBlock]⟩
  · intro hlab
    obtain ⟨st, hst⟩ := Option.isSome_iff_exists.1
      (generateDataLoop_isSome cv hlab cv.data
        { headerFile := pointersHeader, dataFile := dataHeader,
          addressDefaults := "    SMBDataPointers()\n    \x7b\n".toList,
          storageAddress := 0x8000 })
    exact ⟨_, by unfold generateDataFiles; rw [hst]⟩
  · intro r h
    obtain ⟨st, hg, h1, h2, h3, -⟩ := generateDataFiles_eq cv r h
    obtain ⟨g1, g2, -, g4⟩ := generateDataLoop_spec cv 0x8000 cv.data [] _ st hg
      (by simp) (by simpa using hsize)
    simp only [List.nil_append, List.length_nil] at g1 g2 g4
    refine ⟨h1.trans g1, ?_, ?_⟩
    · rw [h2, g2, g1]
      rfl
    · rw [h3, g4]

/-- C29 (amended), on the single block `.db $01, $02, $03` under the label `Table`: one array
`0x01, 0x02, 0x03`, the pointer 0x8000 and the next address 0x8003. -/
theorem C29_byte_block_pointers_witness :
    ∃ r, generateDataFiles
        ⟨[], [], [],
          [⟨".db".toList, "bytes".toList, ["$01".toList, "$02".toList, "$03".toList], [], 2⟩],
          [], [⟨"label".toList, "Table".toList, [], 1⟩, ⟨"data".toList, ".db".toList, [], 2⟩],
          0⟩ = some r ∧
      r.storageAddress = 0x8003 ∧
      r.addressDefaults = ("    SMBDataPointers()\n    \x7b\n" ++
          "        this->Table_ptr = 0x8000;\n" ++
          "        this->freeSpaceAddress = 0x8003;\n    \x7d\n").toList ∧
      r.dataFile = dataHeader ++ ("    // Table\n" ++
          "    const uint8_t Table_data[] = \x7b\n        0x01, 0x02, 0x03\n    \x7d;\n" ++
          "    writeData(Table, Table_data, sizeof(Table_data));\n\n").toList
          ++ "\x7d\n".toList := by
  obtain ⟨r, hr⟩ := (C29_byte_block_pointers
    ⟨[], [], [],
      [⟨".db".toList, "bytes".toList, ["$01".toList, "$02".toList, "$03".toList], [], 2⟩],
      [], [⟨"label".toList, "Table".toList, [], 1⟩, ⟨"data".toList, ".db".toList, [], 2⟩],
      0⟩ (by decide)).1 (by decide)
  obtain ⟨h1, h2, h3⟩ := (C29_byte_block_pointers
    ⟨[], [], [],
      [⟨".db".toList, "bytes".toList, ["$01".toList, "$02".toList, "$03".toList], [], 2⟩],
      [], [⟨"label".toList, "Table".toList, [], 1⟩, ⟨"data".toList, ".db".toList, [], 2⟩],
      0⟩ (by decide)).2.1 r hr
  refine ⟨r, hr, ?_, ?_, ?_⟩
  · rw [h1]
    rfl
  · rw [h2]
    rfl
  · rw [h3]
    rfl

/-- C30 (as stated, refuted): a word block `.dw $1234, $5678` under the label `Table` receives
no entry in the address-pointer table and no data array, and the running address stays at
0x8000. -/
theorem C30_word_block_is_skipped :
    (generateDataFiles
        ⟨[], [], [],
          [⟨".dw".toList, "words".toList, ["$1234".toList, "$5678".toList], [], 2⟩],
          [], [⟨"label".toList, "Table".toList, [], 1⟩, ⟨"data".toList, ".dw".toList, [], 2⟩],
          0⟩).map (fun r => (r.addressDefaults, r.storageAddress, r.dataFile))
      = some (("    SMBDataPointers()\n    \x7b\n" ++
          "        this->freeSpaceAddress = 0x8000;\n    \x7d\n").toList, 0x8000,
          dataHeader ++ "\x7d\n".toList) := by
  decide

/-- C30 (amended): every byte block encountered (directive `.db` or `.byte`) receives an entry
in the address-pointer table, at the running address, and advances the running address by its
element count (modulo 2^32); every other data block, a word block (`.dw`) included, receives no
entry and leaves everything as it was, so that the output is that of the byte blocks alone. -/
theorem C30_only_byte_blocks (cv : State) (d : JsonData) (st : DataEmission) :
    (isByteBlock d = false → generateDataItem cv d st = some st) ∧
    (isByteBlock d = true → ∀ st1, generateDataItem cv d st = some st1 →
      ∃ labelName, dataLabelName cv d = some labelName ∧
        st1.addressDefaults = st.addressDefaults ++ "        this->".toList ++ labelName ++
          "_ptr = 0x".toList ++ hex st.storageAddress ++ ";\n".toList ∧
        st1.headerFile = st.headerFile ++ "    uint16_t ".toList ++ labelName ++
          "_ptr;\n".toList ∧
        st1.storageAddress = (st.storageAddress + d.values.length) % 2 ^ 32) ∧
    (isByteBlock d = true ↔ (d.directive = ".db".toList ∨ d.directive = ".byte".toList)) ∧
    generateDataFiles cv
      = generateDataFiles
          ⟨cv.constants, cv.labels, cv.instructions, cv.data.filter isByteBlock, cv.directives,
            cv.programFlow, cv.returnLabelIndex⟩ := by
  refine ⟨generateDataItem_of_not_byte cv d st, ?_, by simp [isByteBlock], ?_⟩
  · intro hb st1 h
    obtain ⟨labelName, hn, rfl⟩ := generateDataItem_of_byte cv d st st1 hb h
    refine ⟨labelName, hn, ?_, rfl, rfl⟩
    show st.addressDefaults ++ pointerLine labelName st.storageAddress = _
    unfold pointerLine
    simp only [List.append_assoc]
  · have hdep : ∀ (ds : List JsonData) (st : DataEmission),
        generateDataLoop cv ds st
          = generateDataLoop
              ⟨cv.constants, cv.labels, cv.instructions, cv.data.filter isByteBlock,
                cv.directives, cv.programFlow, cv.returnLabelIndex⟩ ds st := by
      intro ds
      induction ds with
      | nil => intro st; rfl
      | cons x rest ih =>
        intro st
        rw [generateDataLoop, generateDataLoop]
        have : generateDataItem cv x st = generateDataItem
            ⟨cv.constants, cv.labels, cv.instructions, cv.data.filter isByteBlock,
              cv.directives, cv.programFlow, cv.returnLabelIndex⟩ x st := rfl
        rw [← this]
        cases generateDataItem cv x st with
        | none => rfl
        | some st2 => exact ih st2
    unfold generateDataFiles
    simp only []
    rw [generateDataLoop_filter cv cv.data, hdep]

/-- C30 (amended), on a `.dw` block and on a `.db` block of three values at address 0x8000. -/
theorem C30_only_byte_blocks_witness :
    generateDataItem ⟨[], [], [], [], [], [], 0⟩
        ⟨".dw".toList, "words".toList, ["$1234".toList], [], 2⟩ ⟨[], [], [], 0x8000⟩
      = some ⟨[], [], [], 0x8000⟩ ∧
    ∃ labelName, dataLabelName ⟨[], [], [], [], [], [], 0⟩
        ⟨".db".toList, "bytes".toList, ["1".toList, "2".toList, "3".toList], [], 2⟩
        = some labelName ∧
      ∀ st1, generateDataItem ⟨[], [], [], [], [], [], 0⟩
          ⟨".db".toList, "bytes".toList, ["1".toList, "2".toList, "3".toList], [], 2⟩
          ⟨[], [], [], 0x8000⟩ = some st1 → st1.storageAddress = 0x8003 := by
  refine ⟨(C30_only_byte_blocks ⟨[], [], [], [], [], [], 0⟩
      ⟨".dw".toList, "words".toList, ["$1234".toList], [], 2⟩ ⟨[], [], [], 0x8000⟩).1
      (by decide), "UnknownData".toList, by decide, ?_⟩
  intro st1 h
  obtain ⟨_, -, -, -, hs⟩ := (C30_only_byte_blocks ⟨[], [], [], [], [], [], 0⟩
      ⟨".db".toList, "bytes".toList, ["1".toList, "2".toList, "3".toList], [], 2⟩
      ⟨[], [], [], 0x8000⟩).2.1 (by decide) st1 h
  rw [hs]
  decide

/-! ## Operands, labels and order once more -/

/-- C38: for every non-empty expression e that does not begin with `#`, contains no comma, and
is not both `(`-initial and `)`-final, `translateOperand` gives the same text for `(` + e + `)`
and for e: `M(` + translateExpression(e) + `)`. -/
theorem C38_indirect_equals_direct (e : Str) (h0 : e ≠ []) (h1 : e.head? ≠ some '#')
    (h2 : ',' ∉ e) (h3 : ¬ (e.head? = some '(' ∧ e.getLast? = some ')')) :
    translateOperand ('(' :: (e ++ [')']))
      = some ("M(".toList ++ translateExpression e ++ ")".toList) ∧
    translateOperand e = some ("M(".toList ++ translateExpression e ++ ")".toList) ∧
    translateOperand ('(' :: (e ++ [')'])) = translateOperand e := by
  have ha : translateOperand ('(' :: (e ++ [')']))
      = some ("M(".toList ++ translateExpression e ++ ")".toList) := by
    have hp := (paren_iff ('(' :: (e ++ [')']))).2 ⟨e, rfl⟩
    unfold translateOperand
    rw [if_neg (by simp), if_neg (by simp), if_pos hp, paren_inner]
  have hb : translateOperand e = some ("M(".toList ++ translateExpression e ++ ")".toList) := by
    unfold translateOperand
    rw [if_neg (by simpa using h0), if_neg h1, if_neg h3, (find_eq_none_iff _ _).2 h2]
  exact ⟨ha, hb, ha.trans hb.symm⟩

/-- C38, at `$10` and `Table`. -/
theorem C38_indirect_equals_direct_witness :
    translateOperand "($10)".toList = some "M(0x10)".toList ∧
      translateOperand "$10".toList = some "M(0x10)".toList ∧
      translateOperand "(Table)".toList = translateOperand "Table".toList :=
  ⟨(C38_indirect_equals_direct "$10".toList (by decide) (by decide) (by decide) (by decide)).1,
    (C38_indirect_equals_direct "$10".toList (by decide) (by decide) (by decide) (by decide)).2.1,
    (C38_indirect_equals_direct "Table".toList (by decide) (by decide) (by decide)
      (by decide)).2.2⟩

theorem generateItems_congr (cv cv1 : State) (hi : cv1.instructions = cv.instructions)
    (items : List ProgramFlowItem) :
    ∀ st, generateItems cv1 items st = generateItems cv items st := by
  induction items with
  | nil => intro st; rfl
  | cons item rest ih =>
    intro st
    rw [generateItems, generateItems, hi]
    simp only [ih]

theorem generateLabelCode_congr (cv cv1 : State) (hi : cv1.instructions = cv.instructions)
    (hl : cv1.labels = cv.labels) (labelName : Str) (items : List ProgramFlowItem)
    (st : Emission) :
    generateLabelCode cv1 labelName items st = generateLabelCode cv labelName items st := by
  unfold generateLabelCode
  rw [hl]
  simp only [generateItems_congr cv cv1 hi]

theorem groupLabels_congr (cv cv1 : State) (hi : cv1.instructions = cv.instructions)
    (hl : cv1.labels = cv.labels) (pf : List ProgramFlowItem) :
    ∀ cl ci st, groupLabels cv1 pf cl ci st = groupLabels cv pf cl ci st := by
  induction pf with
  | nil =>
    intro cl ci st
    rw [groupLabels, groupLabels, generateLabelCode_congr cv cv1 hi hl]
  | cons item rest ih =>
    intro cl ci st
    rw [groupLabels, groupLabels, generateLabelCode_congr cv cv1 hi hl]
    simp only [ih]

/-- With no block open, the items collected so far are never emitted. -/
theorem groupLabels_no_label (cv : State) (pf : List ProgramFlowItem) :
    ∀ ci st, groupLabels cv pf [] ci st
      = groupLabels cv (pf.dropWhile (fun it => it.type ≠ "label".toList)) [] [] st := by
  induction pf with
  | nil =>
    intro ci st
    rfl
  | cons item rest ih =>
    intro ci st
    by_cases hl : item.type = "label".toList
    · rw [List.dropWhile_cons_of_neg (by simpa using hl), groupLabels, groupLabels, if_pos hl,
        if_pos hl]
      rfl
    · rw [List.dropWhile_cons_of_pos (by simpa using hl), groupLabels, if_neg hl]
      exact ih _ st

/-- C39: removing every item before the first label from the program flow leaves the result of
`generateSourceFile` as it is: the generated code, the final return counter and the calls made
to `translateInstruction`; and a program flow without any label gives the header followed by the
return handler of the initial counter, with no call of `translateInstruction`. -/
theorem C39_items_before_first_label (cv : State) :
    generateSourceFile
        ⟨cv.constants, cv.labels, cv.instructions, cv.data, cv.directives,
          cv.programFlow.dropWhile (fun it => it.type ≠ "label".toList), cv.returnLabelIndex⟩
      = generateSourceFile cv ∧
    ((∀ it ∈ cv.programFlow, it.type ≠ "label".toList) →
      generateSourceFile cv
        = some ⟨sourceHeader ++ returnHandler cv.returnLabelIndex, cv.returnLabelIndex, []⟩) := by
  have key : generateSourceFile cv
      = match groupLabels cv (cv.programFlow.dropWhile (fun it => it.type ≠ "label".toList))
          [] [] { file := sourceHeader, returnLabelIndex := cv.returnLabelIndex,
                  translated := [] } with
        | none => none
        | some st => some { st with file := st.file ++ returnHandler st.returnLabelIndex } := by
    unfold generateSourceFile
    rw [groupLabels_no_label cv cv.programFlow [] _]
  constructor
  · rw [key]
    unfold generateSourceFile
    simp only []
    rw [groupLabels_congr cv
      ⟨cv.constants, cv.labels, cv.instructions, cv.data, cv.directives,
        cv.programFlow.dropWhile (fun it => it.type ≠ "label".toList), cv.returnLabelIndex⟩
      rfl rfl]
  · intro h
    rw [key]
    have : cv.programFlow.dropWhile (fun it => it.type ≠ "label".toList) = [] := by
      rw [List.dropWhile_eq_nil_iff]
      intro x hx
      simpa using h x hx
    rw [this, groupLabels]
    rfl

/-- C39, on `jsr Early`, `lda #1`, `Start:`, `jsr Foo`: the program without the two items
before `Start:` gives the same result, and the counter ends at 1. -/
theorem C39_items_before_first_label_witness :
    generateSourceFile
        ⟨[], [], [⟨"jsr".toList, "Early".toList, [], 1⟩, ⟨"lda".toList, "#1".toList, [], 2⟩,
                  ⟨"jsr".toList, "Foo".toList, [], 4⟩], [], [],
          [⟨"label".toList, "Start".toList, [], 3⟩,
           ⟨"instruction".toList, "jsr Foo".toList, [], 4⟩], 0⟩
      = generateSourceFile
        ⟨[], [], [⟨"jsr".toList, "Early".toList, [], 1⟩, ⟨"lda".toList, "#1".toList, [], 2⟩,
                  ⟨"jsr".toList, "Foo".toList, [], 4⟩], [], [],
          [⟨"instruction".toList, "jsr Early".toList, [], 1⟩,
           ⟨"instruction".toList, "lda #1".toList, [], 2⟩,
           ⟨"label".toList, "Start".toList, [], 3⟩,
           ⟨"instruction".toList, "jsr Foo".toList, [], 4⟩], 0⟩ :=
  (C39_items_before_first_label
    ⟨[], [], [⟨"jsr".toList, "Early".toList, [], 1⟩, ⟨"lda".toList, "#1".toList, [], 2⟩,
              ⟨"jsr".toList, "Foo".toList, [], 4⟩], [], [],
      [⟨"instruction".toList, "jsr Early".toList, [], 1⟩,
       ⟨"instruction".toList, "lda #1".toList, [], 2⟩,
       ⟨"label".toList, "Start".toList, [], 3⟩,
       ⟨"instruction".toList, "jsr Foo".toList, [], 4⟩], 0⟩).1

/-- C35 (what the code does): on the IR `label`, `.db $01` in which the content of the label is
missing and so empty, `generateSourceFile` completes (a block with an empty label name is never
emitted), but `generateDataFiles` takes the empty content as the name of the block and reads
its last character: it has no defined result. -/
theorem C35_empty_label_before_data :
    generateDataFiles
        ⟨[], [], [], [⟨".db".toList, "bytes".toList, ["$01".toList], [], 2⟩], [],
          [⟨"label".toList, [], [], 1⟩, ⟨"data".toList, ".db".toList, [], 2⟩], 0⟩ = none ∧
    dataLabelName
        ⟨[], [], [], [⟨".db".toList, "bytes".toList, ["$01".toList], [], 2⟩], [],
          [⟨"label".toList, [], [], 1⟩, ⟨"data".toList, ".db".toList, [], 2⟩], 0⟩
        ⟨".db".toList, "bytes".toList, ["$01".toList], [], 2⟩ = none ∧
    (generateSourceFile
        ⟨[], [], [], [⟨".db".toList, "bytes".toList, ["$01".toList], [], 2⟩], [],
          [⟨"label".toList, [], [], 1⟩, ⟨"data".toList, ".db".toList, [], 2⟩], 0⟩).isSome
      = true := by
  refine ⟨by rfl, by rfl, by rfl⟩

/-- In a list sorted by strictly increasing line number, the backwards search for a label
below a line finds the label with the greatest line number below it. -/
theorem reverse_find_label (pf : List ProgramFlowItem) (n : Int)
    (hsorted : pf.Pairwise (fun a b => a.lineNumber < b.lineNumber))
    (L : ProgramFlowItem) (hL : L ∈ pf) (hty : L.type = "label".toList)
    (hlt : L.lineNumber < n)
    (hmax : ∀ M ∈ pf, M.type = "label".toList → M.lineNumber < n →
      M.lineNumber ≤ L.lineNumber) :
    pf.reverse.find? (fun (it : ProgramFlowItem) =>
      it.lineNumber < n ∧ it.type = "label".toList) = some L := by
  have hex : (pf.reverse.find? (fun (it : ProgramFlowItem) =>
      decide (it.lineNumber < n ∧ it.type = "label".toList))).isSome = true := by
    rw [List.find?_isSome]
    exact ⟨L, List.mem_reverse.2 hL, by simpa using ⟨hlt, hty⟩⟩
  obtain ⟨F, hF⟩ := Option.isSome_iff_exists.1 hex
  rw [hF]
  obtain ⟨hp, as, bs, hsplit, has⟩ := List.find?_eq_some.1 hF
  simp only [decide_eq_true_eq] at hp
  have hFmem : F ∈ pf := by
    rw [← List.mem_reverse, hsplit]
    simp
  -- the list in its own order: the items after `F` are the ones the search rejected
  have hpf : pf = bs.reverse ++ F :: as.reverse := by
    have := congrArg List.reverse hsplit
    rw [List.reverse_reverse] at this
    rw [this]
    simp
  have hle : L.lineNumber ≤ F.lineNumber := by
    rw [hpf] at hL hsorted
    rcases List.mem_append.1 hL with h1 | h1
    · have := (List.pairwise_append.1 hsorted).2.2 L h1 F (List.mem_cons_self _ _)
      omega
    · rcases List.mem_cons.1 h1 with h2 | h2
      · rw [h2]
      · have hrej := has L (List.mem_reverse.1 h2)
        simp only [Bool.not_eq_true', decide_eq_false_iff_not] at hrej
        exact absurd ⟨hlt, hty⟩ hrej
  have hge : F.lineNumber ≤ L.lineNumber := hmax F hFmem hp.2 hp.1
  have heq : F.lineNumber = L.lineNumber := by omega
  by_contra hne
  have hne1 : F ≠ L := fun h => hne (by rw [h])
  have := List.Pairwise.forall (R := fun (a b : ProgramFlowItem) => a.lineNumber ≠ b.lineNumber)
    (fun a b h => fun h1 => h h1.symm)
    (hsorted.imp (fun h => by omega)) hFmem hL hne1
  exact this heq

/-- C40: for a program flow sorted by strictly increasing line number, the name that
`generateDataFiles` uses for a data block with a program-flow entry at its own positive line is
the content, minus one trailing `:` if present, of the label item with the greatest line number
smaller than the line of the block (its content being non-empty), and `UnknownData` when no
label has a smaller line number; a byte block is written with that name, so that two blocks
under the same label get the same array and pointer names. -/
theorem C40_name_of_data_block (cv : State) (d : JsonData)
    (hsorted : cv.programFlow.Pairwise (fun a b => a.lineNumber < b.lineNumber))
    (hentry : ∃ item ∈ cv.programFlow, item.lineNumber = d.lineNumber ∧ 0 < item.lineNumber) :
    (∀ L ∈ cv.programFlow, L.type = "label".toList → L.lineNumber < d.lineNumber →
      (∀ M ∈ cv.programFlow, M.type = "label".toList → M.lineNumber < d.lineNumber →
        M.lineNumber ≤ L.lineNumber) →
      L.content ≠ [] →
      dataLabelName cv d = some
        (if L.content.getLast? = some ':' then L.content.take (L.content.length - 1)
         else L.content) ∧
      ∀ d2 : JsonData,
        (∃ item ∈ cv.programFlow, item.lineNumber = d2.lineNumber ∧ 0 < item.lineNumber) →
        L.lineNumber < d2.lineNumber →
        (∀ M ∈ cv.programFlow, M.type = "label".toList → M.lineNumber < d2.lineNumber →
          M.lineNumber ≤ L.lineNumber) →
        dataLabelName cv d2 = dataLabelName cv d) ∧
    ((∀ L ∈ cv.programFlow, L.type = "label".toList → ¬ L.lineNumber < d.lineNumber) →
      dataLabelName cv d = some "UnknownData".toList) ∧
    (∀ st st1, isByteBlock d = true → generateDataItem cv d st = some st1 →
      ∃ labelName, dataLabelName cv d = some labelName ∧
        st1.dataFile = st.dataFile ++ dataArray labelName d ∧
        st1.addressDefaults = st.addressDefaults ++ pointerLine labelName st.storageAddress ∧
        st1.headerFile = st.headerFile ++ "    uint16_t ".toList ++ labelName
          ++ "_ptr;\n".toList) := by
  have hname : ∀ (d : JsonData),
      (∃ item ∈ cv.programFlow, item.lineNumber = d.lineNumber ∧ 0 < item.lineNumber) →
      ∀ L ∈ cv.programFlow, L.type = "label".toList → L.lineNumber < d.lineNumber →
      (∀ M ∈ cv.programFlow, M.type = "label".toList → M.lineNumber < d.lineNumber →
        M.lineNumber ≤ L.lineNumber) →
      L.content ≠ [] →
      dataLabelName cv d = some
        (if L.content.getLast? = some ':' then L.content.take (L.content.length - 1)
         else L.content) := by
    intro d hentry L hL hty hlt hmax hne
    have hfirst : (cv.programFlow.find? (fun item =>
        decide (item.lineNumber = d.lineNumber ∧ item.lineNumber > 0))).isSome = true := by
      rw [List.find?_isSome]
      obtain ⟨item, hi, h1, h2⟩ := hentry
      exact ⟨item, hi, by simpa using ⟨h1, h2⟩⟩
    obtain ⟨item, hitem⟩ := Option.isSome_iff_exists.1 hfirst
    unfold dataLabelName
    rw [hitem]
    simp only []
    rw [reverse_find_label cv.programFlow d.lineNumber hsorted L hL hty hlt hmax]
    simp only []
    cases hb : L.content.getLast? with
    | none => exact absurd (List.getLast?_eq_none_iff.1 hb) hne
    | some back =>
      simp only [Option.some.injEq]
  refine ⟨?_, ?_, ?_⟩
  · intro L hL hty hlt hmax hne
    refine ⟨hname d hentry L hL hty hlt hmax hne, ?_⟩
    intro d2 hentry2 hlt2 hmax2
    rw [hname d hentry L hL hty hlt hmax hne, hname d2 hentry2 L hL hty hlt2 hmax2 hne]
  · intro hnone
    have hfirst : (cv.programFlow.find? (fun item =>
        decide (item.lineNumber = d.lineNumber ∧ item.lineNumber > 0))).isSome = true := by
      rw [List.find?_isSome]
      obtain ⟨item, hi, h1, h2⟩ := hentry
      exact ⟨item, hi, by simpa using ⟨h1, h2⟩⟩
    obtain ⟨item, hitem⟩ := Option.isSome_iff_exists.1 hfirst
    have hrev : cv.programFlow.reverse.find? (fun (it : ProgramFlowItem) =>
        decide (it.lineNumber < d.lineNumber ∧ it.type = "label".toList)) = none := by
      rw [List.find?_eq_none]
      intro x hx
      have := hnone x (List.mem_reverse.1 hx)
      simp only [decide_eq_true_eq, not_and]
      intro h1 h2
      exact this h2 h1
    unfold dataLabelName
    rw [hitem]
    simp only []
    rw [hrev]
    rfl
  · intro st st1 hb h
    obtain ⟨labelName, hn, rfl⟩ := generateDataItem_of_byte cv d st st1 hb h
    exact ⟨labelName, hn, rfl, rfl, rfl⟩

/-- C40, on `A:`, `.db 1`, `.db 2`, `B:`: both blocks stand under `A` and get the name `A`. -/
theorem C40_name_of_data_block_witness :
    dataLabelName
      ⟨[], [], [],
          [⟨".db".toList, "bytes".toList, ["1".toList], [], 2⟩,
           ⟨".db".toList, "bytes".toList, ["2".toList], [], 3⟩], [],
          [⟨"label".toList, "A:".toList, [], 1⟩, ⟨"data".toList, ".db".toList, [], 2⟩,
           ⟨"data".toList, ".db".toList, [], 3⟩, ⟨"label".toList, "B".toList, [], 4⟩], 0⟩
      ⟨".db".toList, "bytes".toList, ["2".toList], [], 3⟩ = some "A".toList ∧
    dataLabelName
      ⟨[], [], [],
          [⟨".db".toList, "bytes".toList, ["1".toList], [], 2⟩,
           ⟨".db".toList, "bytes".toList, ["2".toList], [], 3⟩], [],
          [⟨"label".toList, "A:".toList, [], 1⟩, ⟨"data".toList, ".db".toList, [], 2⟩,
           ⟨"data".toList, ".db".toList, [], 3⟩, ⟨"label".toList, "B".toList, [], 4⟩], 0⟩
      ⟨".db".toList, "bytes".toList, ["1".toList], [], 2⟩
    = dataLabelName
      ⟨[], [], [],
          [⟨".db".toList, "bytes".toList, ["1".toList], [], 2⟩,
           ⟨".db".toList, "bytes".toList, ["2".toList], [], 3⟩], [],
          [⟨"label".toList, "A:".toList, [], 1⟩, ⟨"data".toList, ".db".toList, [], 2⟩,
           ⟨"data".toList, ".db".toList, [], 3⟩, ⟨"label".toList, "B".toList, [], 4⟩], 0⟩
      ⟨".db".toList, "bytes".toList, ["2".toList], [], 3⟩ :=
  ⟨((C40_name_of_data_block
      ⟨[], [], [],
          [⟨".db".toList, "bytes".toList, ["1".toList], [], 2⟩,
           ⟨".db".toList, "bytes".toList, ["2".toList], [], 3⟩], [],
          [⟨"label".toList, "A:".toList, [], 1⟩, ⟨"data".toList, ".db".toList, [], 2⟩,
           ⟨"data".toList, ".db".toList, [], 3⟩, ⟨"label".toList, "B".toList, [], 4⟩], 0⟩
      ⟨".db".toList, "bytes".toList, ["2".toList], [], 3⟩ (by decide) (by decide)).1
      ⟨"label".toList, "A:".toList, [], 1⟩ (by decide) (by decide) (by decide) (by decide)
      (by decide)).1,
   ((C40_name_of_data_block
      ⟨[], [], [],
          [⟨".db".toList, "bytes".toList, ["1".toList], [], 2⟩,
           ⟨".db".toList, "bytes".toList, ["2".toList], [], 3⟩], [],
          [⟨"label".toList, "A:".toList, [], 1⟩, ⟨"data".toList, ".db".toList, [], 2⟩,
           ⟨"data".toList, ".db".toList, [], 3⟩, ⟨"label".toList, "B".toList, [], 4⟩], 0⟩
      ⟨".db".toList, "bytes".toList, ["2".toList], [], 3⟩ (by decide) (by decide)).1
      ⟨"label".toList, "A:".toList, [], 1⟩ (by decide) (by decide) (by decide) (by decide)
      (by decide)).2
      ⟨".db".toList, "bytes".toList, ["1".toList], [], 2⟩ (by decide) (by decide) (by decide)⟩

/-! ## The order of the program flow -/

set_option maxRecDepth 10000 in
/-- C34 (as stated, refuted): the program flow `A:` (line 1), `lda #1` (line 2) and its
permutation `lda #1`, `A:` have entries with distinct line numbers, and `generateSourceFile`
writes the statement `a = 1;` for the first and no statement for the second. -/
theorem C34_order_of_the_list_decides :
    [(⟨"instruction".toList, "lda #1".toList, [], 2⟩ : ProgramFlowItem),
      ⟨"label".toList, "A".toList, [], 1⟩].Perm
      [⟨"label".toList, "A".toList, [], 1⟩, ⟨"instruction".toList, "lda #1".toList, [], 2⟩] ∧
    (generateSourceFile
        ⟨[], [], [⟨"lda".toList, "#1".toList, [], 2⟩], [], [],
          [⟨"label".toList, "A".toList, [], 1⟩,
           ⟨"instruction".toList, "lda #1".toList, [], 2⟩], 0⟩).map (fun r => r.file)
      = some (sourceHeader ++ "\nA:\n    a = 1;\n".toList ++ returnHandler 0) ∧
    (generateSourceFile
        ⟨[], [], [⟨"lda".toList, "#1".toList, [], 2⟩], [], [],
          [⟨"instruction".toList, "lda #1".toList, [], 2⟩,
           ⟨"label".toList, "A".toList, [], 1⟩], 0⟩).map (fun r => r.file)
      = some (sourceHeader ++ "\nA:\n".toList ++ returnHandler 0) := by
  refine ⟨by decide, by rfl, by rfl⟩

theorem translateInstruction_lineNumber (inst : JsonInstruction) (k : Int) (n : Nat) :
    translateInstruction ⟨inst.mnemonic, inst.operand, inst.comment, k⟩ n
      = translateInstruction inst n := rfl

theorem generateItems_renumber (cv : State) (f : Int → Int) (hf : Function.Injective f)
    (items : List ProgramFlowItem) :
    ∀ (st st1 : Emission), st1.file = st.file → st1.returnLabelIndex = st.returnLabelIndex →
      (generateItems
        ⟨cv.constants, cv.labels,
          cv.instructions.map (fun i => ⟨i.mnemonic, i.operand, i.comment, f i.lineNumber⟩),
          cv.data, cv.directives, cv.programFlow, cv.returnLabelIndex⟩
        (items.map (fun it => ⟨it.type, it.content, it.comment, f it.lineNumber⟩)) st1).map
          (fun r => (r.file, r.returnLabelIndex))
      = (generateItems cv items st).map (fun r => (r.file, r.returnLabelIndex)) := by
  induction items with
  | nil =>
    intro st st1 h1 h2
    rw [List.map_nil, generateItems, generateItems, Option.map_some', Option.map_some', h1, h2]
  | cons item rest ih =>
    intro st st1 h1 h2
    rw [List.map_cons, generateItems, generateItems]
    simp only []
    by_cases hi : item.type = "instruction".toList
    · rw [if_pos hi, if_pos hi, List.find?_map]
      have hp : ((fun (inst : JsonInstruction) => decide (inst.lineNumber = f item.lineNumber)) ∘
          (fun (i : JsonInstruction) =>
            (⟨i.mnemonic, i.operand, i.comment, f i.lineNumber⟩ : JsonInstruction)))
          = (fun inst => decide (inst.lineNumber = item.lineNumber)) := by
        funext i
        simp only [Function.comp, decide_eq_decide]
        exact ⟨fun h => hf h, fun h => by rw [h]⟩
      rw [hp]
      cases hfind : cv.instructions.find? (fun inst => inst.lineNumber = item.lineNumber) with
      | none =>
        simp only [Option.map_none']
        exact ih st st1 h1 h2
      | some inst =>
        simp only [Option.map_some']
        rw [translateInstruction_lineNumber inst (f inst.lineNumber) st1.returnLabelIndex, h2]
        cases translateInstruction inst st.returnLabelIndex with
        | none => rfl
        | some res =>
          obtain ⟨text, index⟩ := res
          simp only []
          apply ih
          · simp only [h1]
          · rfl
    · rw [if_neg hi, if_neg hi]
      by_cases hd : item.type = "data".toList
      · rw [if_pos hd, if_pos hd]
        apply ih
        · simp only [h1]
        · exact h2
      · rw [if_neg hd, if_neg hd]
        exact ih st st1 h1 h2

theorem generateLabelCode_renumber (cv : State) (f : Int → Int) (hf : Function.Injective f)
    (labelName : Str) (items : List ProgramFlowItem) (st st1 : Emission)
    (h1 : st1.file = st.file) (h2 : st1.returnLabelIndex = st.returnLabelIndex) :
    (generateLabelCode
        ⟨cv.constants, cv.labels,
          cv.instructions.map (fun i => ⟨i.mnemonic, i.operand, i.comment, f i.lineNumber⟩),
          cv.data, cv.directives, cv.programFlow, cv.returnLabelIndex⟩
        labelName (items.map (fun it => ⟨it.type, it.content, it.comment, f it.lineNumber⟩))
        st1).map (fun r => (r.file, r.returnLabelIndex))
      = (generateLabelCode cv labelName items st).map (fun r => (r.file, r.returnLabelIndex)) := by
  unfold generateLabelCode
  cases labelName.getLast? with
  | none => rfl
  | some back =>
    simp only []
    apply generateItems_renumber cv f hf
    · simp only [h1]
    · exact h2

theorem groupLabels_renumber (cv : State) (f : Int → Int) (hf : Function.Injective f)
    (pf : List ProgramFlowItem) :
    ∀ (cl : Str) (ci : List ProgramFlowItem) (st st1 : Emission), st1.file = st.file →
      st1.returnLabelIndex = st.returnLabelIndex →
      (groupLabels
        ⟨cv.constants, cv.labels,
          cv.instructions.map (fun i => ⟨i.mnemonic, i.operand, i.comment, f i.lineNumber⟩),
          cv.data, cv.directives, cv.programFlow, cv.returnLabelIndex⟩
        (pf.map (fun it => ⟨it.type, it.content, it.comment, f it.lineNumber⟩)) cl
        (ci.map (fun it => ⟨it.type, it.content, it.comment, f it.lineNumber⟩)) st1).map
          (fun r => (r.file, r.returnLabelIndex))
      = (groupLabels cv pf cl ci st).map (fun r => (r.file, r.returnLabelIndex)) := by
  induction pf with
  | nil =>
    intro cl ci st st1 h1 h2
    rw [List.map_nil, groupLabels, groupLabels]
    by_cases hcl : ¬ cl.isEmpty
    · rw [if_pos hcl, if_pos hcl]
      exact generateLabelCode_renumber cv f hf cl ci st st1 h1 h2
    · rw [if_neg hcl, if_neg hcl, Option.map_some', Option.map_some', h1, h2]
  | cons item rest ih =>
    intro cl ci st st1 h1 h2
    rw [List.map_cons, groupLabels, groupLabels]
    simp only []
    by_cases hl : item.type = "label".toList
    · rw [if_pos hl, if_pos hl]
      by_cases hcl : ¬ cl.isEmpty
      · rw [if_pos hcl, if_pos hcl]
        have hg := generateLabelCode_renumber cv f hf cl ci st st1 h1 h2
        cases hA : generateLabelCode cv cl ci st with
        | none =>
          rw [hA] at hg
          rw [Option.map_eq_none'.1 hg]
        | some a =>
          rw [hA] at hg
          obtain ⟨b, hb, hab⟩ := Option.map_eq_some'.1 hg
          rw [hb]
          simp only []
          have h3 := (Prod.mk.inj hab).1
          have h4 := (Prod.mk.inj hab).2
          exact ih item.content [] a b h3 h4
      · rw [if_neg hcl, if_neg hcl]
        simp only []
        exact ih item.content [] st st1 h1 h2
    · rw [if_neg hl, if_neg hl]
      have := ih cl (ci ++ [item]) st st1 h1 h2
      rw [List.map_append, List.map_cons, List.map_nil] at this
      exact this

/-- C34 (amended): the emitter takes the entries in the order of the program_flow list and does
not sort them by line: the line number of an entry serves only to find its instruction record,
so that replacing every line number, in the program flow and in the instruction records, by its
image under any injective renumbering, order-reversing ones included, leaves the file and the
return counter produced by `generateSourceFile` unchanged. -/
theorem C34_line_numbers_only_look_up (cv : State) (f : Int → Int)
    (hf : Function.Injective f) :
    (generateSourceFile
        ⟨cv.constants, cv.labels,
          cv.instructions.map (fun i => ⟨i.mnemonic, i.operand, i.comment, f i.lineNumber⟩),
          cv.data, cv.directives,
          cv.programFlow.map (fun it => ⟨it.type, it.content, it.comment, f it.lineNumber⟩),
          cv.returnLabelIndex⟩).map (fun r => (r.file, r.returnLabelIndex))
      = (generateSourceFile cv).map (fun r => (r.file, r.returnLabelIndex)) := by
  have hg := groupLabels_renumber cv f hf cv.programFlow [] []
    { file := sourceHeader, returnLabelIndex := cv.returnLabelIndex, translated := [] }
    { file := sourceHeader, returnLabelIndex := cv.returnLabelIndex, translated := [] } rfl rfl
  rw [List.map_nil] at hg
  have hc := groupLabels_congr
    ⟨cv.constants, cv.labels,
      cv.instructions.map (fun i => ⟨i.mnemonic, i.operand, i.comment, f i.lineNumber⟩),
      cv.data, cv.directives, cv.programFlow, cv.returnLabelIndex⟩
    ⟨cv.constants, cv.labels,
      cv.instructions.map (fun i => ⟨i.mnemonic, i.operand, i.comment, f i.lineNumber⟩),
      cv.data, cv.directives,
      cv.programFlow.map (fun it => ⟨it.type, it.content, it.comment, f it.lineNumber⟩),
      cv.returnLabelIndex⟩ rfl rfl
  unfold generateSourceFile
  simp only []
  rw [hc]
  cases hA : groupLabels cv cv.programFlow [] []
      { file := sourceHeader, returnLabelIndex := cv.returnLabelIndex, translated := [] } with
  | none =>
    rw [hA] at hg
    rw [Option.map_eq_none'.1 hg]
  | some a =>
    rw [hA] at hg
    obtain ⟨b, hb, hab⟩ := Option.map_eq_some'.1 hg
    rw [hb]
    simp only [Option.map_some', Option.some.injEq, Prod.mk.injEq]
    rw [(Prod.mk.inj hab).1, (Prod.mk.inj hab).2]
    exact ⟨rfl, rfl⟩

/-- C34 (amended), on `A:` (line 1), `jsr Foo` (line 2) renumbered by `n ↦ -n`: the lines now
run downwards and the result is the same. -/
theorem C34_line_numbers_only_look_up_witness :
    (generateSourceFile
        ⟨[], [], [⟨"jsr".toList, "Foo".toList, [], -2⟩], [], [],
          [⟨"label".toList, "A".toList, [], -1⟩,
           ⟨"instruction".toList, "jsr Foo".toList, [], -2⟩], 0⟩).map
        (fun r => (r.file, r.returnLabelIndex))
      = (generateSourceFile
        ⟨[], [], [⟨"jsr".toList, "Foo".toList, [], 2⟩], [], [],
          [⟨"label".toList, "A".toList, [], 1⟩,
           ⟨"instruction".toList, "jsr Foo".toList, [], 2⟩], 0⟩).map
        (fun r => (r.file, r.returnLabelIndex)) :=
  C34_line_numbers_only_look_up
    ⟨[], [], [⟨"jsr".toList, "Foo".toList, [], 2⟩], [], [],
      [⟨"label".toList, "A".toList, [], 1⟩,
       ⟨"instruction".toList, "jsr Foo".toList, [], 2⟩], 0⟩ (fun n => -n) neg_injective

end JsonToCppConverter

namespace JsonToAssemblyConverter

/-! ## The JSON writer and reader -/

theorem unescapeJson_cons_of_ne (c : Char) (t : Str) (h : c ≠ '\\') :
    unescapeJson (c :: t) = c :: unescapeJson t := by
  cases t with
  | nil => rfl
  | cons d r => rw [unescapeJson, if_neg h]

theorem escapeJson_cons (c : Char) (s : Str) :
    escapeJson (c :: s) = escapeChar c ++ escapeJson s := by
  simp [escapeJson]

/-- C37: for every string s, `unescapeJson` of `unconvert.cpp` applied to `escapeJson` of
`convert.cpp` applied to s gives s back; in particular for the quote, the backslash, backspace,
form feed, newline, carriage return and tab. -/
theorem C37_unescape_escape (s : Str) :
    unescapeJson (escapeJson s) = s ∧
    unescapeJson (escapeJson ['"', '\\', Char.ofNat 8, Char.ofNat 12, '\n', '\r', '\t'])
      = ['"', '\\', Char.ofNat 8, Char.ofNat 12, '\n', '\r', '\t'] ∧
    escapeJson ['"', '\\', Char.ofNat 8, Char.ofNat 12, '\n', '\r', '\t']
      = "\\\"\\\\\\b\\f\\n\\r\\t".toList := by
  refine ⟨?_, by decide, by decide⟩
  induction s with
  | nil => rfl
  | cons c s ih =>
    rw [escapeJson_cons]
    unfold escapeChar
    by_cases h1 : c = '"'
    · rw [if_pos h1, h1]
      show unescapeJson ('\\' :: '"' :: escapeJson s) = _
      rw [unescapeJson, if_pos rfl, if_pos rfl, ih]
    rw [if_neg h1]
    by_cases h2 : c = '\\'
    · rw [if_pos h2, h2]
      show unescapeJson ('\\' :: '\\' :: escapeJson s) = _
      rw [unescapeJson, if_pos rfl, if_neg (by decide), if_pos rfl, ih]
    rw [if_neg h2]
    by_cases h3 : c = Char.ofNat 8
    · rw [if_pos h3, h3]
      show unescapeJson ('\\' :: 'b' :: escapeJson s) = _
      rw [unescapeJson, if_pos rfl, if_neg (by decide), if_neg (by decide), if_pos rfl, ih]
    rw [if_neg h3]
    by_cases h4 : c = Char.ofNat 12
    · rw [if_pos h4, h4]
      show unescapeJson ('\\' :: 'f' :: escapeJson s) = _
      rw [unescapeJson, if_pos rfl, if_neg (by decide), if_neg (by decide), if_neg (by decide),
        if_pos rfl, ih]
    rw [if_neg h4]
    by_cases h5 : c = '\n'
    · rw [if_pos h5, h5]
      show unescapeJson ('\\' :: 'n' :: escapeJson s) = _
      rw [unescapeJson, if_pos rfl, if_neg (by decide), if_neg (by decide), if_neg (by decide),
        if_neg (by decide), if_pos rfl, ih]
    rw [if_neg h5]
    by_cases h6 : c = '\r'
    · rw [if_pos h6, h6]
      show unescapeJson ('\\' :: 'r' :: escapeJson s) = _
      rw [unescapeJson, if_pos rfl, if_neg (by decide), if_neg (by decide), if_neg (by decide),
        if_neg (by decide), if_neg (by decide), if_pos rfl, ih]
    rw [if_neg h6]
    by_cases h7 : c = '\t'
    · rw [if_pos h7, h7]
      show unescapeJson ('\\' :: 't' :: escapeJson s) = _
      rw [unescapeJson, if_pos rfl, if_neg (by decide), if_neg (by decide), if_neg (by decide),
        if_neg (by decide), if_neg (by decide), if_neg (by decide), if_pos rfl, ih]
    rw [if_neg h7]
    show unescapeJson (c :: escapeJson s) = _
    rw [unescapeJson_cons_of_ne c _ h2, ih]

/-- C36 (what the code does): on the object that `generateJson` writes for the constant named
`line` with value `5` at line 3, `extractIntValue` for `line` finds the key in the name and
returns -1; on the one for the constant `comment = 5 ; x`, `extractStringValue` for `comment`
returns the value `5`; on the one for a name that is a single backslash, `extractStringValue`
for `name` runs past the closing quote.  The record `FOO = $10 ; note` at line 3 is read back as
written. -/
theorem C36_reader_misreads_writer :
    extractIntValue (generateJsonConstant
        ⟨.CONSTANT_DECL, "line".toList, "5".toList, [], 3, []⟩) "line".toList = some (-1) ∧
    extractStringValue (generateJsonConstant
        ⟨.CONSTANT_DECL, "comment".toList, "5".toList, "x".toList, 3, []⟩) "comment".toList
      = "5".toList ∧
    extractStringValue (generateJsonConstant
        ⟨.CONSTANT_DECL, "\\".toList, "5".toList, [], 3, []⟩) "name".toList
      = "\\\",\n        ".toList ∧
    (extractStringValue (generateJsonConstant
        ⟨.CONSTANT_DECL, "FOO".toList, "$10".toList, "note".toList, 3, []⟩) "name".toList
      = "FOO".toList ∧
     extractStringValue (generateJsonConstant
        ⟨.CONSTANT_DECL, "FOO".toList, "$10".toList, "note".toList, 3, []⟩) "value".toList
      = "$10".toList ∧
     extractStringValue (generateJsonConstant
        ⟨.CONSTANT_DECL, "FOO".toList, "$10".toList, "note".toList, 3, []⟩) "comment".toList
      = "note".toList ∧
     extractIntValue (generateJsonConstant
        ⟨.CONSTANT_DECL, "FOO".toList, "$10".toList, "note".toList, 3, []⟩) "line".toList
      = some 3) := by
  refine ⟨by rfl, by rfl, by rfl, by rfl, by rfl, by rfl, by rfl⟩

/-- A string that `formatForCa65` leaves as it is has no whitespace to collapse. -/
theorem collapseSpaces_of_fixed (s : Str) (h : formatForCa65 s = s) :
    collapseSpaces false s = s := by
  rcases List.eq_nil_or_concat s with h0 | ⟨t, x, hx⟩
  · rw [h0]
    rfl
  · rw [List.concat_eq_append] at hx
    have hlast : isSpace x = false := by
      apply formatForCa65_last (s := s)
      rw [h, hx, List.getLast?_concat]
    have hc : collapseSpaces false s = collapseSpaces false t ++ [x] := by
      rw [hx, collapseSpaces_append_cons false t [] x hlast]
      rfl
    have hr : (collapseSpaces false s).rdropWhile isSpace = collapseSpaces false s := by
      apply rdropWhile_eq_self_of_last
      intro y hy
      rw [hc, List.getLast?_concat] at hy
      rw [← Option.some.inj hy]
      exact hlast
    have hd : (collapseSpaces false s).dropWhile isSpace = collapseSpaces false s := by
      apply dropWhile_eq_self_of_head
      intro y hy
      cases hs : s with
      | nil =>
        rw [hs] at hx
        exact absurd hx (by simp)
      | cons a r =>
        have ha : isSpace a = false := by
          apply formatForCa65_head (s := s)
          rw [h, hs]
          rfl
        rw [hs, collapseSpaces_cons_of_not false a r ha] at hy
        rw [← Option.some.inj hy]
        exact ha
    have := formatForCa65_eq s
    rw [h] at this
    unfold stripSpaces at this
    rw [hd, hr] at this
    exact this.symm

/-- The text `name = value` of two strings that `formatForCa65` leaves as they are is left as
it is too. -/
theorem formatForCa65_assignment (a b : Str) (ha : formatForCa65 a = a)
    (hb : formatForCa65 b = b) (ha0 : a ≠ []) (hb0 : b ≠ []) :
    formatForCa65 (a ++ " = ".toList ++ b) = a ++ " = ".toList ++ b := by
  rcases List.eq_nil_or_concat a with h0 | ⟨t, x, hx⟩
  · exact absurd h0 ha0
  rw [List.concat_eq_append] at hx
  have hlast : isSpace x = false := by
    apply formatForCa65_last (s := a)
    rw [ha, hx, List.getLast?_concat]
  cases hbs : b with
  | nil => exact absurd hbs hb0
  | cons y r =>
    have hy : isSpace y = false := by
      apply formatForCa65_head (s := b)
      rw [hb, hbs]
      rfl
    have hblast : ∀ z, (y :: r).getLast? = some z → isSpace z = false := by
      intro z hz
      apply formatForCa65_last (s := b)
      rw [hb, hbs]
      exact hz
    have hca := collapseSpaces_of_fixed a ha
    have hcb := collapseSpaces_of_fixed b hb
    rw [hbs, collapseSpaces_cons_of_not false y r hy] at hcb
    have hcat : collapseSpaces false t ++ [x] = a := by
      rw [← hca, hx, collapseSpaces_append_cons false t [] x hlast]
      rfl
    have hc : collapseSpaces false (a ++ " = ".toList ++ (y :: r))
        = a ++ " = ".toList ++ (y :: r) := by
      have e1 : a ++ " = ".toList ++ (y :: r) = t ++ x :: (' ' :: '=' :: ' ' :: y :: r) := by
        rw [hx]
        simp
      rw [e1, collapseSpaces_append_cons false t _ x hlast]
      have e2 : collapseSpaces false (' ' :: '=' :: ' ' :: y :: r)
          = ' ' :: '=' :: ' ' :: y :: collapseSpaces false r := by
        rw [collapseSpaces, if_pos (by decide), if_neg (by decide),
          collapseSpaces_cons_of_not true '=' _ (by decide),
          collapseSpaces, if_pos (by decide), if_neg (by decide),
          collapseSpaces_cons_of_not true y r hy]
      rw [e2, hcb]
      have e3 : collapseSpaces false t ++ x :: ' ' :: '=' :: ' ' :: y :: r
          = (collapseSpaces false t ++ [x]) ++ (' ' :: '=' :: ' ' :: y :: r) := by
        simp
      rw [e3, hcat, hx]
      simp
    rw [formatForCa65_eq, hc]
    unfold stripSpaces
    have hd : (a ++ " = ".toList ++ (y :: r)).dropWhile isSpace
        = a ++ " = ".toList ++ (y :: r) := by
      apply dropWhile_eq_self_of_head
      intro z hz
      cases has : a with
      | nil => exact absurd has ha0
      | cons a1 r1 =>
        have : isSpace a1 = false := by
          apply formatForCa65_head (s := a)
          rw [ha, has]
          rfl
        rw [has] at hz
        rw [← Option.some.inj hz]
        exact this
    rw [hd]
    apply rdropWhile_eq_self_of_last
    intro z hz
    rw [List.getLast?_append] at hz
    cases hl : (y :: r).getLast? with
    | none => exact absurd (List.getLast?_eq_none_iff.1 hl) (by simp)
    | some w =>
      rw [hl] at hz
      rw [← Option.some.inj hz]
      exact hblast w hl

theorem addComment_ne_nil (line : ProgramLine) (body : Str) (h : body ≠ []) :
    addComment line body ≠ [] := by
  unfold addComment
  split
  · simp only []
    rw [if_pos (by simpa using h)]
    cases body with
    | nil => exact absurd rfl h
    | cons a r => simp
  · exact h

theorem outputLine_of_reconstructLine (line : ProgramLine) (body : Str) (h : body ≠ [])
    (hr : reconstructLine line = some body) :
    outputLine line = some (addComment line body) := by
  unfold outputLine
  rw [hr]
  simp only []
  rw [if_pos (by simpa using addComment_ne_nil line body h)]

theorem generateAssembly_cons (line : ProgramLine) (pf : List ProgramLine) :
    generateAssembly (line :: pf)
      = (match outputLine line with
          | none => []
          | some r => r ++ "\n".toList) ++ generateAssembly pf := by
  unfold generateAssembly
  rw [List.map_cons, List.flatten_cons]

/-- C31: for a record whose fields are left as they are by `formatForCa65` (already
whitespace-normalised) and non-empty, the operand and the comment possibly empty,
`generateAssembly` writes one line, by kind: constant `name = value`; label `name:`; instruction
four spaces, the mnemonic, then a space and the operand when the operand is non-empty; data four
spaces, the directive, a space and the values joined by `, `; directive the name, unindented
when it begins with `.` and indented by four spaces otherwise, then a space and the operand
when non-empty; a non-empty comment follows the line, padded with spaces to column 40, after
`; `. -/
theorem C31_line_templates (line : ProgramLine)
    (hcomment : formatForCa65 line.comment = line.comment) :
    (line.type = "constants".toList → formatForCa65 line.name = line.name → line.name ≠ [] →
      formatForCa65 line.value = line.value → line.value ≠ [] →
      outputLine line = some (addComment line (line.name ++ " = ".toList ++ line.value))) ∧
    (line.type = "labels".toList → formatForCa65 line.name = line.name → line.name ≠ [] →
      outputLine line = some (addComment line (line.name ++ ":".toList))) ∧
    (line.type = "instructions".toList → formatForCa65 line.mnemonic = line.mnemonic →
      line.mnemonic ≠ [] → formatForCa65 line.operand = line.operand →
      outputLine line = some (addComment line ("    ".toList ++ line.mnemonic ++
        (if line.operand = [] then [] else " ".toList ++ line.operand)))) ∧
    (line.type = "data".toList → formatForCa65 line.directive = line.directive →
      line.directive ≠ [] → line.values ≠ [] →
      (∀ v ∈ line.values, formatForCa65 v = v ∧ v ≠ []) →
      outputLine line = some (addComment line ("    ".toList ++ line.directive ++
        " ".toList ++ ", ".toList.intercalate line.values))) ∧
    (line.type = "directives".toList → formatForCa65 line.name = line.name →
      line.name ≠ [] → formatForCa65 line.operand = line.operand →
      outputLine line = some (addComment line
        ((if line.name.head? = some '.' then line.name else "    ".toList ++ line.name) ++
          (if line.operand = [] then [] else " ".toList ++ line.operand)))) ∧
    (∀ body : Str, body ≠ [] →
      addComment line body
        = if line.comment = [] then body
          else body ++ List.replicate (40 - body.length) ' ' ++ "; ".toList ++ line.comment) ∧
    (∀ pf : List ProgramLine,
      generateAssembly (line :: pf)
        = (match outputLine line with
            | none => []
            | some r => r ++ "\n".toList) ++ generateAssembly pf) := by
  refine ⟨?_, ?_, ?_, ?_, ?_, ?_, generateAssembly_cons line⟩
  · intro hty hn hn0 hv hv0
    apply outputLine_of_reconstructLine
    · cases hs : line.name with
      | nil => exact absurd hs hn0
      | cons a r => simp
    · unfold reconstructLine
      rw [if_pos hty, formatForCa65_assignment _ _ hn hv hn0 hv0]
  · intro hty hn hn0
    apply outputLine_of_reconstructLine
    · simp
    · unfold reconstructLine
      rw [hty, if_neg (by decide), if_pos rfl, hn]
  · intro hty hm hm0 ho
    apply outputLine_of_reconstructLine
    · simp
    · unfold reconstructLine
      rw [hty, if_neg (by decide), if_neg (by decide), if_pos rfl]
      simp only [hm, ho]
      rw [if_neg (by simpa using hm0)]
      by_cases hop : line.operand = []
      · simp [hop]
      · simp [hop]
  · intro hty hd hd0 hv0 hvs
    apply outputLine_of_reconstructLine
    · simp
    · unfold reconstructLine
      rw [hty, if_neg (by decide), if_neg (by decide), if_neg (by decide), if_pos rfl]
      simp only [hd]
      rw [if_neg (by simpa using hd0)]
      have hmap : line.values.map formatForCa65 = line.values := by
        conv => rhs; rw [← List.map_id line.values]
        apply List.map_congr_left
        intro v hv
        exact (hvs v hv).1
      have hfil : (line.values.filter (fun v => !v.isEmpty)) = line.values := by
        rw [List.filter_eq_self]
        intro v hv
        simpa using (hvs v hv).2
      rw [hmap, hfil, if_pos ⟨by simpa using hv0, by simpa using hv0⟩]
      simp only [List.append_assoc]
  · intro hty hn hn0 ho
    apply outputLine_of_reconstructLine
    · by_cases hdot : line.name.head? = some '.'
      · rw [if_pos hdot]
        cases hs : line.name with
        | nil => exact absurd hs hn0
        | cons a r => simp
      · rw [if_neg hdot]
        simp
    · unfold reconstructLine
      rw [hty, if_neg (by decide), if_neg (by decide), if_neg (by decide), if_neg (by decide),
        if_pos rfl]
      simp only [hn, ho]
      rw [if_neg (by simpa using hn0)]
      by_cases hop : line.operand = []
      · simp [hop]
      · simp [hop]
  · intro body hb
    unfold addComment
    by_cases hc : line.comment = []
    · rw [if_neg (by simp [hc]), if_pos hc]
    · rw [if_pos (by simpa using hc), if_neg hc]
      simp only [hcomment]
      rw [if_pos (by simpa using hb)]

/-- C31, on the five kinds of record and on a label with a comment. -/
theorem C31_line_templates_witness :
    outputLine ⟨1, "constants".toList, [], [], "FOO".toList, "$10".toList, [], [], [], []⟩
      = some "FOO = $10".toList ∧
    outputLine ⟨2, "labels".toList, [], "entry".toList, "Start".toList, [], [], [], [], []⟩
      = some "Start:                                  ; entry".toList ∧
    outputLine ⟨3, "instructions".toList, [], [], [], [], "#$05".toList, "lda".toList, [], []⟩
      = some "    lda #$05".toList ∧
    outputLine ⟨4, "data".toList, [], [], [], [], [], [], ".db".toList,
        ["$01".toList, "$02".toList]⟩
      = some "    .db $01, $02".toList ∧
    outputLine ⟨5, "directives".toList, [], [], ".org".toList, [], "$8000".toList, [], [], []⟩
      = some ".org $8000".toList := by
  refine ⟨?_, ?_, ?_, ?_, ?_⟩
  · rw [(C31_line_templates ⟨1, "constants".toList, [], [], "FOO".toList, "$10".toList, [],
      [], [], []⟩ (by decide)).1 (by decide) (by decide) (by decide) (by decide) (by decide)]
    decide
  · rw [(C31_line_templates ⟨2, "labels".toList, [], "entry".toList, "Start".toList, [], [],
      [], [], []⟩ (by decide)).2.1 (by decide) (by decide) (by decide)]
    decide
  · rw [(C31_line_templates ⟨3, "instructions".toList, [], [], [], [], "#$05".toList,
      "lda".toList, [], []⟩ (by decide)).2.2.1 (by decide) (by decide) (by decide) (by decide)]
    decide
  · rw [(C31_line_templates ⟨4, "data".toList, [], [], [], [], [], [], ".db".toList,
      ["$01".toList, "$02".toList]⟩ (by decide)).2.2.2.1 (by decide) (by decide) (by decide)
      (by decide) (by decide)]
    decide
  · rw [(C31_line_templates ⟨5, "directives".toList, [], [], ".org".toList, [],
      "$8000".toList, [], [], []⟩ (by decide)).2.2.2.2.1 (by decide) (by decide) (by decide)
      (by decide)]
    decide

/-! ## The line number as the sort key of the reconstructor -/

end JsonToAssemblyConverter

end Asm6502
